import Mathlib

set_option maxHeartbeats 1000000

/-!
Verification of the HTML5-style parsing pipeline and the browser engine
navigation logic of this repository.

The repository ships the parser only as a stub interface
(src/kernel/src/browser/html/parser.h declares the tokenizer, the tree
constructor, the adoption agency algorithm, the formatting reconstruction,
and the error taxonomy, but no implementation is present in the tree).
Following the specification, the missing bodies are modelled here from the
specification text itself; the enumerations and structures declared by the
header are embedded as they appear in the header.  The navigation history
logic of src/kernel/src/browser/engine.c is embedded directly from the C
source.
-/

/-! ## Character classes (spec section 4.1: transitions are driven purely by
the next input character class: whitespace, tag delimiters, quote, EOF,
any other). -/

/-- ASCII whitespace as used by the tokenizer character classification. -/
def isHtmlSpace (c : Char) : Bool :=
  c = ' ' || c = '\t' || c = '\n' || c = '\r' || c = '\x0c'

/-- ASCII letter test used to recognise tag-name starts. -/
def isAsciiLetter (c : Char) : Bool :=
  ('a' ≤ c && c ≤ 'z') || ('A' ≤ c && c ≤ 'Z')

/-- ASCII lowercasing; tag and attribute names are case-insensitive. -/
def lowerChar (c : Char) : Char :=
  if 'A' ≤ c && c ≤ 'Z' then Char.ofNat (c.toNat + 32) else c

/-- Lowercase a whole string (list-based so that it reduces). -/
def strLower (s : String) : String := ⟨s.data.map lowerChar⟩

/-- Prefix test on strings (list-based so that it reduces). -/
def strIsPrefixOf (a b : String) : Bool := List.isPrefixOf a.data b.data

/-! ## Token model (header lines 31-53, spec section 3). -/

/-- Token type enumeration embedded from html_token_type_t
(src/kernel/src/browser/html/parser.h lines 32-40). -/
inductive html_token_type_t where
  | TOKEN_DOCTYPE
  | TOKEN_START_TAG
  | TOKEN_END_TAG
  | TOKEN_SELF_CLOSING_TAG
  | TOKEN_COMMENT
  | TOKEN_CHARACTER
  | TOKEN_EOF
deriving DecidableEq, Repr

/-- Parse error kinds embedded from html_parse_error_t
(src/kernel/src/browser/html/parser.h lines 129-137). -/
inductive html_parse_error_t where
  | HTML_ERROR_UNEXPECTED_TOKEN
  | HTML_ERROR_UNEXPECTED_EOF
  | HTML_ERROR_MISSING_END_TAG
  | HTML_ERROR_NESTED_FORM
  | HTML_ERROR_INVALID_NESTING
  | HTML_ERROR_DUPLICATE_ATTRIBUTE
  | HTML_ERROR_INVALID_CHARACTER
deriving DecidableEq, Repr

/-- The tagged token union of spec section 3 (html_token_t of the header):
doctype, start tag with ordered attribute list and self-closing flag, end
tag, comment, character, end of file. -/
inductive HtmlToken where
  | doctypeTok (name : String)
  | startTag (name : String) (attrs : List (String × String)) (selfClosing : Bool)
  | endTag (name : String)
  | commentTok (data : String)
  | charTok (c : Char)
  | eofTok
deriving DecidableEq, Repr

/-- Maps a token to the header token-type enumeration; a self-closing start
tag carries TOKEN_SELF_CLOSING_TAG as in the header enum. -/
def tokenType : HtmlToken → html_token_type_t
  | .doctypeTok _ => .TOKEN_DOCTYPE
  | .startTag _ _ false => .TOKEN_START_TAG
  | .startTag _ _ true => .TOKEN_SELF_CLOSING_TAG
  | .endTag _ => .TOKEN_END_TAG
  | .commentTok _ => .TOKEN_COMMENT
  | .charTok _ => .TOKEN_CHARACTER
  | .eofTok => .TOKEN_EOF

/-! ## Tokenizer states (header lines 8-29, spec section 4.1).
The header enumerates twenty states; spec section 4.1 additionally names
the markup-declaration-open state (needed to disambiguate comments and
doctypes after the bounded lookahead) and the bogus-comment recovery
state, which are added here for the model. -/

/-- Tokenizer state enumeration, embedded from html_tokenizer_state_t with
the two extra states spec section 4.1 names. -/
inductive html_tokenizer_state_t where
  | STATE_DATA
  | STATE_TAG_OPEN
  | STATE_END_TAG_OPEN
  | STATE_TAG_NAME
  | STATE_BEFORE_ATTRIBUTE_NAME
  | STATE_ATTRIBUTE_NAME
  | STATE_AFTER_ATTRIBUTE_NAME
  | STATE_BEFORE_ATTRIBUTE_VALUE
  | STATE_ATTRIBUTE_VALUE_DOUBLE_QUOTED
  | STATE_ATTRIBUTE_VALUE_SINGLE_QUOTED
  | STATE_ATTRIBUTE_VALUE_UNQUOTED
  | STATE_AFTER_ATTRIBUTE_VALUE_QUOTED
  | STATE_SELF_CLOSING_START_TAG
  | STATE_COMMENT_START
  | STATE_COMMENT
  | STATE_COMMENT_END
  | STATE_DOCTYPE
  | STATE_SCRIPT_DATA
  | STATE_STYLE_DATA
  | STATE_CDATA_SECTION
  | STATE_MARKUP_DECLARATION_OPEN
  | STATE_BOGUS_COMMENT
deriving DecidableEq, Repr

/-- Modelled from the spec: the header declares html_tokenizer_t with the
input cursor and one pending token buffer (parser.h lines 56-64) but no
implementation; per spec section 4.1 the machine accumulates the pending
tag name, attribute list, pending attribute, comment and doctype buffers,
and per section 7 it records (never throws) parse errors.  Emitted tokens
are accumulated most-recent-first in emittedRev. -/
structure html_tokenizer_t where
  state : html_tokenizer_state_t := .STATE_DATA
  tagName : String := ""
  isEnd : Bool := false
  selfClosing : Bool := false
  attrs : List (String × String) := []
  pendName : String := ""
  pendValue : String := ""
  hasPend : Bool := false
  commentBuf : String := ""
  doctypeBuf : String := ""
  mdBuf : String := ""
  dashes : Nat := 0
  emittedRev : List HtmlToken := []
  errors : List html_parse_error_t := []
deriving Repr

/-- Emit one token (prepended to the reversed emission list). -/
def tokEmit (st : html_tokenizer_t) (t : HtmlToken) : html_tokenizer_t :=
  { st with emittedRev := t :: st.emittedRev }

/-- Record a non-fatal parse error (spec section 7: errors are reported,
never thrown). -/
def tokErr (st : html_tokenizer_t) (e : html_parse_error_t) : html_tokenizer_t :=
  { st with errors := e :: st.errors }

/-- Commit the pending attribute onto the current tag.  Per the spec
section 3 invariant, a duplicate attribute name is dropped (first
occurrence wins) and reported as HTML_ERROR_DUPLICATE_ATTRIBUTE. -/
def commitAttr (st : html_tokenizer_t) : html_tokenizer_t :=
  if st.hasPend then
    if st.attrs.any (fun a => a.1 = st.pendName) then
      { (tokErr st .HTML_ERROR_DUPLICATE_ATTRIBUTE) with
          pendName := "", pendValue := "", hasPend := false }
    else
      { st with attrs := st.attrs ++ [(st.pendName, st.pendValue)],
                pendName := "", pendValue := "", hasPend := false }
  else st

/-- Begin accumulating a fresh pending attribute. -/
def startAttr (st : html_tokenizer_t) (c : Char) : html_tokenizer_t :=
  { st with pendName := String.singleton (lowerChar c), pendValue := "",
            hasPend := true, state := .STATE_ATTRIBUTE_NAME }

/-- Emit the pending tag token.  An end tag with attributes is a
reportable error and its attributes are dropped (spec section 3). -/
def emitCurrentTag (st : html_tokenizer_t) : html_tokenizer_t :=
  let st := commitAttr st
  let st :=
    if st.isEnd then
      let st := if st.attrs ≠ [] then tokErr st .HTML_ERROR_UNEXPECTED_TOKEN else st
      tokEmit st (.endTag st.tagName)
    else
      tokEmit st (.startTag st.tagName st.attrs st.selfClosing)
  { st with state := .STATE_DATA, tagName := "", isEnd := false,
            selfClosing := false, attrs := [] }

/-- Reset tag accumulation and enter the tag-name state. -/
def startTagState (st : html_tokenizer_t) (c : Char) (isEnd : Bool) : html_tokenizer_t :=
  { st with state := .STATE_TAG_NAME, tagName := String.singleton (lowerChar c),
            isEnd := isEnd, selfClosing := false, attrs := [],
            pendName := "", pendValue := "", hasPend := false }

/-- One tokenizer step on the next input character: the character-class
driven transition table of spec section 4.1.  The raw-text states
(script data, style data, CDATA) are present in the header enumeration
but are never entered by this model, which does not model the
tree-constructor feedback that switches into them; they behave as the
data state. -/
def tokStep (st : html_tokenizer_t) (c : Char) : html_tokenizer_t :=
  match st.state with
  | .STATE_DATA | .STATE_SCRIPT_DATA | .STATE_STYLE_DATA | .STATE_CDATA_SECTION =>
    if c = '<' then { st with state := .STATE_TAG_OPEN }
    else tokEmit st (.charTok c)
  | .STATE_TAG_OPEN =>
    if c = '!' then { st with state := .STATE_MARKUP_DECLARATION_OPEN, mdBuf := "" }
    else if c = '/' then { st with state := .STATE_END_TAG_OPEN }
    else if isAsciiLetter c then startTagState st c false
    else if c = '?' then
      { (tokErr st .HTML_ERROR_UNEXPECTED_TOKEN) with
          state := .STATE_BOGUS_COMMENT, commentBuf := String.singleton c }
    else
      -- invalid first character of tag name: emit the bare <, reprocess c in data
      let st := tokEmit (tokErr st .HTML_ERROR_INVALID_CHARACTER) (.charTok '<')
      if c = '<' then { st with state := .STATE_TAG_OPEN }
      else { (tokEmit st (.charTok c)) with state := .STATE_DATA }
  | .STATE_END_TAG_OPEN =>
    if isAsciiLetter c then startTagState st c true
    else if c = '>' then
      { (tokErr st .HTML_ERROR_UNEXPECTED_TOKEN) with state := .STATE_DATA }
    else
      { (tokErr st .HTML_ERROR_INVALID_CHARACTER) with
          state := .STATE_BOGUS_COMMENT, commentBuf := String.singleton c }
  | .STATE_TAG_NAME =>
    if isHtmlSpace c then { st with state := .STATE_BEFORE_ATTRIBUTE_NAME }
    else if c = '/' then { st with state := .STATE_SELF_CLOSING_START_TAG }
    else if c = '>' then emitCurrentTag st
    else { st with tagName := st.tagName.push (lowerChar c) }
  | .STATE_BEFORE_ATTRIBUTE_NAME =>
    if isHtmlSpace c then st
    else if c = '/' then { st with state := .STATE_SELF_CLOSING_START_TAG }
    else if c = '>' then emitCurrentTag st
    else if c = '=' then startAttr (tokErr st .HTML_ERROR_INVALID_CHARACTER) c
    else startAttr st c
  | .STATE_ATTRIBUTE_NAME =>
    if isHtmlSpace c then { st with state := .STATE_AFTER_ATTRIBUTE_NAME }
    else if c = '/' then { (commitAttr st) with state := .STATE_SELF_CLOSING_START_TAG }
    else if c = '=' then { st with state := .STATE_BEFORE_ATTRIBUTE_VALUE }
    else if c = '>' then emitCurrentTag st
    else { st with pendName := st.pendName.push (lowerChar c) }
  | .STATE_AFTER_ATTRIBUTE_NAME =>
    if isHtmlSpace c then st
    else if c = '/' then { (commitAttr st) with state := .STATE_SELF_CLOSING_START_TAG }
    else if c = '=' then { st with state := .STATE_BEFORE_ATTRIBUTE_VALUE }
    else if c = '>' then emitCurrentTag st
    else startAttr (commitAttr st) c
  | .STATE_BEFORE_ATTRIBUTE_VALUE =>
    if isHtmlSpace c then st
    else if c = '"' then { st with state := .STATE_ATTRIBUTE_VALUE_DOUBLE_QUOTED }
    else if c = '\'' then { st with state := .STATE_ATTRIBUTE_VALUE_SINGLE_QUOTED }
    else if c = '>' then emitCurrentTag (tokErr st .HTML_ERROR_UNEXPECTED_TOKEN)
    else { st with state := .STATE_ATTRIBUTE_VALUE_UNQUOTED,
                   pendValue := String.singleton c }
  | .STATE_ATTRIBUTE_VALUE_DOUBLE_QUOTED =>
    if c = '"' then { (commitAttr st) with state := .STATE_AFTER_ATTRIBUTE_VALUE_QUOTED }
    else { st with pendValue := st.pendValue.push c }
  | .STATE_ATTRIBUTE_VALUE_SINGLE_QUOTED =>
    if c = '\'' then { (commitAttr st) with state := .STATE_AFTER_ATTRIBUTE_VALUE_QUOTED }
    else { st with pendValue := st.pendValue.push c }
  | .STATE_ATTRIBUTE_VALUE_UNQUOTED =>
    if isHtmlSpace c then { (commitAttr st) with state := .STATE_BEFORE_ATTRIBUTE_NAME }
    else if c = '>' then emitCurrentTag st
    else { st with pendValue := st.pendValue.push c }
  | .STATE_AFTER_ATTRIBUTE_VALUE_QUOTED =>
    if isHtmlSpace c then { st with state := .STATE_BEFORE_ATTRIBUTE_NAME }
    else if c = '/' then { st with state := .STATE_SELF_CLOSING_START_TAG }
    else if c = '>' then emitCurrentTag st
    else startAttr (tokErr st .HTML_ERROR_INVALID_CHARACTER) c
  | .STATE_SELF_CLOSING_START_TAG =>
    if c = '>' then emitCurrentTag { st with selfClosing := true }
    else
      let st := tokErr st .HTML_ERROR_INVALID_CHARACTER
      if isHtmlSpace c then { st with state := .STATE_BEFORE_ATTRIBUTE_NAME }
      else if c = '/' then { st with state := .STATE_SELF_CLOSING_START_TAG }
      else startAttr st c
  | .STATE_MARKUP_DECLARATION_OPEN =>
    let buf := st.mdBuf.push c
    let low := strLower buf
    if buf = "--" then
      { st with state := .STATE_COMMENT_START, commentBuf := "", dashes := 0, mdBuf := "" }
    else if low = "doctype" then
      { st with state := .STATE_DOCTYPE, doctypeBuf := "", mdBuf := "" }
    else if strIsPrefixOf buf "--" || strIsPrefixOf low "doctype" then
      { st with mdBuf := buf }
    else
      { (tokErr st .HTML_ERROR_UNEXPECTED_TOKEN) with
          state := .STATE_BOGUS_COMMENT, commentBuf := buf, mdBuf := "" }
  | .STATE_COMMENT_START =>
    if c = '>' then
      { (tokEmit (tokErr st .HTML_ERROR_UNEXPECTED_TOKEN) (.commentTok "")) with
          state := .STATE_DATA, commentBuf := "" }
    else if c = '-' then { st with state := .STATE_COMMENT_END, dashes := 1 }
    else { st with state := .STATE_COMMENT, commentBuf := String.singleton c }
  | .STATE_COMMENT =>
    if c = '-' then { st with state := .STATE_COMMENT_END, dashes := 1 }
    else { st with commentBuf := st.commentBuf.push c }
  | .STATE_COMMENT_END =>
    if c = '-' then { st with dashes := st.dashes + 1 }
    else if c = '>' then
      if 2 ≤ st.dashes then
        { (tokEmit st (.commentTok (st.commentBuf.pushn '-' (st.dashes - 2)))) with
            state := .STATE_DATA, commentBuf := "", dashes := 0 }
      else
        { st with state := .STATE_COMMENT,
                  commentBuf := (st.commentBuf.pushn '-' st.dashes).push '>',
                  dashes := 0 }
    else
      { st with state := .STATE_COMMENT,
                commentBuf := (st.commentBuf.pushn '-' st.dashes).push c,
                dashes := 0 }
  | .STATE_DOCTYPE =>
    if c = '>' then
      { (tokEmit st (.doctypeTok st.doctypeBuf)) with
          state := .STATE_DATA, doctypeBuf := "" }
    else if isHtmlSpace c && st.doctypeBuf = "" then st
    else { st with doctypeBuf := st.doctypeBuf.push (lowerChar c) }
  | .STATE_BOGUS_COMMENT =>
    if c = '>' then
      { (tokEmit st (.commentTok st.commentBuf)) with
          state := .STATE_DATA, commentBuf := "" }
    else { st with commentBuf := st.commentBuf.push c }

/-- End-of-input handling, spec section 4.1: an unexpected EOF in any
state still forces emission of whatever partial token is pending
(unterminated tag, doctype, or comment); the tokenizer never raises a
fatal error, it only records a parse-error kind. -/
def tokFlush (st : html_tokenizer_t) : html_tokenizer_t :=
  match st.state with
  | .STATE_DATA | .STATE_SCRIPT_DATA | .STATE_STYLE_DATA | .STATE_CDATA_SECTION => st
  | .STATE_TAG_OPEN =>
    tokEmit (tokErr st .HTML_ERROR_UNEXPECTED_EOF) (.charTok '<')
  | .STATE_END_TAG_OPEN =>
    tokEmit (tokEmit (tokErr st .HTML_ERROR_UNEXPECTED_EOF) (.charTok '<')) (.charTok '/')
  | .STATE_TAG_NAME | .STATE_BEFORE_ATTRIBUTE_NAME | .STATE_ATTRIBUTE_NAME
  | .STATE_AFTER_ATTRIBUTE_NAME | .STATE_BEFORE_ATTRIBUTE_VALUE
  | .STATE_ATTRIBUTE_VALUE_DOUBLE_QUOTED | .STATE_ATTRIBUTE_VALUE_SINGLE_QUOTED
  | .STATE_ATTRIBUTE_VALUE_UNQUOTED | .STATE_AFTER_ATTRIBUTE_VALUE_QUOTED
  | .STATE_SELF_CLOSING_START_TAG =>
    emitCurrentTag (tokErr st .HTML_ERROR_UNEXPECTED_EOF)
  | .STATE_MARKUP_DECLARATION_OPEN =>
    tokEmit (tokErr st .HTML_ERROR_UNEXPECTED_EOF) (.commentTok st.mdBuf)
  | .STATE_COMMENT_START =>
    tokEmit (tokErr st .HTML_ERROR_UNEXPECTED_EOF) (.commentTok "")
  | .STATE_COMMENT =>
    tokEmit (tokErr st .HTML_ERROR_UNEXPECTED_EOF) (.commentTok st.commentBuf)
  | .STATE_COMMENT_END =>
    tokEmit (tokErr st .HTML_ERROR_UNEXPECTED_EOF)
      (.commentTok (st.commentBuf.pushn '-' st.dashes))
  | .STATE_DOCTYPE =>
    tokEmit (tokErr st .HTML_ERROR_UNEXPECTED_EOF) (.doctypeTok st.doctypeBuf)
  | .STATE_BOGUS_COMMENT =>
    tokEmit (tokErr st .HTML_ERROR_UNEXPECTED_EOF) (.commentTok st.commentBuf)

/-- Final tokenizer state after scanning a whole input string and
handling end of input. -/
def htmlTokenizeState (s : String) : html_tokenizer_t :=
  tokFlush (s.data.foldl tokStep {})

/-- Modelled from the spec: html_tokenizer_next_token (parser.h line 110)
has no body in the repository; this is the full lazy token sequence it
would produce, terminated by the EndOfFile token (spec sections 3, 4.1). -/
def htmlTokenize (s : String) : List HtmlToken :=
  (htmlTokenizeState s).emittedRev.reverse ++ [.eofTok]

/-- Parse errors recorded by the tokenizer over a whole input,
oldest first. -/
def htmlTokenizeErrors (s : String) : List html_parse_error_t :=
  (htmlTokenizeState s).errors.reverse

/-! ## Node tree (spec section 3 Node, design note section 9: arena-owned
tree with parent-owning-children and index back-references). -/

/-- DOM node type enumeration embedded from dom_node_type_t
(src/kernel/src/browser/html/dom.h lines 8-18). -/
inductive dom_node_type_t where
  | NODE_ELEMENT
  | NODE_ATTRIBUTE
  | NODE_TEXT
  | NODE_CDATA_SECTION
  | NODE_PROCESSING_INSTRUCTION
  | NODE_COMMENT
  | NODE_DOCUMENT
  | NODE_DOCUMENT_TYPE
  | NODE_DOCUMENT_FRAGMENT
deriving DecidableEq, Repr

/-- One arena node: kind, tag name, ordered attribute list, text payload,
owned children (indices) and the non-owning parent back-reference. -/
structure NodeData where
  kind : dom_node_type_t := .NODE_ELEMENT
  name : String := ""
  attrs : List (String × String) := []
  text : String := ""
  children : List Nat := []
  parent : Option Nat := none
deriving DecidableEq, Repr

/-- Pointwise update of one position of a list (no-op out of range). -/
def listModify (f : NodeData → NodeData) : List NodeData → Nat → List NodeData
  | [], _ => []
  | x :: xs, 0 => f x :: xs
  | x :: xs, i + 1 => x :: listModify f xs i

/-- The arena.  Index 0 is always the Document node. -/
structure Dom where
  nodes : List NodeData := [{ kind := .NODE_DOCUMENT }]
deriving DecidableEq, Repr

/-- The detached placeholder read for out-of-range indices, so that no
lookup is ever fatal. -/
def nodeDefault : NodeData := { kind := .NODE_DOCUMENT }

/-- Total node lookup. -/
def Dom.get (d : Dom) (i : Nat) : NodeData :=
  d.nodes.getD i nodeDefault

/-- The arena size (indices below it are live). -/
def Dom.size (d : Dom) : Nat := d.nodes.length

/-- Pointwise node update (no-op out of range). -/
def Dom.modifyNode (d : Dom) (i : Nat) (f : NodeData → NodeData) : Dom :=
  { nodes := listModify f d.nodes i }

/-- Allocate a fresh node, returning its index. -/
def Dom.alloc (d : Dom) (n : NodeData) : Dom × Nat :=
  ({ nodes := d.nodes ++ [n] }, d.nodes.length)

/-- Node transformer: append one child index. -/
def addChildFn (c : Nat) (n : NodeData) : NodeData :=
  { n with children := n.children ++ [c] }

/-- Node transformer: set the parent back-reference. -/
def setParentFn (p : Option Nat) (n : NodeData) : NodeData :=
  { n with parent := p }

/-- Node transformer: remove one child index. -/
def removeChildFn (c : Nat) (n : NodeData) : NodeData :=
  { n with children := n.children.filter (· ≠ c) }

/-- Node transformer: drop all children. -/
def clearChildrenFn (n : NodeData) : NodeData :=
  { n with children := [] }

/-- Node transformer: append a batch of child indices. -/
def addChildrenFn (cs : List Nat) (n : NodeData) : NodeData :=
  { n with children := n.children ++ cs }

/-- Node transformer: append one character to the text payload. -/
def pushTextFn (c : Char) (n : NodeData) : NodeData :=
  { n with text := n.text.push c }

/-- Append an existing node as the last child of a parent. -/
def Dom.appendChild (d : Dom) (parent child : Nat) : Dom :=
  (d.modifyNode parent (addChildFn child)).modifyNode child
    (setParentFn (some parent))

/-- Allocate a fresh node and append it under an existing target. -/
def Dom.allocAppend (d : Dom) (n : NodeData) (t : Nat) : Dom :=
  (d.alloc n).1.appendChild t (d.alloc n).2

/-- Remove a node from its parent (explicit removal during
adoption-agency reparenting, spec section 3). -/
def Dom.detach (d : Dom) (child : Nat) : Dom :=
  match (d.get child).parent with
  | none => d
  | some par =>
    (d.modifyNode par (removeChildFn child)).modifyNode child
      (setParentFn none)

/-- Move every child of src to the end of the child list of dst
(adoption agency step: take all children of the furthest block and
append them to the clone). -/
def Dom.moveChildren (d : Dom) (src dst : Nat) : Dom :=
  let cs := (d.get src).children
  let d := d.modifyNode src clearChildrenFn
  let d := d.modifyNode dst (addChildrenFn cs)
  cs.foldl (fun d c => d.modifyNode c (setParentFn (some dst))) d

/-! ## Element category tables.  The header declares the predicates
(parser.h lines 124-126); spec design-note section 9 says their
membership is taken from the standard HTML parsing algorithm published
tables. -/

/-- Formatting elements (glossary: inline styling tags subject to
reconstruction and adoption-agency repair). -/
def formattingElementNames : List String :=
  ["a", "b", "big", "code", "em", "font", "i", "nobr", "s", "small",
   "strike", "strong", "tt", "u"]

/-- Modelled from the spec: html_is_formatting_element (parser.h line 125)
has no body; membership per the standard table. -/
def html_is_formatting_element (n : String) : Bool :=
  formattingElementNames.contains n

/-- Void elements (inserted and immediately popped, never pushed). -/
def voidElementNames : List String :=
  ["area", "base", "basefont", "bgsound", "br", "col", "embed", "frame",
   "hr", "img", "input", "keygen", "link", "meta", "param", "source",
   "track", "wbr"]

/-- Modelled from the spec: html_is_void_element (parser.h line 126)
has no body; membership per the standard table. -/
def html_is_void_element (n : String) : Bool :=
  voidElementNames.contains n

/-- Special elements (block-structural tags driving implicit closing). -/
def specialElementNames : List String :=
  ["address", "applet", "area", "article", "aside", "base", "basefont",
   "bgsound", "blockquote", "body", "br", "button", "caption", "center",
   "col", "colgroup", "dd", "details", "dir", "div", "dl", "dt", "embed",
   "fieldset", "figcaption", "figure", "footer", "form", "frame",
   "frameset", "h1", "h2", "h3", "h4", "h5", "h6", "head", "header",
   "hgroup", "hr", "html", "iframe", "img", "input", "keygen", "li",
   "link", "listing", "main", "marquee", "menu", "meta", "nav", "noembed",
   "noframes", "noscript", "object", "ol", "p", "param", "plaintext",
   "pre", "script", "section", "select", "source", "style", "summary",
   "table", "tbody", "td", "template", "textarea", "tfoot", "th", "thead",
   "title", "tr", "track", "ul", "wbr", "xmp"]

/-- Modelled from the spec: html_is_special_element (parser.h line 124)
has no body; membership per the standard table. -/
def html_is_special_element (n : String) : Bool :=
  specialElementNames.contains n

/-- Boundary tag set of the default scope (glossary: a stack search for a
target must not look beyond these). -/
def defaultScopeBoundary : List String :=
  ["applet", "caption", "html", "table", "td", "th", "marquee", "object",
   "template"]

/-- Tags whose open instances are implicitly closed by
generate-implied-end-tags. -/
def impliedEndTagNames : List String :=
  ["dd", "dt", "li", "optgroup", "option", "p", "rb", "rp", "rt", "rtc"]

/-! ## Tree construction state (header lines 66-99). -/

/-- Insertion mode enumeration embedded verbatim from
html_insertion_mode_t (src/kernel/src/browser/html/parser.h lines 67-84):
exactly these sixteen modes are declared. -/
inductive html_insertion_mode_t where
  | MODE_INITIAL
  | MODE_BEFORE_HTML
  | MODE_BEFORE_HEAD
  | MODE_IN_HEAD
  | MODE_AFTER_HEAD
  | MODE_IN_BODY
  | MODE_AFTER_BODY
  | MODE_AFTER_AFTER_BODY
  | MODE_IN_TABLE
  | MODE_IN_TABLE_BODY
  | MODE_IN_ROW
  | MODE_IN_CELL
  | MODE_IN_SELECT
  | MODE_IN_TEMPLATE
  | MODE_IN_FRAMESET
  | MODE_AFTER_FRAMESET
deriving DecidableEq, Repr

/-- All sixteen insertion modes, in declaration order. -/
def allInsertionModes : List html_insertion_mode_t :=
  [.MODE_INITIAL, .MODE_BEFORE_HTML, .MODE_BEFORE_HEAD, .MODE_IN_HEAD,
   .MODE_AFTER_HEAD, .MODE_IN_BODY, .MODE_AFTER_BODY, .MODE_AFTER_AFTER_BODY,
   .MODE_IN_TABLE, .MODE_IN_TABLE_BODY, .MODE_IN_ROW, .MODE_IN_CELL,
   .MODE_IN_SELECT, .MODE_IN_TEMPLATE, .MODE_IN_FRAMESET, .MODE_AFTER_FRAMESET]

/-- The spec-style hyphenated name of each declared insertion mode. -/
def insertionModeName : html_insertion_mode_t → String
  | .MODE_INITIAL => "initial"
  | .MODE_BEFORE_HTML => "before-html"
  | .MODE_BEFORE_HEAD => "before-head"
  | .MODE_IN_HEAD => "in-head"
  | .MODE_AFTER_HEAD => "after-head"
  | .MODE_IN_BODY => "in-body"
  | .MODE_AFTER_BODY => "after-body"
  | .MODE_AFTER_AFTER_BODY => "after-after-body"
  | .MODE_IN_TABLE => "in-table"
  | .MODE_IN_TABLE_BODY => "in-table-body"
  | .MODE_IN_ROW => "in-row"
  | .MODE_IN_CELL => "in-cell"
  | .MODE_IN_SELECT => "in-select"
  | .MODE_IN_TEMPLATE => "in-template"
  | .MODE_IN_FRAMESET => "in-frameset"
  | .MODE_AFTER_FRAMESET => "after-frameset"

/-- One stack entry of the OpenElementsStack: a node index together with
its (immutable) tag name. -/
structure OpenEntry where
  id : Nat
  name : String
deriving DecidableEq, Repr

/-- One ActiveFormattingList entry: a scope marker, or a reference to a
formatting element together with its (immutable) tag name and attribute
list, the data the Noah Ark clause compares (spec section 3). -/
inductive AFEntry where
  | marker
  | entry (id : Nat) (name : String) (attrs : List (String × String))
deriving DecidableEq, Repr

/-- True for element entries, false for markers. -/
def AFEntry.isRealEntry : AFEntry → Bool
  | .marker => false
  | .entry _ _ _ => true

/-- The node index of an element entry. -/
def AFEntry.entryId : AFEntry → Option Nat
  | .marker => none
  | .entry i _ _ => some i

/-- Whether an entry refers to an element with the given tag name and
attribute set (the Noah Ark identity of spec section 3; the namespace is
always the HTML namespace in this model). -/
def afeKeyMatch (name : String) (attrs : List (String × String)) : AFEntry → Bool
  | .marker => false
  | .entry _ n a => n = name && a = attrs

/-- Modelled from the spec: html_parser_t (parser.h lines 87-99) declares
mode, open_elements, active_formatting, document, head_element,
form_element, scripting_enabled and fragment_parsing; the model keeps the
document arena inline, the stack most-recent-first, the formatting list
most-recent-first, and adds the recorded error list and the stop flag.
The document_element field mirrors dom_document.document_element
(dom.h line 77). -/
structure html_parser_t where
  mode : html_insertion_mode_t := .MODE_INITIAL
  open_elements : List OpenEntry := []
  active_formatting : List AFEntry := []
  dom : Dom := {}
  document_element : Option Nat := none
  head_element : Option Nat := none
  form_element : Option Nat := none
  scripting_enabled : Bool := false
  fragment_parsing : Bool := false
  errors : List html_parse_error_t := []
  stopped : Bool := false
deriving Repr

/-- Record a classified, non-fatal parse error (spec section 7). -/
def perr (p : html_parser_t) (e : html_parse_error_t) : html_parser_t :=
  { p with errors := e :: p.errors }

/-- The node receiving ordinary insertions: the current node (stack top),
or the Document when the stack is empty. -/
def currentTarget (p : html_parser_t) : Nat :=
  match p.open_elements with
  | [] => 0
  | e :: _ => e.id

/-- Create an element node and append it under the given target. -/
def createAndAppend (p : html_parser_t) (name : String)
    (attrs : List (String × String)) (target : Nat) : html_parser_t × Nat :=
  ({ p with dom := (p.dom.allocAppend
      ({ kind := .NODE_ELEMENT, name := name, attrs := attrs }) target) },
   (p.dom.alloc { kind := .NODE_ELEMENT, name := name, attrs := attrs }).2)

/-- Modelled from the spec: html_insert_element (parser.h line 115) has no
body; insert an element at the appropriate place (the current node) and
push it onto the OpenElementsStack. -/
def html_insert_element (p : html_parser_t) (name : String)
    (attrs : List (String × String)) : html_parser_t :=
  let q := createAndAppend p name attrs (currentTarget p)
  { q.1 with open_elements := ⟨q.2, name⟩ :: q.1.open_elements }

/-- Insert a void element: inserted and immediately popped, never pushed
onto the stack (spec section 4.2). -/
def insertVoidElement (p : html_parser_t) (name : String)
    (attrs : List (String × String)) : html_parser_t :=
  (createAndAppend p name attrs (currentTarget p)).1

/-- Modelled from the spec: html_insert_text (parser.h line 116) has no
body; consecutive characters are coalesced into the preceding text node
child of the insertion point, else a fresh text node is appended. -/
def html_insert_text (p : html_parser_t) (c : Char) : html_parser_t :=
  let t := currentTarget p
  match (p.dom.get t).children.getLast? with
  | some lc =>
    if (p.dom.get lc).kind = .NODE_TEXT then
      { p with dom := p.dom.modifyNode lc (pushTextFn c) }
    else
      { p with dom := (p.dom.allocAppend
          ({ kind := .NODE_TEXT, text := String.singleton c }) t) }
  | none =>
    { p with dom := (p.dom.allocAppend
        ({ kind := .NODE_TEXT, text := String.singleton c }) t) }

/-- Modelled from the spec: html_insert_comment (parser.h line 117) has no
body; append a comment node under the given target. -/
def html_insert_comment (p : html_parser_t) (s : String) (target : Nat) : html_parser_t :=
  { p with dom := p.dom.allocAppend ({ kind := .NODE_COMMENT, text := s }) target }

/-- Append a doctype node under the Document. -/
def appendDoctype (p : html_parser_t) (name : String) : html_parser_t :=
  { p with dom := p.dom.allocAppend ({ kind := .NODE_DOCUMENT_TYPE, name := name }) 0 }

/-! ## Stack and scope operations (spec sections 3, 4.2). -/

/-- Pop the current node. -/
def popOpen (p : html_parser_t) : html_parser_t :=
  { p with open_elements := p.open_elements.tail }

/-- Pop elements until an element with the given tag name has been popped
(no-op past the whole stack when absent). -/
def popUntilInclName (p : html_parser_t) (name : String) : html_parser_t :=
  { p with open_elements := (p.open_elements.dropWhile (fun e => e.name ≠ name)).tail }

/-- Pop elements until the element with the given node index has been
popped. -/
def popUntilInclId (p : html_parser_t) (id : Nat) : html_parser_t :=
  { p with open_elements := (p.open_elements.dropWhile (fun e => e.id ≠ id)).tail }

/-- Generate implied end tags, optionally excluding one tag name
(spec section 4.2 implicit closing). -/
def generateImpliedEndTags (p : html_parser_t) (except : Option String) : html_parser_t :=
  let s := p.open_elements.dropWhile
    (fun e => impliedEndTagNames.contains e.name && some e.name ≠ except)
  { p with open_elements := s }

/-- Scope query by tag name: walk the stack from the top, true if the
target is found before a boundary tag (spec section 4.2). -/
def hasInScopeName (stack : List OpenEntry) (target : String)
    (boundary : List String) : Bool :=
  match stack with
  | [] => false
  | e :: rest =>
    if e.name = target then true
    else if boundary.contains e.name then false
    else hasInScopeName rest target boundary

/-- Scope query by node index. -/
def hasInScopeId (stack : List OpenEntry) (target : Nat) : Bool :=
  match stack with
  | [] => false
  | e :: rest =>
    if e.id = target then true
    else if defaultScopeBoundary.contains e.name then false
    else hasInScopeId rest target

/-- has_element_in_scope with the default boundary set. -/
def has_element_in_scope (p : html_parser_t) (target : String) : Bool :=
  hasInScopeName p.open_elements target defaultScopeBoundary

/-- has_element_in_button_scope: default boundary plus button. -/
def has_element_in_button_scope (p : html_parser_t) (target : String) : Bool :=
  hasInScopeName p.open_elements target ("button" :: defaultScopeBoundary)

/-- Modelled from the spec: html_close_element (parser.h line 118) has no
body; close an open p element: generate implied end tags except p, then
pop through the p (spec section 4.2 implicit closing). -/
def html_close_element (p : html_parser_t) (name : String) : html_parser_t :=
  popUntilInclName (generateImpliedEndTags p (some name)) name

/-! ## ActiveFormattingList operations (spec section 3). -/

/-- Push a formatting element entry enforcing the Noah Ark clause: if at
least three entries with identical tag name and attribute set already sit
between the list head and the nearest marker, the earliest of them is
removed before the new entry is added. -/
def pushFormatting (p : html_parser_t) (id : Nat) (name : String)
    (attrs : List (String × String)) : html_parser_t :=
  let seg := p.active_formatting.takeWhile AFEntry.isRealEntry
  let rest := p.active_formatting.drop seg.length
  let seg :=
    if 3 ≤ (seg.filter (afeKeyMatch name attrs)).length then
      ((seg.reverse).eraseP (afeKeyMatch name attrs)).reverse
    else seg
  { p with active_formatting := .entry id name attrs :: (seg ++ rest) }

/-- Remove the entry referring to the given node index. -/
def afeRemoveId (afe : List AFEntry) (id : Nat) : List AFEntry :=
  afe.filter (fun e => e.entryId ≠ some id)

/-- Rebind one entry: an entry for old becomes an entry for new with the
same name and attributes. -/
def afeRebindFn (old new : Nat) : AFEntry → AFEntry
  | .marker => .marker
  | .entry i n a => if i = old then .entry new n a else .entry i n a

/-- Rebind the entry for old to a clone new with the same name and
attributes. -/
def afeReplaceId (afe : List AFEntry) (old new : Nat) : List AFEntry :=
  afe.map (afeRebindFn old new)

/-- Position of the entry referring to the given node index. -/
def afeIndexOfId (afe : List AFEntry) (id : Nat) : Option Nat :=
  afe.findIdx? (fun e => e.entryId = some id)

/-- Insert an entry at a position (clipped to the list end). -/
def afeInsertAt (afe : List AFEntry) (k : Nat) (e : AFEntry) : List AFEntry :=
  afe.take k ++ [e] ++ afe.drop k

/-- Whether the element with the given node index is on the stack. -/
def onStack (p : html_parser_t) (id : Nat) : Bool :=
  p.open_elements.any (fun e => e.id = id)

/-! ## Reconstruct the active formatting elements (spec section 4.2):
before inserting a Text or Element node, if the last entry of the list is
not a marker and not already on the stack, walk the list backward to the
deepest entry already on the stack (or the list start or nearest marker),
then re-insert clones of every entry after that point, in list order,
onto both the stack and the tree, rebinding the list entries to the
clones. -/

/-- Re-open one batch of formatting entries (given oldest-first): clone,
insert under the current node, push, and rebuild the rebound head of the
list (newest-first accumulator). -/
def reOpenEntries (p : html_parser_t) (olds : List AFEntry)
    (accRev : List AFEntry) (rest : List AFEntry) : html_parser_t :=
  match olds with
  | [] => { p with active_formatting := accRev ++ rest }
  | .marker :: t => reOpenEntries p t (.marker :: accRev) rest
  | .entry _ n a :: t =>
    let nid := p.dom.size
    reOpenEntries (html_insert_element p n a) t (.entry nid n a :: accRev) rest

/-- Modelled from the spec: html_reconstruct_formatting (parser.h
line 122) has no body; the reconstruction algorithm of spec
section 4.2. -/
def html_reconstruct_formatting (p : html_parser_t) : html_parser_t :=
  match p.active_formatting.head? with
  | some (.entry id _ _) =>
    if onStack p id then p
    else
      let toClone := p.active_formatting.takeWhile (fun e =>
        match e with
        | .entry i _ _ => !(onStack p i)
        | .marker => false)
      let rest := p.active_formatting.drop toClone.length
      reOpenEntries p toClone.reverse [] rest
  | _ => p

/-! ## Adoption agency algorithm (spec section 4.2). -/

/-- Ordinary (any other) end tag handling: walk the stack from the
current node; on a name match generate implied end tags except that name
and pop through the node; on reaching a special element first, report and
ignore (spec section 4.2). -/
def anyOtherEndTag (p : html_parser_t) (stack : List OpenEntry)
    (subject : String) : html_parser_t :=
  match stack with
  | [] => p
  | e :: rest =>
    if e.name = subject then
      popUntilInclId (generateImpliedEndTags p (some subject)) e.id
    else if html_is_special_element e.name then
      perr p .HTML_ERROR_MISSING_END_TAG
    else anyOtherEndTag p rest subject

/-- First formatting entry for the subject between the list head and the
nearest marker (the last matching entry below the marker, since the list
is kept newest-first). -/
def findFormattingEntry (afe : List AFEntry) (subject : String) :
    Option (Nat × List (String × String)) :=
  match afe with
  | [] => none
  | .marker :: _ => none
  | .entry i n a :: rest =>
    if n = subject then some (i, a) else findFormattingEntry rest subject

/-- Remove the AFE entry for id, returning the list and the bookmark
adjusted for the removal. -/
def afeRemoveIdAdjust (afe : List AFEntry) (id : Nat) (bm : Nat) :
    List AFEntry × Nat :=
  match afeIndexOfId afe id with
  | none => (afe, bm)
  | some k => (afeRemoveId afe id, if k < bm then bm - 1 else bm)

/-- State threaded through the adoption-agency inner loop. -/
structure AAAInner where
  p : html_parser_t
  bookmark : Nat
  lastNode : Nat
  counter : Nat
  keptRev : List OpenEntry
deriving Repr

/-- The inner loop of the adoption agency algorithm (spec section 4.2):
walk from the furthest block up toward the formatting element, dropping
stale entries, cloning intermediate nodes still in the formatting list,
relinking the furthest-block subtree under the clones, and updating the
bookmark. seg is the stack segment strictly between the furthest block
and the formatting element, nearest-the-furthest-block first. -/
def aaaInnerLoop (st : AAAInner) (fbId : Nat) (seg : List OpenEntry) : AAAInner :=
  match seg with
  | [] => st
  | e :: restSeg =>
    let cnt := st.counter + 1
    if 3 < cnt then
      let ab := afeRemoveIdAdjust st.p.active_formatting e.id st.bookmark
      let st := { st with p := { st.p with active_formatting := ab.1 },
                          bookmark := ab.2, counter := cnt }
      aaaInnerLoop st fbId restSeg
    else if (afeIndexOfId st.p.active_formatting e.id).isNone then
      aaaInnerLoop { st with counter := cnt } fbId restSeg
    else
      let p := st.p
      let nid := p.dom.size
      let p := { p with
        dom := (p.dom.alloc
          { kind := .NODE_ELEMENT, name := e.name,
            attrs := (p.dom.get e.id).attrs }).1,
        active_formatting := afeReplaceId p.active_formatting e.id nid }
      let bm :=
        if st.lastNode = fbId then
          match afeIndexOfId p.active_formatting nid with
          | some k => k + 1
          | none => st.bookmark
        else st.bookmark
      let p := { p with dom := (p.dom.detach st.lastNode).appendChild nid st.lastNode }
      aaaInnerLoop
        { p := p, bookmark := bm, lastNode := nid, counter := cnt,
          keptRev := ⟨nid, e.name⟩ :: st.keptRev } fbId restSeg

/-- The outer loop of the adoption agency algorithm, at most eight
iterations (spec section 4.2): locate the formatting element, fall back
to ordinary end-tag handling when absent, handle the not-on-stack and
not-in-scope error cases, else locate the furthest block; without one,
pop through the formatting element (simple case); with one, run the
inner loop, reparent, clone the formatting element as the last child of
the furthest block, and splice the clone into list and stack. -/
def aaaOuter : Nat → html_parser_t → String → html_parser_t
  | 0, p, _ => p
  | fuel + 1, p, subject =>
    match findFormattingEntry p.active_formatting subject with
    | none => anyOtherEndTag p p.open_elements subject
    | some (feId, feAttrs) =>
      if !(onStack p feId) then
        perr { p with active_formatting := afeRemoveId p.active_formatting feId }
          .HTML_ERROR_INVALID_NESTING
      else if !(hasInScopeId p.open_elements feId) then
        perr p .HTML_ERROR_INVALID_NESTING
      else
        let errs :=
          if p.open_elements.head?.map (fun e => e.id) ≠ some feId then
            html_parse_error_t.HTML_ERROR_INVALID_NESTING :: p.errors
          else p.errors
        let pre := p.open_elements.takeWhile (fun e => e.id ≠ feId)
        let below := p.open_elements.drop (pre.length + 1)
        match pre.reverse.find? (fun e => html_is_special_element e.name) with
        | none =>
          { p with open_elements := below,
                   active_formatting := afeRemoveId p.active_formatting feId,
                   errors := errs }
        | some fb =>
          let commonAncestor := (below.head?.map (fun e => e.id)).getD 0
          let bookmark := (afeIndexOfId p.active_formatting feId).getD 0
          let segAbove := pre.takeWhile (fun e => e.id ≠ fb.id)
          let seg := pre.drop (segAbove.length + 1)
          let ist := aaaInnerLoop ⟨{ p with errors := errs }, bookmark,
            fb.id, 0, []⟩ fb.id seg
          let p := ist.p
          let p := { p with
            dom := (p.dom.detach ist.lastNode).appendChild commonAncestor ist.lastNode }
          let feNew := p.dom.size
          let p := { p with dom := (((p.dom.alloc
            { kind := .NODE_ELEMENT, name := subject,
              attrs := feAttrs }).1.moveChildren fb.id feNew).appendChild
                fb.id feNew) }
          let ab := afeRemoveIdAdjust p.active_formatting feId ist.bookmark
          let afe := afeInsertAt ab.1 ab.2 (.entry feNew subject feAttrs)
          let stack := segAbove ++ [⟨feNew, subject⟩, fb] ++ ist.keptRev.reverse ++ below
          aaaOuter fuel
            { p with active_formatting := afe, open_elements := stack } subject

/-- Modelled from the spec: html_adoption_agency_algorithm (parser.h
line 121) has no body; runs at most eight outer-loop iterations (spec
section 4.2). -/
def html_adoption_agency_algorithm (p : html_parser_t) (subject : String) :
    html_parser_t :=
  aaaOuter 8 p subject

/-! ## Mode dispatch (spec section 4.2): process_token dispatches on the
pair of current insertion mode and token. -/

/-- Block-level start tags that implicitly close an open p element
(spec section 4.2 implicit closing; membership per the standard table). -/
def blockClosePNames : List String :=
  ["address", "article", "aside", "blockquote", "center", "details",
   "dialog", "dir", "div", "dl", "fieldset", "figcaption", "figure",
   "footer", "h1", "h2", "h3", "h4", "h5", "h6", "header", "hgroup",
   "listing", "main", "menu", "nav", "ol", "p", "pre", "section",
   "summary", "ul"]

/-- Close an open p element when one is in button scope. -/
def closePIfOpen (p : html_parser_t) : html_parser_t :=
  if has_element_in_button_scope p "p" then html_close_element p "p" else p

/-- A self-closing flag on a non-void element is a reportable, non-fatal
error; the element is treated as a normal start tag (spec section 4.2). -/
def noteSelfClosing (p : html_parser_t) (sc : Bool) : html_parser_t :=
  if sc then perr p .HTML_ERROR_UNEXPECTED_TOKEN else p

/-- Start-tag handling in the in-body insertion mode. -/
def inBodyStartTag (p : html_parser_t) (name : String)
    (attrs : List (String × String)) (sc : Bool) : html_parser_t :=
  if name = "html" || name = "body" || name = "head" then
    perr p .HTML_ERROR_UNEXPECTED_TOKEN
  else if name = "form" then
    if p.form_element.isSome then perr p .HTML_ERROR_NESTED_FORM
    else
      let p := html_insert_element (noteSelfClosing (closePIfOpen p) sc) name attrs
      { p with form_element := p.open_elements.head?.map (fun e => e.id) }
  else if blockClosePNames.contains name then
    html_insert_element (noteSelfClosing (closePIfOpen p) sc) name attrs
  else if html_is_formatting_element name then
    let p := html_insert_element (html_reconstruct_formatting (noteSelfClosing p sc)) name attrs
    match p.open_elements.head? with
    | some e => pushFormatting p e.id name attrs
    | none => p
  else if html_is_void_element name then
    insertVoidElement (html_reconstruct_formatting p) name attrs
  else
    html_insert_element (html_reconstruct_formatting (noteSelfClosing p sc)) name attrs

/-- End-tag handling in the in-body insertion mode (the html end tag is
handled by the dispatcher since it reprocesses). -/
def inBodyEndTag (p : html_parser_t) (name : String) : html_parser_t :=
  if name = "body" then
    if has_element_in_scope p "body" then { p with mode := .MODE_AFTER_BODY }
    else perr p .HTML_ERROR_UNEXPECTED_TOKEN
  else if name = "p" then
    if has_element_in_button_scope p "p" then html_close_element p "p"
    else
      html_close_element
        (html_insert_element (perr p .HTML_ERROR_MISSING_END_TAG) "p" []) "p"
  else if name = "form" then
    let p := { p with form_element := none }
    if has_element_in_scope p "form" then
      popUntilInclName (generateImpliedEndTags p none) "form"
    else perr p .HTML_ERROR_MISSING_END_TAG
  else if html_is_formatting_element name then
    html_adoption_agency_algorithm p name
  else anyOtherEndTag p p.open_elements name

/-- Create the html root element (explicitly or implicitly), register it
as the documentElement and move to before-head. -/
def createHtmlElem (p : html_parser_t) (attrs : List (String × String)) :
    html_parser_t :=
  let (p, id) := createAndAppend p "html" attrs 0
  { p with open_elements := [⟨id, "html"⟩], document_element := some id,
           mode := .MODE_BEFORE_HEAD }

/-- Insert the head element (explicitly or implicitly) and move to
in-head. -/
def insertHeadElem (p : html_parser_t) (attrs : List (String × String)) :
    html_parser_t :=
  let p := html_insert_element p "head" attrs
  { p with head_element := p.open_elements.head?.map (fun e => e.id),
           mode := .MODE_IN_HEAD }

/-- Insert the body element (explicitly or implicitly) and move to
in-body. -/
def insertBodyElem (p : html_parser_t) (attrs : List (String × String)) :
    html_parser_t :=
  { html_insert_element p "body" attrs with mode := .MODE_IN_BODY }

/-- End tags treated like "anything else" in the before and after head
modes. -/
def headPassEndTags : List String := ["head", "body", "html", "br"]

/-- One dispatch of a token under the current insertion mode, returning
the new state and whether the token must be reprocessed under the new
mode (spec design note section 9: reprocessing is an explicit
re-dispatch, never a re-consumption from the tokenizer).  The table,
select, template and frameset modes declared by the header are never
entered by this model (no transition switches into them); they ignore
tokens and stop on end of file. -/
def processOnce (p : html_parser_t) (t : HtmlToken) : html_parser_t × Bool :=
  match p.mode with
  | .MODE_INITIAL =>
    match t with
    | .charTok c =>
      if isHtmlSpace c then (p, false)
      else ({ p with mode := .MODE_BEFORE_HTML }, true)
    | .commentTok s => (html_insert_comment p s 0, false)
    | .doctypeTok n => ({ appendDoctype p n with mode := .MODE_BEFORE_HTML }, false)
    | _ => ({ p with mode := .MODE_BEFORE_HTML }, true)
  | .MODE_BEFORE_HTML =>
    match t with
    | .doctypeTok _ => (perr p .HTML_ERROR_UNEXPECTED_TOKEN, false)
    | .commentTok s => (html_insert_comment p s 0, false)
    | .charTok c =>
      if isHtmlSpace c then (p, false) else (createHtmlElem p [], true)
    | .startTag n attrs _ =>
      if n = "html" then (createHtmlElem p attrs, false)
      else (createHtmlElem p [], true)
    | .endTag n =>
      if headPassEndTags.contains n then (createHtmlElem p [], true)
      else (perr p .HTML_ERROR_UNEXPECTED_TOKEN, false)
    | .eofTok => (createHtmlElem p [], true)
  | .MODE_BEFORE_HEAD =>
    match t with
    | .charTok c =>
      if isHtmlSpace c then (p, false) else (insertHeadElem p [], true)
    | .commentTok s => (html_insert_comment p s (currentTarget p), false)
    | .doctypeTok _ => (perr p .HTML_ERROR_UNEXPECTED_TOKEN, false)
    | .startTag n attrs _ =>
      if n = "html" then (perr p .HTML_ERROR_UNEXPECTED_TOKEN, false)
      else if n = "head" then (insertHeadElem p attrs, false)
      else (insertHeadElem p [], true)
    | .endTag n =>
      if headPassEndTags.contains n then (insertHeadElem p [], true)
      else (perr p .HTML_ERROR_UNEXPECTED_TOKEN, false)
    | .eofTok => (insertHeadElem p [], true)
  | .MODE_IN_HEAD =>
    match t with
    | .charTok c =>
      if isHtmlSpace c then (html_insert_text p c, false)
      else ({ popOpen p with mode := .MODE_AFTER_HEAD }, true)
    | .commentTok s => (html_insert_comment p s (currentTarget p), false)
    | .doctypeTok _ => (perr p .HTML_ERROR_UNEXPECTED_TOKEN, false)
    | .startTag n attrs _ =>
      if n = "html" || n = "head" then (perr p .HTML_ERROR_UNEXPECTED_TOKEN, false)
      else if ["base", "basefont", "bgsound", "link", "meta"].contains n then
        (insertVoidElement p n attrs, false)
      else ({ popOpen p with mode := .MODE_AFTER_HEAD }, true)
    | .endTag n =>
      if n = "head" then ({ popOpen p with mode := .MODE_AFTER_HEAD }, false)
      else if ["body", "html", "br"].contains n then
        ({ popOpen p with mode := .MODE_AFTER_HEAD }, true)
      else (perr p .HTML_ERROR_UNEXPECTED_TOKEN, false)
    | .eofTok => ({ popOpen p with mode := .MODE_AFTER_HEAD }, true)
  | .MODE_AFTER_HEAD =>
    match t with
    | .charTok c =>
      if isHtmlSpace c then (html_insert_text p c, false)
      else (insertBodyElem p [], true)
    | .commentTok s => (html_insert_comment p s (currentTarget p), false)
    | .doctypeTok _ => (perr p .HTML_ERROR_UNEXPECTED_TOKEN, false)
    | .startTag n attrs _ =>
      if n = "html" || n = "head" then (perr p .HTML_ERROR_UNEXPECTED_TOKEN, false)
      else if n = "body" then (insertBodyElem p attrs, false)
      else (insertBodyElem p [], true)
    | .endTag n =>
      if headPassEndTags.contains n then (insertBodyElem p [], true)
      else (perr p .HTML_ERROR_UNEXPECTED_TOKEN, false)
    | .eofTok => (insertBodyElem p [], true)
  | .MODE_IN_BODY =>
    match t with
    | .charTok c => (html_insert_text (html_reconstruct_formatting p) c, false)
    | .commentTok s => (html_insert_comment p s (currentTarget p), false)
    | .doctypeTok _ => (perr p .HTML_ERROR_UNEXPECTED_TOKEN, false)
    | .startTag n attrs sc => (inBodyStartTag p n attrs sc, false)
    | .endTag n =>
      if n = "html" then
        if has_element_in_scope p "body" then
          ({ p with mode := .MODE_AFTER_BODY }, true)
        else (perr p .HTML_ERROR_UNEXPECTED_TOKEN, false)
      else (inBodyEndTag p n, false)
    | .eofTok => ({ p with stopped := true }, false)
  | .MODE_AFTER_BODY =>
    match t with
    | .charTok c =>
      if isHtmlSpace c then
        (html_insert_text (html_reconstruct_formatting p) c, false)
      else ({ perr p .HTML_ERROR_UNEXPECTED_TOKEN with mode := .MODE_IN_BODY }, true)
    | .commentTok s => (html_insert_comment p s ((p.document_element).getD 0), false)
    | .doctypeTok _ => (perr p .HTML_ERROR_UNEXPECTED_TOKEN, false)
    | .endTag n =>
      if n = "html" then ({ p with mode := .MODE_AFTER_AFTER_BODY }, false)
      else ({ perr p .HTML_ERROR_UNEXPECTED_TOKEN with mode := .MODE_IN_BODY }, true)
    | .eofTok => ({ p with stopped := true }, false)
    | _ => ({ perr p .HTML_ERROR_UNEXPECTED_TOKEN with mode := .MODE_IN_BODY }, true)
  | .MODE_AFTER_AFTER_BODY =>
    match t with
    | .charTok c =>
      if isHtmlSpace c then
        (html_insert_text (html_reconstruct_formatting p) c, false)
      else ({ perr p .HTML_ERROR_UNEXPECTED_TOKEN with mode := .MODE_IN_BODY }, true)
    | .commentTok s => (html_insert_comment p s 0, false)
    | .doctypeTok _ => (perr p .HTML_ERROR_UNEXPECTED_TOKEN, false)
    | .eofTok => ({ p with stopped := true }, false)
    | _ => ({ perr p .HTML_ERROR_UNEXPECTED_TOKEN with mode := .MODE_IN_BODY }, true)
  | _ =>
    match t with
    | .eofTok => ({ p with stopped := true }, false)
    | _ => (perr p .HTML_ERROR_UNEXPECTED_TOKEN, false)

/-- The explicit reprocess loop (spec design note section 9): re-dispatch
the same token under the updated mode until a handler consumes it; the
fuel bounds the loop, far above the longest reachable chain. -/
def processLoop : Nat → html_parser_t → HtmlToken → html_parser_t
  | 0, p, _ => p
  | fuel + 1, p, t =>
    let r := processOnce p t
    if r.2 then processLoop fuel r.1 t else r.1

/-- Modelled from the spec: html_process_token (parser.h line 114) has no
body; dispatch with reprocessing. -/
def html_process_token (p : html_parser_t) (t : HtmlToken) : html_parser_t :=
  processLoop 16 p t

/-- Fold a token sequence through the tree constructor. -/
def processTokens (p : html_parser_t) (ts : List HtmlToken) : html_parser_t :=
  ts.foldl html_process_token p

/-- The initial parser state. -/
def initParser : html_parser_t := {}

/-- Full pipeline on one input: tokenize, then construct the tree. -/
def html_parse_core (s : String) : html_parser_t :=
  processTokens initParser (htmlTokenize s)

/-- The completed document handed to collaborators: the arena plus the
documentElement and head references (dom_document, dom.h lines 73-79). -/
structure dom_document where
  dom : Dom
  document_element : Option Nat
  head : Option Nat
deriving Repr

/-- Package the finished parser state as a document. -/
def finishDocument (p : html_parser_t) : dom_document :=
  { dom := p.dom, document_element := p.document_element,
    head := p.head_element }

/-- Modelled from the spec: html_parse (parser.h line 104) has no body;
per spec section 7 an empty input stream is a contract violation that
fails before any token is produced, every other input parses to a
Document. -/
def html_parse (s : String) : Option dom_document :=
  if s = "" then none else some (finishDocument (html_parse_core s))

/-- Modelled from the spec: html_parse_fragment (parser.h line 105) has
no body; per spec sections 6 and 7 a null context element or an empty
input fails before any token is produced, else the context element seeds
the OpenElementsStack and the insertion mode and the parsed children of
the context are returned. -/
def html_parse_fragment (s : String)
    (context : Option (String × List (String × String))) :
    Option (List Nat × Dom) :=
  if s = "" then none
  else
    match context with
    | none => none
    | some (cname, cattrs) =>
      let d0 : Dom := {}
      let (d, cid) :=
        d0.alloc { kind := .NODE_ELEMENT, name := cname, attrs := cattrs }
      let p := { initParser with
        dom := d
        open_elements := [⟨cid, cname⟩]
        mode := .MODE_IN_BODY
        fragment_parsing := true }
      let p := processTokens p (htmlTokenize s)
      some ((p.dom.get cid).children, p.dom)

/-! ## Structural views of the produced tree, for stating concrete
expected shapes. -/

/-- A simple rose-tree rendering of a node subtree. -/
inductive STree where
  | elem (name : String) (children : List STree)
  | text (s : String)
  | comm (s : String)
  | doct (s : String)
deriving Repr

/-- Render the subtree rooted at a node (fuel-bounded walk of the
arena). -/
def toTree (d : Dom) : Nat → Nat → STree
  | 0, _ => .text ""
  | fuel + 1, i =>
    let n := d.get i
    match n.kind with
    | .NODE_TEXT => .text n.text
    | .NODE_COMMENT => .comm n.text
    | .NODE_DOCUMENT_TYPE => .doct n.name
    | _ => .elem n.name (n.children.map (toTree d fuel))

/-- The body element of a finished parse: the child of the
documentElement named body. -/
def findBody (p : html_parser_t) : Option Nat :=
  match p.document_element with
  | none => none
  | some h =>
    (p.dom.get h).children.find? (fun c =>
      (p.dom.get c).kind = .NODE_ELEMENT && (p.dom.get c).name = "body")

/-- The rendered body subtree of the parse of an input. -/
def bodyTree (s : String) : STree :=
  let p := html_parse_core s
  match findBody p with
  | some b => toTree p.dom p.dom.size b
  | none => .text ""

/-- The rendered subtree of the documentElement of the parse of an
input. -/
def documentElementTree (s : String) : STree :=
  let p := html_parse_core s
  match p.document_element with
  | some h => toTree p.dom p.dom.size h
  | none => .text ""

mutual

/-- All text node contents of a subtree, in document order. -/
def allTexts : STree → List String
  | .text s => [s]
  | .comm _ => []
  | .doct _ => []
  | .elem _ cs => allTextsList cs

/-- All text node contents of a forest, in document order. -/
def allTextsList : List STree → List String
  | [] => []
  | t :: ts => allTexts t ++ allTextsList ts

end

mutual

/-- Text contents that have a strict ancestor element with the given tag
name, in document order. -/
def textsUnderName (tgt : String) : STree → List String
  | .elem n cs =>
    if n = tgt then allTextsList cs else textsUnderNameList tgt cs
  | _ => []

/-- The same over a forest. -/
def textsUnderNameList (tgt : String) : List STree → List String
  | [] => []
  | t :: ts => textsUnderName tgt t ++ textsUnderNameList tgt ts

end

/-! ## Browser engine navigation history, embedded from
src/kernel/src/browser/engine.c (browser_navigate lines 140-199,
browser_create_tab lines 126-129, browser_go_back lines 393-396,
browser_go_forward lines 417-420).  history_index and history_count are
uint32 fields (engine.h lines 72-75); the only place 32-bit wrap-around
matters on reachable values is the subtraction history_count - 1. -/

/-- Navigation state of one tab: the 100-slot history array allocated by
browser_create_tab (calloc, so slots start as null) plus the uint32
index and count. -/
structure navigation_t where
  history : List (Option String) := List.replicate 100 none
  history_index : Nat := 0
  history_count : Nat := 0
deriving DecidableEq, Repr

/-- The value of the uint32 expression n - 1. -/
def u32sub1 (n : Nat) : Nat := if n = 0 then 4294967295 else n - 1

/-- Null out the slots with positions in the interval from lo (included)
to hi (excluded): the forward-history free loop of engine.c
lines 158-160. -/
def clearRangeGo (i lo hi : Nat) : List (Option String) → List (Option String)
  | [] => []
  | x :: xs => (if lo ≤ i ∧ i < hi then none else x) :: clearRangeGo (i + 1) lo hi xs

/-- Clear the slot interval of a history array. -/
def clearRange (h : List (Option String)) (lo hi : Nat) : List (Option String) :=
  clearRangeGo 0 lo hi h

/-- Total slot read (null beyond the end). -/
def slotAt (h : List (Option String)) (i : Nat) : Option String :=
  h.getD i none

/-- The history-recording half of browser_navigate (engine.c
lines 155-168): truncate the forward history when the index sits before
count - 1 (a uint32 subtraction, so an empty history wraps), then append
the URL when fewer than 100 entries are counted.  Returns the updated
state and whether the URL was recorded.  The fetch half of the function
talks to external collaborators and is not modelled. -/
def browser_navigate_history (nav : navigation_t) (url : String) :
    navigation_t × Bool :=
  let nav :=
    if nav.history_index < u32sub1 nav.history_count then
      { nav with
        history := clearRange nav.history (nav.history_index + 1) nav.history_count
        history_count := nav.history_index + 1 }
    else nav
  if nav.history_count < 100 then
    ({ nav with
        history := nav.history.set nav.history_count (some url)
        history_count := nav.history_count + 1
        history_index := nav.history_count }, true)
  else (nav, false)

/-- The index logic of browser_go_forward (engine.c line 418: a uint32
comparison against history_count - 1, then an increment); none models
the early -1 return. -/
def browser_go_forward_nav (nav : navigation_t) : Option navigation_t :=
  if u32sub1 nav.history_count ≤ nav.history_index then none
  else some { nav with history_index := nav.history_index + 1 }

/-- The index logic of browser_go_back (engine.c lines 393-396). -/
def browser_go_back_nav (nav : navigation_t) : Option navigation_t :=
  if nav.history_index = 0 then none
  else some { nav with history_index := nav.history_index - 1 }

/-- Step a navigation state by go-forward, staying put on the error
return. -/
def goForwardStep (nav : navigation_t) : navigation_t :=
  (browser_go_forward_nav nav).getD nav

/-- The claim of C10, as stated, on one navigation state and URL: after
browser_navigate the history holds at most 100 entries, and when the URL
was recorded the index equals count - 1. -/
def navigateClaimHolds (nav : navigation_t) (url : String) : Prop :=
  (browser_navigate_history nav url).1.history_count ≤ 100 ∧
  ((browser_navigate_history nav url).2 = true →
    (browser_navigate_history nav url).1.history_index =
      (browser_navigate_history nav url).1.history_count - 1)

instance (nav : navigation_t) (url : String) :
    Decidable (navigateClaimHolds nav url) := by
  unfold navigateClaimHolds
  infer_instance

/-! ## Names of the insertion modes claimed by the specification
(spec section 3, InsertionMode). -/

/-- The twenty-one insertion-mode names the specification lists. -/
def specClaimedInsertionModeNames : List String :=
  ["initial", "before-html", "before-head", "in-head", "after-head",
   "in-body", "text", "in-table", "in-table-body", "in-row", "in-cell",
   "in-caption", "in-column-group", "in-select", "in-select-in-table",
   "in-template", "after-body", "in-frameset", "after-frameset",
   "after-after-body", "after-after-frameset"]

/-- The names of the sixteen modes the header actually declares, in
declaration order. -/
def declaredInsertionModeNames : List String :=
  allInsertionModes.map insertionModeName

/-! ## Invariant predicates used by the stated properties. -/

/-- Parser state after processing the first n tokens of the input: the
observable "point during parsing" at token granularity. -/
def parseStatePrefix (s : String) (n : Nat) : html_parser_t :=
  processTokens initParser ((htmlTokenize s).take n)

/-- Number of entries with the given Noah Ark identity. -/
def afeCount (afe : List AFEntry) (name : String)
    (attrs : List (String × String)) : Nat :=
  afe.countP (afeKeyMatch name attrs)

/-- The Noah Ark invariant (spec section 3): between the list head and
the nearest marker, at most three entries share one tag name, namespace
and attribute set. -/
def noahOK (p : html_parser_t) : Prop :=
  ∀ name attrs,
    afeCount (p.active_formatting.takeWhile AFEntry.isRealEntry) name attrs ≤ 3

/-- Void discipline (spec section 4.2): no element on the
OpenElementsStack has a void tag name, and no void element node of the
arena has children. -/
def voidOK (p : html_parser_t) : Prop :=
  (∀ e ∈ p.open_elements, html_is_void_element e.name = false) ∧
  (∀ i, (p.dom.get i).kind = .NODE_ELEMENT →
    html_is_void_element (p.dom.get i).name = true →
    (p.dom.get i).children = [])

/-- The attribute names of a start tag token are pairwise distinct
(vacuous for other token kinds): the spec section 3 token invariant. -/
def startTagAttrsNodup : HtmlToken → Prop
  | .startTag _ attrs _ => (attrs.map Prod.fst).Nodup
  | _ => True

/-- Well-formedness carried through the tokenizer run: the accumulating
attribute list has pairwise distinct names and every already-emitted
token satisfies the start tag invariant; the end-of-file token is never
among the emitted tokens (it is appended once at the very end). -/
def tokWF (st : html_tokenizer_t) : Prop :=
  (st.attrs.map Prod.fst).Nodup ∧
  (∀ t ∈ st.emittedRev, startTagAttrsNodup t) ∧
  HtmlToken.eofTok ∉ st.emittedRev

/-- A node which may legally receive children: not a void element (it
may be the Document, a comment target never receives element children in
the model, and non-void elements are fine). -/
def targetOK (d : Dom) (t : Nat) : Prop :=
  (d.get t).kind = .NODE_ELEMENT → html_is_void_element (d.get t).name = false

/-- The arena transition preserves the identity (kind and tag name) of
every element node; children, parents and text may change. -/
def keepsElems (d d' : Dom) : Prop :=
  ∀ j, (d.get j).kind = .NODE_ELEMENT →
    (d'.get j).kind = .NODE_ELEMENT ∧ (d'.get j).name = (d.get j).name

/-- Void element nodes of the arena never have children. -/
def vcOK (d : Dom) : Prop :=
  ∀ i, (d.get i).kind = .NODE_ELEMENT →
    html_is_void_element (d.get i).name = true → (d.get i).children = []

/-- Arena health: nonempty, node 0 is the Document, void element nodes
are childless. -/
def DomInv (d : Dom) : Prop :=
  0 < d.size ∧ (d.get 0).kind = .NODE_DOCUMENT ∧ vcOK d

/-- Stack health: every OpenElementsStack entry names a non-void element
and its cached tag name agrees with the arena node it references. -/
def StackOK (d : Dom) (stk : List OpenEntry) : Prop :=
  ∀ e ∈ stk, html_is_void_element e.name = false ∧
    (d.get e.id).kind = .NODE_ELEMENT ∧ (d.get e.id).name = e.name

/-- Formatting-list health: entries name formatting elements, no marker
is ever present (this model never enters the marker-introducing table,
caption, object, applet, marquee or template contexts), and no tag name
and attribute set is held by more than three entries (the Noah Ark
clause over the whole list, which under absence of markers coincides
with the per-segment bound). -/
def AfeOK (afe : List AFEntry) : Prop :=
  (∀ i n a, AFEntry.entry i n a ∈ afe → html_is_formatting_element n = true) ∧
  AFEntry.marker ∉ afe ∧
  ∀ name attrs, afeCount afe name attrs ≤ 3

/-- The documentElement reference, when set, points at an html element
node. -/
def DocElemOK (d : Dom) (de : Option Nat) : Prop :=
  ∀ i, de = some i →
    (d.get i).kind = .NODE_ELEMENT ∧ (d.get i).name = "html"

/-- The core tree-construction invariant (mode-independent part). -/
def CoreOK (p : html_parser_t) : Prop :=
  DomInv p.dom ∧ StackOK p.dom p.open_elements ∧
  AfeOK p.active_formatting ∧ DocElemOK p.dom p.document_element

/-- The master tree-construction invariant: the core invariant plus the
fact that the documentElement is registered in every mode past
before-html. -/
def Good (p : html_parser_t) : Prop :=
  CoreOK p ∧ (p.document_element.isSome = true ∨
    p.mode = .MODE_INITIAL ∨ p.mode = .MODE_BEFORE_HTML)

/-! # Theorems -/

set_option maxRecDepth 10000

/-! ## Support lemmas for the navigation history model. -/

theorem slotAt_clearRangeGo (l : List (Option String)) : ∀ i lo hi k,
    slotAt (clearRangeGo i lo hi l) k =
      if lo ≤ i + k ∧ i + k < hi ∧ k < l.length then none else slotAt l k := by
  induction l with
  | nil => intro i lo hi k; simp [clearRangeGo, slotAt]
  | cons x xs ih =>
    intro i lo hi k
    cases k with
    | zero =>
      simp only [clearRangeGo, slotAt, List.getD_cons_zero, Nat.add_zero,
        List.length_cons]
      split_ifs <;> first | rfl | omega
    | succ k =>
      simp only [clearRangeGo, slotAt, List.getD_cons_succ, List.length_cons]
      rw [show List.getD (clearRangeGo (i + 1) lo hi xs) k none =
        slotAt (clearRangeGo (i + 1) lo hi xs) k from rfl]
      rw [ih (i + 1) lo hi k]
      simp only [slotAt]
      split_ifs <;> first | rfl | omega

theorem slotAt_clearRange (h : List (Option String)) (lo hi k : Nat) :
    slotAt (clearRange h lo hi) k =
      if lo ≤ k ∧ k < hi ∧ k < h.length then none else slotAt h k := by
  have := slotAt_clearRangeGo h 0 lo hi k
  simpa [clearRange] using this

theorem length_clearRangeGo (l : List (Option String)) : ∀ i lo hi,
    (clearRangeGo i lo hi l).length = l.length := by
  induction l with
  | nil => intro i lo hi; rfl
  | cons x xs ih => intro i lo hi; simp [clearRangeGo, ih]

theorem length_clearRange (h : List (Option String)) (lo hi : Nat) :
    (clearRange h lo hi).length = h.length :=
  length_clearRangeGo h 0 lo hi

theorem slotAt_set (l : List (Option String)) : ∀ n a k,
    slotAt (l.set n a) k = if n = k ∧ k < l.length then a else slotAt l k := by
  induction l with
  | nil => intro n a k; simp [slotAt]
  | cons x xs ih =>
    intro n a k
    cases n with
    | zero =>
      cases k with
      | zero => simp [slotAt]
      | succ k => simp [slotAt, List.set]
    | succ n =>
      cases k with
      | zero => simp [slotAt, List.set]
      | succ k =>
        simp only [List.set, slotAt, List.getD_cons_succ, List.length_cons]
        rw [show List.getD (xs.set n a) k none = slotAt (xs.set n a) k from rfl]
        rw [ih n a k]
        simp only [slotAt]
        split_ifs <;> first | rfl | omega

/-! ## C10 -/

theorem slot_set_self (h : List (Option String)) (w : Nat) (u : String)
    (hw : w < h.length) : slotAt (h.set w (some u)) w = some u := by
  rw [slotAt_set]; rw [if_pos ⟨rfl, hw⟩]

theorem slot_set_other (h : List (Option String)) (w i : Nat) (u : String)
    (hne : w ≠ i) : slotAt (h.set w (some u)) i = slotAt h i := by
  rw [slotAt_set]
  split_ifs with hc
  · exact absurd hc.1 hne
  · rfl

theorem slot_clear_in (h : List (Option String)) (lo hi i : Nat)
    (ha : lo ≤ i) (hb : i < hi) (hc : i < h.length) :
    slotAt (clearRange h lo hi) i = none := by
  rw [slotAt_clearRange]; rw [if_pos ⟨ha, hb, hc⟩]


/-- C10 counterexample: the claim fails on a reachable tab state.  A
fresh tab has history_count = 0; on it, browser_go_forward compares the
index against the uint32 value 0 - 1 = 4294967295 (engine.c line 418),
so one hundred go-forward calls drive history_index to 100 while
history_count stays 0.  On that tab, browser_navigate takes the
forward-truncation branch (line 156, again a wrapped uint32 comparison)
and sets history_count to history_index + 1 = 101 > 100. -/
theorem C10_counterexample :
    ¬ navigateClaimHolds (goForwardStep^[100] {}) "https://example.org" := by
  decide

/-- C10 (amended): for every tab whose navigation state is sane
(history_index at most history_count, at most 100 entries counted, the
100-slot array of browser_create_tab) and every non-null URL,
browser_navigate keeps the history at no more than 100 entries; when it
records the URL the new index is count - 1 and the URL sits in that
slot; and every forward-history slot past the previous index (other
than the newly written one) has been discarded. -/
theorem C10_amended (nav : navigation_t) (url : String)
    (h1 : nav.history_index ≤ nav.history_count)
    (h2 : nav.history_count ≤ 100)
    (h3 : nav.history.length = 100) :
    (browser_navigate_history nav url).1.history_count ≤ 100 ∧
    ((browser_navigate_history nav url).2 = true →
      (browser_navigate_history nav url).1.history_index + 1 =
        (browser_navigate_history nav url).1.history_count ∧
      slotAt (browser_navigate_history nav url).1.history
        (browser_navigate_history nav url).1.history_index = some url) ∧
    (∀ i, nav.history_index < i → i < nav.history_count →
      i ≠ (browser_navigate_history nav url).1.history_index →
      slotAt (browser_navigate_history nav url).1.history i = none) := by
  unfold browser_navigate_history u32sub1
  split_ifs with hA hB hC <;> dsimp only <;> split_ifs with hD <;> dsimp only <;>
    refine ⟨by omega, fun hrec => ?_, fun i hi1 hi2 hi3 => ?_⟩ <;>
    first
      | exact Bool.noConfusion hrec
      | exact hrec.elim
      | omega
      | · refine ⟨by omega, ?_⟩
          first
            | exact slot_set_self _ _ _ (by rw [length_clearRange, h3]; omega)
            | exact slot_set_self _ _ _ (by rw [h3]; omega)
      | · rw [slot_set_other _ _ _ _ (by omega)]
          exact slot_clear_in _ _ _ _ (by omega) (by omega) (by rw [h3]; omega)

/-- C10 witness: the amended statement applied to a concrete tab with
three history entries and the index rewound to 1: navigating truncates
the forward entry and records the URL at slot 2. -/
theorem C10_witness :
    (browser_navigate_history
      { history := some "a" :: some "b" :: some "c" :: List.replicate 97 none,
        history_index := 1, history_count := 3 } "u").1.history_count ≤ 100 ∧
    ((browser_navigate_history
      { history := some "a" :: some "b" :: some "c" :: List.replicate 97 none,
        history_index := 1, history_count := 3 } "u").2 = true →
      (browser_navigate_history
        { history := some "a" :: some "b" :: some "c" :: List.replicate 97 none,
          history_index := 1, history_count := 3 } "u").1.history_index + 1 =
        (browser_navigate_history
          { history := some "a" :: some "b" :: some "c" :: List.replicate 97 none,
            history_index := 1, history_count := 3 } "u").1.history_count ∧
      slotAt (browser_navigate_history
        { history := some "a" :: some "b" :: some "c" :: List.replicate 97 none,
          history_index := 1, history_count := 3 } "u").1.history
        ((browser_navigate_history
          { history := some "a" :: some "b" :: some "c" :: List.replicate 97 none,
            history_index := 1, history_count := 3 } "u").1.history_index) = some "u") ∧
    (∀ i, 1 < i → i < 3 →
      i ≠ (browser_navigate_history
        { history := some "a" :: some "b" :: some "c" :: List.replicate 97 none,
          history_index := 1, history_count := 3 } "u").1.history_index →
      slotAt (browser_navigate_history
        { history := some "a" :: some "b" :: some "c" :: List.replicate 97 none,
          history_index := 1, history_count := 3 } "u").1.history i = none) :=
  C10_amended
    { history := some "a" :: some "b" :: some "c" :: List.replicate 97 none,
      history_index := 1, history_count := 3 } "u"
    (by decide) (by decide) (by decide)

/-! ## C9 -/

/-- C9 counterexample: the header enumeration html_insertion_mode_t has
no mode named text (nor in-caption, in-column-group, in-select-in-table,
after-after-frameset), so the claimed twenty-one-mode state set is not
the declared one. -/
theorem C9_counterexample :
    ¬ (∀ n ∈ specClaimedInsertionModeNames,
        ∃ m : html_insertion_mode_t, insertionModeName m = n) := by
  intro h
  obtain ⟨m, hm⟩ := h "text" (by simp [specClaimedInsertionModeNames])
  cases m <;> simp [insertionModeName] at hm

/-- C9 (amended): the tree constructor state is exactly one of the
sixteen modes the header declares (initial, before-html, before-head,
in-head, after-head, in-body, after-body, after-after-body, in-table,
in-table-body, in-row, in-cell, in-select, in-template, in-frameset,
after-frameset); the five further modes the specification lists (text,
in-caption, in-column-group, in-select-in-table, after-after-frameset)
are absent, as are an original-insertion-mode slot and a template-mode
stack in html_parser_t. -/
theorem C9_amended :
    declaredInsertionModeNames =
      ["initial", "before-html", "before-head", "in-head", "after-head",
       "in-body", "after-body", "after-after-body", "in-table",
       "in-table-body", "in-row", "in-cell", "in-select", "in-template",
       "in-frameset", "after-frameset"] ∧
    (∀ m : html_insertion_mode_t, m ∈ allInsertionModes) ∧
    ("text" ∉ declaredInsertionModeNames ∧
     "in-caption" ∉ declaredInsertionModeNames ∧
     "in-column-group" ∉ declaredInsertionModeNames ∧
     "in-select-in-table" ∉ declaredInsertionModeNames ∧
     "after-after-frameset" ∉ declaredInsertionModeNames) := by
  refine ⟨rfl, ?_, by decide⟩
  intro m
  cases m <;> simp [allInsertionModes]

/-! ## C8 -/

/-- C8: html_parse fails exactly on the empty input, and
html_parse_fragment fails exactly on an empty input or a null context
element; every other input, however malformed, parses to a result
(spec section 7). -/
theorem C8_theorem :
    ∀ (s : String) (ctx : Option (String × List (String × String))),
      ((html_parse s = none) ↔ s = "") ∧
      ((html_parse_fragment s ctx = none) ↔ (s = "" ∨ ctx = none)) := by
  intro s ctx
  constructor
  · by_cases h : s = "" <;> simp [html_parse, h]
  · cases ctx with
    | none => by_cases h : s = "" <;> simp [html_parse_fragment, h]
    | some c =>
      obtain ⟨cn, ca⟩ := c
      by_cases h : s = "" <;> simp [html_parse_fragment, h]

/-! ## C2 -/

/-- C2 counterexample: on the input b1 i2 p3 /b 4 /p 5 /i the modelled
adoption agency (spec section 4.2) does not produce the nesting the
claim states.  The algorithm wraps the p inside the cloned i and leaves
the character 3 inside the cloned b (see C2_amended for the produced
tree); in the claimed tree the parent of 3 is the i element, so the
texts below i elements differ: the produced tree has 2, 3, 4, 5 there,
the claimed tree only 2, 3, 5. -/
theorem C2_counterexample :
    ¬ (bodyTree "<b>1<i>2<p>3</b>4</p>5</i>" =
      STree.elem "body"
        [STree.elem "b" [STree.text "1", STree.elem "i" [STree.text "2"]],
         STree.elem "p"
           [STree.elem "i" [STree.elem "b" [], STree.text "3"],
            STree.text "4"],
         STree.elem "i" [STree.text "5"]]) := by
  intro h
  have h1 : textsUnderName "i" (bodyTree "<b>1<i>2<p>3</b>4</p>5</i>") =
      ["2", "3", "4", "5"] := rfl
  rw [h] at h1
  have h2 : (["2", "3", "5"] : List String) = ["2", "3", "4", "5"] := h1
  exact absurd h2 (by decide)

/-- C2 (amended): the adoption agency run on b1 i2 p3 /b 4 /p 5 /i
clones the b element back inside the p (the clone holds the text 3) and
clones the i element around the p, producing the nesting
body > (b > 1, i > 2), (i > (p > (b > 3), 4), 5); the document order of
the text nodes is exactly 1, 2, 3, 4, 5. -/
theorem C2_amended :
    bodyTree "<b>1<i>2<p>3</b>4</p>5</i>" =
      STree.elem "body"
        [STree.elem "b" [STree.text "1", STree.elem "i" [STree.text "2"]],
         STree.elem "i"
           [STree.elem "p" [STree.elem "b" [STree.text "3"], STree.text "4"],
            STree.text "5"]] ∧
    allTexts (bodyTree "<b>1<i>2<p>3</b>4</p>5</i>") =
      ["1", "2", "3", "4", "5"] :=
  ⟨rfl, rfl⟩

/-! ## C3 -/

/-- C3 counterexample: in the parse of b x div y /div z /b the open b
element is never popped before the div closes, so the reconstruction
precondition of spec section 4.2 (last formatting entry not on the
stack) never fires: x, y and z all stay descendants of the original b
and no clone exists.  In particular y is a descendant of a b element,
refuting the claimed conjunction. -/
theorem C3_counterexample :
    ¬ ("x" ∈ textsUnderName "b" (bodyTree "<b>x<div>y</div>z</b>") ∧
       "z" ∈ textsUnderName "b" (bodyTree "<b>x<div>y</div>z</b>") ∧
       "y" ∉ textsUnderName "b" (bodyTree "<b>x<div>y</div>z</b>")) := by
  intro h
  apply h.2.2
  have h1 : textsUnderName "b" (bodyTree "<b>x<div>y</div>z</b>") =
      ["x", "y", "z"] := rfl
  rw [h1]
  decide

/-- C3 (amended): b x div y /div z /b parses to
body > b > (x, div > y, z): the b element stays open across the div, no
reconstruction happens, and all three texts x, y, z are descendants of
the single original b element. -/
theorem C3_amended :
    bodyTree "<b>x<div>y</div>z</b>" =
      STree.elem "body"
        [STree.elem "b"
          [STree.text "x", STree.elem "div" [STree.text "y"],
           STree.text "z"]] ∧
    textsUnderName "b" (bodyTree "<b>x<div>y</div>z</b>") =
      ["x", "y", "z"] :=
  ⟨rfl, rfl⟩

/-! ## Tokenizer invariants (claims C5 and C6). -/

theorem tokWF_tokErr (st : html_tokenizer_t) (e : html_parse_error_t)
    (h : tokWF st) : tokWF (tokErr st e) := h

theorem tokWF_tokEmit (st : html_tokenizer_t) (t : HtmlToken)
    (h : tokWF st) (hn : startTagAttrsNodup t) (he : t ≠ .eofTok) :
    tokWF (tokEmit st t) := by
  obtain ⟨h1, h2, h3⟩ := h
  refine ⟨h1, ?_, ?_⟩
  · intro t' ht'
    simp only [tokEmit, List.mem_cons] at ht'
    rcases ht' with rfl | ht'
    · exact hn
    · exact h2 t' ht'
  · simp only [tokEmit, List.mem_cons]
    intro hmem
    rcases hmem with h' | h'
    · exact he h'.symm
    · exact h3 h'

theorem tokWF_commitAttr (st : html_tokenizer_t) (h : tokWF st) :
    tokWF (commitAttr st) := by
  obtain ⟨h1, h2, h3⟩ := h
  unfold commitAttr
  split_ifs with hp hd
  · exact ⟨h1, h2, h3⟩
  · refine ⟨?_, h2, h3⟩
    simp only [List.map_append, List.map_cons, List.map_nil]
    rw [List.nodup_append]
    refine ⟨h1, List.nodup_singleton _, ?_⟩
    intro a ha
    simp only [List.mem_singleton]
    intro hb
    apply hd
    rw [List.any_eq_true]
    obtain ⟨x, hx, hfx⟩ := List.mem_map.mp ha
    exact ⟨x, hx, by simp [hfx, hb]⟩
  · exact ⟨h1, h2, h3⟩

theorem tokWF_emitCurrentTag (st : html_tokenizer_t) (h : tokWF st) :
    tokWF (emitCurrentTag st) := by
  have hc := tokWF_commitAttr st h
  simp only [emitCurrentTag]
  split_ifs with hE hA
  · refine ⟨by simp, ?_, ?_⟩
    · intro t ht
      simp only [tokEmit, tokErr, List.mem_cons] at ht
      rcases ht with rfl | ht
      · trivial
      · exact hc.2.1 t ht
    · simp only [tokEmit, tokErr, List.mem_cons]
      intro hmem
      rcases hmem with h' | h'
      · cases h'
      · exact hc.2.2 h'
  · refine ⟨by simp, ?_, ?_⟩
    · intro t ht
      simp only [tokEmit, List.mem_cons] at ht
      rcases ht with rfl | ht
      · trivial
      · exact hc.2.1 t ht
    · simp only [tokEmit, List.mem_cons]
      intro hmem
      rcases hmem with h' | h'
      · cases h'
      · exact hc.2.2 h'
  · refine ⟨by simp, ?_, ?_⟩
    · intro t ht
      simp only [tokEmit, List.mem_cons] at ht
      rcases ht with rfl | ht
      · exact hc.1
      · exact hc.2.1 t ht
    · simp only [tokEmit, List.mem_cons]
      intro hmem
      rcases hmem with h' | h'
      · cases h'
      · exact hc.2.2 h'

theorem tokWF_startTagState (st : html_tokenizer_t) (c : Char) (ie : Bool)
    (h : tokWF st) : tokWF (startTagState st c ie) :=
  ⟨by simp [startTagState], h.2.1, h.2.2⟩

theorem tokWF_emitChar (st : html_tokenizer_t) (c : Char) (h : tokWF st) :
    tokWF (tokEmit st (.charTok c)) :=
  tokWF_tokEmit st _ h trivial (fun hh => HtmlToken.noConfusion hh)

theorem tokWF_emitComment (st : html_tokenizer_t) (s' : String)
    (h : tokWF st) : tokWF (tokEmit st (.commentTok s')) :=
  tokWF_tokEmit st _ h trivial (fun hh => HtmlToken.noConfusion hh)

theorem tokWF_emitDoctype (st : html_tokenizer_t) (s' : String)
    (h : tokWF st) : tokWF (tokEmit st (.doctypeTok s')) :=
  tokWF_tokEmit st _ h trivial (fun hh => HtmlToken.noConfusion hh)

theorem tokWF_tokStep (st : html_tokenizer_t) (c : Char) (h : tokWF st) :
    tokWF (tokStep st c) := by
  obtain ⟨h1, h2, h3⟩ := h
  cases hs : st.state
  case STATE_DATA =>
    simp only [tokStep, hs]
    split_ifs
    · exact ⟨h1, h2, h3⟩
    · exact tokWF_emitChar st c ⟨h1, h2, h3⟩
  case STATE_SCRIPT_DATA =>
    simp only [tokStep, hs]
    split_ifs
    · exact ⟨h1, h2, h3⟩
    · exact tokWF_emitChar st c ⟨h1, h2, h3⟩
  case STATE_STYLE_DATA =>
    simp only [tokStep, hs]
    split_ifs
    · exact ⟨h1, h2, h3⟩
    · exact tokWF_emitChar st c ⟨h1, h2, h3⟩
  case STATE_CDATA_SECTION =>
    simp only [tokStep, hs]
    split_ifs
    · exact ⟨h1, h2, h3⟩
    · exact tokWF_emitChar st c ⟨h1, h2, h3⟩
  case STATE_TAG_OPEN =>
    simp only [tokStep, hs]
    split_ifs
    · exact ⟨h1, h2, h3⟩
    · exact ⟨h1, h2, h3⟩
    · exact tokWF_startTagState st c false ⟨h1, h2, h3⟩
    · exact ⟨h1, h2, h3⟩
    · exact tokWF_emitChar _ '<' ⟨h1, h2, h3⟩
    · exact tokWF_emitChar _ c (tokWF_emitChar _ '<' ⟨h1, h2, h3⟩)
  case STATE_END_TAG_OPEN =>
    simp only [tokStep, hs]
    split_ifs
    · exact tokWF_startTagState st c true ⟨h1, h2, h3⟩
    · exact ⟨h1, h2, h3⟩
    · exact ⟨h1, h2, h3⟩
  case STATE_TAG_NAME =>
    simp only [tokStep, hs]
    split_ifs
    · exact ⟨h1, h2, h3⟩
    · exact ⟨h1, h2, h3⟩
    · exact tokWF_emitCurrentTag st ⟨h1, h2, h3⟩
    · exact ⟨h1, h2, h3⟩
  case STATE_BEFORE_ATTRIBUTE_NAME =>
    simp only [tokStep, hs]
    split_ifs
    · exact ⟨h1, h2, h3⟩
    · exact ⟨h1, h2, h3⟩
    · exact tokWF_emitCurrentTag st ⟨h1, h2, h3⟩
    · exact ⟨h1, h2, h3⟩
    · exact ⟨h1, h2, h3⟩
  case STATE_ATTRIBUTE_NAME =>
    simp only [tokStep, hs]
    split_ifs
    · exact ⟨h1, h2, h3⟩
    · exact tokWF_commitAttr st ⟨h1, h2, h3⟩
    · exact ⟨h1, h2, h3⟩
    · exact tokWF_emitCurrentTag st ⟨h1, h2, h3⟩
    · exact ⟨h1, h2, h3⟩
  case STATE_AFTER_ATTRIBUTE_NAME =>
    simp only [tokStep, hs]
    split_ifs
    · exact ⟨h1, h2, h3⟩
    · exact tokWF_commitAttr st ⟨h1, h2, h3⟩
    · exact ⟨h1, h2, h3⟩
    · exact tokWF_emitCurrentTag st ⟨h1, h2, h3⟩
    · exact tokWF_commitAttr st ⟨h1, h2, h3⟩
  case STATE_BEFORE_ATTRIBUTE_VALUE =>
    simp only [tokStep, hs]
    split_ifs
    · exact ⟨h1, h2, h3⟩
    · exact ⟨h1, h2, h3⟩
    · exact ⟨h1, h2, h3⟩
    · exact tokWF_emitCurrentTag _ ⟨h1, h2, h3⟩
    · exact ⟨h1, h2, h3⟩
  case STATE_ATTRIBUTE_VALUE_DOUBLE_QUOTED =>
    simp only [tokStep, hs]
    split_ifs
    · exact tokWF_commitAttr st ⟨h1, h2, h3⟩
    · exact ⟨h1, h2, h3⟩
  case STATE_ATTRIBUTE_VALUE_SINGLE_QUOTED =>
    simp only [tokStep, hs]
    split_ifs
    · exact tokWF_commitAttr st ⟨h1, h2, h3⟩
    · exact ⟨h1, h2, h3⟩
  case STATE_ATTRIBUTE_VALUE_UNQUOTED =>
    simp only [tokStep, hs]
    split_ifs
    · exact tokWF_commitAttr st ⟨h1, h2, h3⟩
    · exact tokWF_emitCurrentTag st ⟨h1, h2, h3⟩
    · exact ⟨h1, h2, h3⟩
  case STATE_AFTER_ATTRIBUTE_VALUE_QUOTED =>
    simp only [tokStep, hs]
    split_ifs
    · exact ⟨h1, h2, h3⟩
    · exact ⟨h1, h2, h3⟩
    · exact tokWF_emitCurrentTag st ⟨h1, h2, h3⟩
    · exact ⟨h1, h2, h3⟩
  case STATE_SELF_CLOSING_START_TAG =>
    simp only [tokStep, hs]
    split_ifs
    · exact tokWF_emitCurrentTag _ ⟨h1, h2, h3⟩
    · exact ⟨h1, h2, h3⟩
    · exact ⟨h1, h2, h3⟩
    · exact ⟨h1, h2, h3⟩
  case STATE_MARKUP_DECLARATION_OPEN =>
    simp only [tokStep, hs]
    split_ifs
    · exact ⟨h1, h2, h3⟩
    · exact ⟨h1, h2, h3⟩
    · exact ⟨h1, h2, h3⟩
    · exact ⟨h1, h2, h3⟩
  case STATE_COMMENT_START =>
    simp only [tokStep, hs]
    split_ifs
    · exact tokWF_emitComment _ "" ⟨h1, h2, h3⟩
    · exact ⟨h1, h2, h3⟩
    · exact ⟨h1, h2, h3⟩
  case STATE_COMMENT =>
    simp only [tokStep, hs]
    split_ifs
    · exact ⟨h1, h2, h3⟩
    · exact ⟨h1, h2, h3⟩
  case STATE_COMMENT_END =>
    simp only [tokStep, hs]
    split_ifs
    · exact ⟨h1, h2, h3⟩
    · exact tokWF_emitComment _ _ ⟨h1, h2, h3⟩
    · exact ⟨h1, h2, h3⟩
    · exact ⟨h1, h2, h3⟩
  case STATE_DOCTYPE =>
    simp only [tokStep, hs]
    split_ifs
    · exact tokWF_emitDoctype _ _ ⟨h1, h2, h3⟩
    · exact ⟨h1, h2, h3⟩
    · exact ⟨h1, h2, h3⟩
  case STATE_BOGUS_COMMENT =>
    simp only [tokStep, hs]
    split_ifs
    · exact tokWF_emitComment _ _ ⟨h1, h2, h3⟩
    · exact ⟨h1, h2, h3⟩

theorem tokWF_tokFlush (st : html_tokenizer_t) (h : tokWF st) :
    tokWF (tokFlush st) := by
  obtain ⟨h1, h2, h3⟩ := h
  cases hs : st.state
  case STATE_DATA => simp only [tokFlush, hs]; exact ⟨h1, h2, h3⟩
  case STATE_SCRIPT_DATA => simp only [tokFlush, hs]; exact ⟨h1, h2, h3⟩
  case STATE_STYLE_DATA => simp only [tokFlush, hs]; exact ⟨h1, h2, h3⟩
  case STATE_CDATA_SECTION => simp only [tokFlush, hs]; exact ⟨h1, h2, h3⟩
  case STATE_TAG_OPEN => simp only [tokFlush, hs]; exact tokWF_emitChar _ '<' ⟨h1, h2, h3⟩
  case STATE_END_TAG_OPEN =>
    simp only [tokFlush, hs]
    exact tokWF_emitChar _ '/' (tokWF_emitChar _ '<' ⟨h1, h2, h3⟩)
  case STATE_TAG_NAME => simp only [tokFlush, hs]; exact tokWF_emitCurrentTag _ ⟨h1, h2, h3⟩
  case STATE_BEFORE_ATTRIBUTE_NAME => simp only [tokFlush, hs]; exact tokWF_emitCurrentTag _ ⟨h1, h2, h3⟩
  case STATE_ATTRIBUTE_NAME => simp only [tokFlush, hs]; exact tokWF_emitCurrentTag _ ⟨h1, h2, h3⟩
  case STATE_AFTER_ATTRIBUTE_NAME => simp only [tokFlush, hs]; exact tokWF_emitCurrentTag _ ⟨h1, h2, h3⟩
  case STATE_BEFORE_ATTRIBUTE_VALUE => simp only [tokFlush, hs]; exact tokWF_emitCurrentTag _ ⟨h1, h2, h3⟩
  case STATE_ATTRIBUTE_VALUE_DOUBLE_QUOTED =>
    simp only [tokFlush, hs]
    exact tokWF_emitCurrentTag _ ⟨h1, h2, h3⟩
  case STATE_ATTRIBUTE_VALUE_SINGLE_QUOTED =>
    simp only [tokFlush, hs]
    exact tokWF_emitCurrentTag _ ⟨h1, h2, h3⟩
  case STATE_ATTRIBUTE_VALUE_UNQUOTED => simp only [tokFlush, hs]; exact tokWF_emitCurrentTag _ ⟨h1, h2, h3⟩
  case STATE_AFTER_ATTRIBUTE_VALUE_QUOTED =>
    simp only [tokFlush, hs]
    exact tokWF_emitCurrentTag _ ⟨h1, h2, h3⟩
  case STATE_SELF_CLOSING_START_TAG => simp only [tokFlush, hs]; exact tokWF_emitCurrentTag _ ⟨h1, h2, h3⟩
  case STATE_MARKUP_DECLARATION_OPEN => simp only [tokFlush, hs]; exact tokWF_emitComment _ _ ⟨h1, h2, h3⟩
  case STATE_COMMENT_START => simp only [tokFlush, hs]; exact tokWF_emitComment _ _ ⟨h1, h2, h3⟩
  case STATE_COMMENT => simp only [tokFlush, hs]; exact tokWF_emitComment _ _ ⟨h1, h2, h3⟩
  case STATE_COMMENT_END => simp only [tokFlush, hs]; exact tokWF_emitComment _ _ ⟨h1, h2, h3⟩
  case STATE_DOCTYPE => simp only [tokFlush, hs]; exact tokWF_emitDoctype _ _ ⟨h1, h2, h3⟩
  case STATE_BOGUS_COMMENT => simp only [tokFlush, hs]; exact tokWF_emitComment _ _ ⟨h1, h2, h3⟩

theorem tokWF_foldl (l : List Char) : ∀ (st : html_tokenizer_t),
    tokWF st → tokWF (l.foldl tokStep st) := by
  induction l with
  | nil => intro st h; exact h
  | cons c cs ih => intro st h; exact ih (tokStep st c) (tokWF_tokStep st c h)

theorem htmlTokenizeState_wf (s : String) : tokWF (htmlTokenizeState s) :=
  tokWF_tokFlush _ (tokWF_foldl s.data {} ⟨by simp, by simp, by simp⟩)

/-! ## C5 -/

/-- C5: on every finite input the token sequence ends in exactly one
EndOfFile token (so repeated next_token calls eventually yield
TOKEN_EOF) and the tokenizer only records error kinds, never aborts;
whenever end of input hits in the middle of a start tag (tag-name
state), the pending partial tag token is still emitted right before the
EOF token, and likewise concretely mid-attribute, mid-comment and
mid-doctype, each with a recorded HTML_ERROR_UNEXPECTED_EOF. -/
theorem C5_theorem :
    (∀ s : String,
      ((htmlTokenize s).map tokenType).getLast? =
        some html_token_type_t.TOKEN_EOF) ∧
    (∀ s : String, (htmlTokenize s).count HtmlToken.eofTok = 1) ∧
    (∀ s : String, (s.data.foldl tokStep {}).state = .STATE_TAG_NAME →
      (s.data.foldl tokStep {}).isEnd = false →
      (s.data.foldl tokStep {}).hasPend = false →
      htmlTokenize s = (s.data.foldl tokStep {}).emittedRev.reverse ++
        [.startTag (s.data.foldl tokStep {}).tagName
          (s.data.foldl tokStep {}).attrs
          (s.data.foldl tokStep {}).selfClosing, .eofTok]) ∧
    htmlTokenize "<div foo" =
      [.startTag "div" [("foo", "")] false, .eofTok] ∧
    htmlTokenize "<!--abc" = [.commentTok "abc", .eofTok] ∧
    htmlTokenize "<!DOCTYPE ht" = [.doctypeTok "ht", .eofTok] ∧
    htmlTokenizeErrors "<div foo" = [.HTML_ERROR_UNEXPECTED_EOF] ∧
    htmlTokenizeErrors "<!--abc" = [.HTML_ERROR_UNEXPECTED_EOF] := by
  refine ⟨?_, ?_, ?_, by rfl, by rfl, by rfl, by rfl, by rfl⟩
  · intro s
    simp [htmlTokenize, List.getLast?_concat, tokenType]
  · intro s
    unfold htmlTokenize
    rw [List.count_append]
    have h3 := (htmlTokenizeState_wf s).2.2
    have hz : (htmlTokenizeState s).emittedRev.reverse.count HtmlToken.eofTok
        = 0 := by
      rw [List.count_eq_zero]
      intro hmem
      exact h3 (List.mem_reverse.mp hmem)
    rw [hz]
    rfl
  · intro s h1 h2 h3
    unfold htmlTokenize htmlTokenizeState
    simp only [tokFlush, h1]
    simp only [emitCurrentTag, commitAttr, tokErr, tokEmit, h2, h3]
    simp

/-- C5 witness: the input cut in the middle of the tag name di leaves
the tokenizer in the tag-name state, and the theorem yields the pending
start tag followed by the EOF token. -/
theorem C5_witness :
    htmlTokenize "<di" = ("<di".data.foldl tokStep {}).emittedRev.reverse ++
      [.startTag ("<di".data.foldl tokStep {}).tagName
        ("<di".data.foldl tokStep {}).attrs
        ("<di".data.foldl tokStep {}).selfClosing, .eofTok] :=
  C5_theorem.2.2.1 "<di" (by decide) (by decide) (by decide)

/-! ## C6 -/

/-- C6: every start tag token the tokenizer emits has pairwise distinct
attribute names; on the concrete duplicated input the second href is
dropped (first occurrence wins) and a duplicate-attribute error is
recorded without aborting. -/
theorem C6_theorem :
    (∀ (s : String), ∀ t ∈ htmlTokenize s, startTagAttrsNodup t) ∧
    htmlTokenize "<a href=1 href=2>" =
      [.startTag "a" [("href", "1")] false, .eofTok] ∧
    htmlTokenizeErrors "<a href=1 href=2>" =
      [.HTML_ERROR_DUPLICATE_ATTRIBUTE] := by
  refine ⟨?_, by rfl, by rfl⟩
  intro s t ht
  unfold htmlTokenize at ht
  rcases List.mem_append.mp ht with h' | h'
  · exact (htmlTokenizeState_wf s).2.1 t (List.mem_reverse.mp h')
  · rcases List.mem_singleton.mp h' with rfl
    trivial

/-- C6 witness: the theorem applied to the emitted start tag of the
duplicated-attribute input. -/
theorem C6_witness :
    startTagAttrsNodup (.startTag "a" [("href", "1")] false) :=
  C6_theorem.1 "<a href=1 href=2>" (.startTag "a" [("href", "1")] false)
    (by decide)

/-! ## Arena lemmas for the tree-construction invariants. -/

theorem listModify_getD (f : NodeData → NodeData) :
    ∀ (l : List NodeData) (i j : Nat),
      (listModify f l i).getD j nodeDefault =
        if i = j ∧ j < l.length then f (l.getD j nodeDefault)
        else l.getD j nodeDefault := by
  intro l
  induction l with
  | nil => intro i j; simp [listModify]
  | cons x xs ih =>
    intro i j
    cases i with
    | zero =>
      cases j with
      | zero => simp [listModify]
      | succ j => simp [listModify]
    | succ i =>
      cases j with
      | zero => simp [listModify]
      | succ j =>
        simp only [listModify, List.getD_cons_succ, List.length_cons]
        rw [ih i j]
        split_ifs <;> first | rfl | omega

theorem length_listModify (f : NodeData → NodeData) :
    ∀ (l : List NodeData) (i : Nat), (listModify f l i).length = l.length := by
  intro l
  induction l with
  | nil => intro i; rfl
  | cons x xs ih =>
    intro i
    cases i with
    | zero => simp [listModify]
    | succ i => simp [listModify, ih]

theorem Dom.get_modifyNode (d : Dom) (i j : Nat) (f : NodeData → NodeData) :
    (d.modifyNode i f).get j =
      if i = j ∧ j < d.size then f (d.get j) else d.get j := by
  simp only [Dom.modifyNode, Dom.get, Dom.size]
  exact listModify_getD f d.nodes i j

theorem Dom.size_modifyNode (d : Dom) (i : Nat) (f : NodeData → NodeData) :
    (d.modifyNode i f).size = d.size := by
  simp [Dom.modifyNode, Dom.size, length_listModify]

theorem Dom.get_alloc (d : Dom) (n : NodeData) (j : Nat) :
    (d.alloc n).1.get j = if j = d.size then n else d.get j := by
  simp only [Dom.alloc, Dom.get, Dom.size]
  rcases Nat.lt_trichotomy j d.nodes.length with h | h | h
  · rw [if_neg (by omega)]
    rw [List.getD_eq_getElem?_getD, List.getElem?_append_left h]
    rw [List.getD_eq_getElem?_getD]
  · subst h
    rw [if_pos rfl]
    rw [List.getD_eq_getElem?_getD, List.getElem?_append_right (le_refl _)]
    simp
  · rw [if_neg (by omega)]
    rw [List.getD_eq_getElem?_getD, List.getD_eq_getElem?_getD]
    rw [List.getElem?_eq_none (by simp; omega), List.getElem?_eq_none (by omega)]

theorem Dom.size_alloc (d : Dom) (n : NodeData) :
    (d.alloc n).1.size = d.size + 1 := by
  simp [Dom.alloc, Dom.size]

theorem Dom.alloc_id (d : Dom) (n : NodeData) : (d.alloc n).2 = d.size := rfl

/-! ## Preservation of element identity and void-childlessness by the
arena operations. -/

theorem keepsElems_refl (d : Dom) : keepsElems d d :=
  fun _ hk => ⟨hk, rfl⟩

theorem keepsElems_trans {d d' d'' : Dom} (h1 : keepsElems d d')
    (h2 : keepsElems d' d'') : keepsElems d d'' := by
  intro j hk
  obtain ⟨hk', hn'⟩ := h1 j hk
  obtain ⟨hk'', hn''⟩ := h2 j hk'
  exact ⟨hk'', hn''.trans hn'⟩

theorem keepsElems_modifyNode (d : Dom) (i : Nat) (f : NodeData → NodeData)
    (hf : ∀ n, (f n).kind = n.kind ∧ (f n).name = n.name) :
    keepsElems d (d.modifyNode i f) := by
  intro j hk
  rw [Dom.get_modifyNode]
  split_ifs with h
  · exact ⟨by rw [(hf (d.get j)).1]; exact hk, (hf (d.get j)).2⟩
  · exact ⟨hk, rfl⟩

theorem Dom.get_oob (d : Dom) (j : Nat) (h : d.size ≤ j) :
    d.get j = nodeDefault := by
  unfold Dom.get
  rw [List.getD_eq_getElem?_getD, List.getElem?_eq_none h]
  rfl

theorem keepsElems_alloc (d : Dom) (n : NodeData) :
    keepsElems d (d.alloc n).1 := by
  intro j hk
  rw [Dom.get_alloc]
  split_ifs with h
  · subst h
    rw [Dom.get_oob d d.size (le_refl _)] at hk
    cases hk
  · exact ⟨hk, rfl⟩

theorem fnKindName_addChild (c : Nat) (n : NodeData) :
    (addChildFn c n).kind = n.kind ∧ (addChildFn c n).name = n.name :=
  ⟨rfl, rfl⟩

theorem fnKindName_setParent (p : Option Nat) (n : NodeData) :
    (setParentFn p n).kind = n.kind ∧ (setParentFn p n).name = n.name :=
  ⟨rfl, rfl⟩

theorem fnKindName_removeChild (c : Nat) (n : NodeData) :
    (removeChildFn c n).kind = n.kind ∧ (removeChildFn c n).name = n.name :=
  ⟨rfl, rfl⟩

theorem keepsElems_appendChild (d : Dom) (a b : Nat) :
    keepsElems d (d.appendChild a b) :=
  keepsElems_trans
    (keepsElems_modifyNode d a (addChildFn b) (fnKindName_addChild b))
    (keepsElems_modifyNode _ b (setParentFn (some a))
      (fnKindName_setParent (some a)))

theorem keepsElems_detach (d : Dom) (c : Nat) :
    keepsElems d (d.detach c) := by
  unfold Dom.detach
  split
  · exact keepsElems_refl d
  · exact keepsElems_trans
      (keepsElems_modifyNode d _ (removeChildFn c) (fnKindName_removeChild c))
      (keepsElems_modifyNode _ c (setParentFn none) (fnKindName_setParent none))

theorem keepsElems_foldlParent (dst : Nat) : ∀ (cs : List Nat) (d : Dom),
    keepsElems d
      (cs.foldl (fun d c => d.modifyNode c (setParentFn (some dst))) d) := by
  intro cs
  induction cs with
  | nil => intro d; exact keepsElems_refl d
  | cons c cs ih =>
    intro d
    rw [List.foldl_cons]
    exact keepsElems_trans
      (keepsElems_modifyNode d c (setParentFn (some dst))
        (fnKindName_setParent (some dst))) (ih _)

theorem keepsElems_moveChildren (d : Dom) (s t : Nat) :
    keepsElems d (d.moveChildren s t) := by
  unfold Dom.moveChildren
  dsimp only
  exact keepsElems_trans
    (keepsElems_trans
      (keepsElems_modifyNode d s clearChildrenFn (fun n => ⟨rfl, rfl⟩))
      (keepsElems_modifyNode _ t (addChildrenFn (d.get s).children)
        (fun n => ⟨rfl, rfl⟩)))
    (keepsElems_foldlParent t _ _)

/-! ## Void-childlessness preservation by the arena operations. -/

theorem vcOK_modify_shrink (d : Dom) (i : Nat) (f : NodeData → NodeData)
    (hk : ∀ n, (f n).kind = n.kind) (hn : ∀ n, (f n).name = n.name)
    (hc : ∀ n, n.children = [] → (f n).children = [])
    (h : vcOK d) : vcOK (d.modifyNode i f) := by
  intro j hkind hvoid
  rw [Dom.get_modifyNode] at hkind hvoid ⊢
  split_ifs with hij
  · rw [if_pos hij] at hkind hvoid
    rw [hk] at hkind
    rw [hn] at hvoid
    exact hc _ (h j hkind hvoid)
  · rw [if_neg hij] at hkind hvoid
    exact h j hkind hvoid

theorem vcOK_modify_target (d : Dom) (i : Nat) (f : NodeData → NodeData)
    (hk : ∀ n, (f n).kind = n.kind) (hn : ∀ n, (f n).name = n.name)
    (ht : targetOK d i) (h : vcOK d) : vcOK (d.modifyNode i f) := by
  intro j hkind hvoid
  rw [Dom.get_modifyNode] at hkind hvoid ⊢
  split_ifs with hij
  · rw [if_pos hij] at hkind hvoid
    rw [hk] at hkind
    rw [hn] at hvoid
    obtain ⟨rfl, _⟩ := hij
    rw [ht hkind] at hvoid
    cases hvoid
  · rw [if_neg hij] at hkind hvoid
    exact h j hkind hvoid

theorem vcOK_alloc (d : Dom) (n : NodeData) (hn : n.children = [])
    (h : vcOK d) : vcOK (d.alloc n).1 := by
  intro j hkind hvoid
  rw [Dom.get_alloc] at hkind hvoid ⊢
  split_ifs with hj
  · exact hn
  · rw [if_neg hj] at hkind hvoid
    exact h j hkind hvoid

theorem vcOK_appendChild (d : Dom) (a b : Nat) (ht : targetOK d a)
    (h : vcOK d) : vcOK (d.appendChild a b) := by
  unfold Dom.appendChild
  apply vcOK_modify_shrink _ b (setParentFn (some a)) (fun n => rfl)
    (fun n => rfl) (fun n hh => hh)
  exact vcOK_modify_target d a (addChildFn b) (fun n => rfl) (fun n => rfl) ht h

theorem vcOK_detach (d : Dom) (c : Nat) (h : vcOK d) : vcOK (d.detach c) := by
  unfold Dom.detach
  split
  · exact h
  · apply vcOK_modify_shrink _ c (setParentFn none) (fun n => rfl)
      (fun n => rfl) (fun n hh => hh)
    apply vcOK_modify_shrink _ _ (removeChildFn c) (fun n => rfl)
      (fun n => rfl) ?_ h
    intro n hh
    simp [removeChildFn, hh]

theorem vcOK_foldlParent (dst : Nat) : ∀ (cs : List Nat) (d : Dom),
    vcOK d → vcOK
      (cs.foldl (fun d c => d.modifyNode c (setParentFn (some dst))) d) := by
  intro cs
  induction cs with
  | nil => intro d h; exact h
  | cons c cs ih =>
    intro d h
    rw [List.foldl_cons]
    exact ih _ (vcOK_modify_shrink d c (setParentFn (some dst)) (fun n => rfl)
      (fun n => rfl) (fun n hh => hh) h)

theorem vcOK_moveChildren (d : Dom) (s t : Nat) (ht : targetOK d t)
    (h : vcOK d) : vcOK (d.moveChildren s t) := by
  unfold Dom.moveChildren
  dsimp only
  apply vcOK_foldlParent
  apply vcOK_modify_target _ t (addChildrenFn (d.get s).children)
    (fun n => rfl) (fun n => rfl)
  · intro hk
    rw [Dom.get_modifyNode] at hk ⊢
    split_ifs at hk ⊢ with hij
    · exact ht hk
    · exact ht hk
  · exact vcOK_modify_shrink d s clearChildrenFn (fun n => rfl) (fun n => rfl)
      (fun n hh => rfl) h

/-! ## DomInv preservation. -/

theorem kind0_modify (d : Dom) (i : Nat) (f : NodeData → NodeData)
    (hk : ∀ n, (f n).kind = n.kind) :
    ((d.modifyNode i f).get 0).kind = (d.get 0).kind := by
  rw [Dom.get_modifyNode]
  split_ifs with h
  · exact hk _
  · rfl

theorem domInv_appendChild (d : Dom) (a b : Nat) (ht : targetOK d a)
    (h : DomInv d) : DomInv (d.appendChild a b) := by
  obtain ⟨h1, h2, h3⟩ := h
  refine ⟨?_, ?_, vcOK_appendChild d a b ht h3⟩
  · unfold Dom.appendChild
    rw [Dom.size_modifyNode, Dom.size_modifyNode]
    exact h1
  · unfold Dom.appendChild
    rw [kind0_modify _ _ (setParentFn (some a)) (fun n => rfl),
      kind0_modify _ _ (addChildFn b) (fun n => rfl)]
    exact h2

theorem domInv_detach (d : Dom) (c : Nat) (h : DomInv d) :
    DomInv (d.detach c) := by
  obtain ⟨h1, h2, h3⟩ := h
  refine ⟨?_, ?_, vcOK_detach d c h3⟩
  · unfold Dom.detach
    split
    · exact h1
    · rw [Dom.size_modifyNode, Dom.size_modifyNode]
      exact h1
  · unfold Dom.detach
    split
    · exact h2
    · rw [kind0_modify _ _ (setParentFn none) (fun n => rfl),
        kind0_modify _ _ (removeChildFn c) (fun n => rfl)]
      exact h2

theorem size_foldlParent (dst : Nat) : ∀ (cs : List Nat) (d : Dom),
    (cs.foldl (fun d c => d.modifyNode c (setParentFn (some dst))) d).size =
      d.size := by
  intro cs
  induction cs with
  | nil => intro d; rfl
  | cons c cs ih =>
    intro d
    rw [List.foldl_cons, ih, Dom.size_modifyNode]

theorem kind0_foldlParent (dst : Nat) : ∀ (cs : List Nat) (d : Dom),
    ((cs.foldl (fun d c => d.modifyNode c (setParentFn (some dst))) d).get
      0).kind = (d.get 0).kind := by
  intro cs
  induction cs with
  | nil => intro d; rfl
  | cons c cs ih =>
    intro d
    rw [List.foldl_cons, ih, kind0_modify _ _ (setParentFn (some dst))
      (fun n => rfl)]

theorem domInv_moveChildren (d : Dom) (s t : Nat) (ht : targetOK d t)
    (h : DomInv d) : DomInv (d.moveChildren s t) := by
  obtain ⟨h1, h2, h3⟩ := h
  refine ⟨?_, ?_, vcOK_moveChildren d s t ht h3⟩
  · unfold Dom.moveChildren
    dsimp only
    rw [size_foldlParent, Dom.size_modifyNode, Dom.size_modifyNode]
    exact h1
  · unfold Dom.moveChildren
    dsimp only
    rw [kind0_foldlParent, kind0_modify _ _ (addChildrenFn (d.get s).children)
      (fun n => rfl), kind0_modify _ _ clearChildrenFn (fun n => rfl)]
    exact h2

theorem domInv_alloc (d : Dom) (n : NodeData) (hn : n.children = [])
    (h : DomInv d) : DomInv (d.alloc n).1 := by
  obtain ⟨h1, h2, h3⟩ := h
  refine ⟨?_, ?_, vcOK_alloc d n hn h3⟩
  · rw [Dom.size_alloc]; omega
  · rw [Dom.get_alloc]
    rw [if_neg (by omega)]
    exact h2

theorem domInv_modify_shrink (d : Dom) (i : Nat) (f : NodeData → NodeData)
    (hk : ∀ n, (f n).kind = n.kind) (hn : ∀ n, (f n).name = n.name)
    (hc : ∀ n, n.children = [] → (f n).children = [])
    (h : DomInv d) : DomInv (d.modifyNode i f) := by
  obtain ⟨h1, h2, h3⟩ := h
  refine ⟨?_, ?_, vcOK_modify_shrink d i f hk hn hc h3⟩
  · rw [Dom.size_modifyNode]; exact h1
  · rw [kind0_modify _ _ f hk]; exact h2

/-! ## Transfer of the stack, document-element and target facts along
element-preserving arena transitions. -/

theorem elem_lt_size (d : Dom) (j : Nat)
    (h : (d.get j).kind = .NODE_ELEMENT) : j < d.size := by
  by_contra hj
  rw [Dom.get_oob d j (Nat.le_of_not_lt hj)] at h
  exact absurd h (by decide)

theorem stackOK_keeps {d d' : Dom} {stk : List OpenEntry}
    (h : StackOK d stk) (hk : keepsElems d d') : StackOK d' stk := by
  intro e he
  obtain ⟨hv, hkind, hname⟩ := h e he
  obtain ⟨hk1, hk2⟩ := hk e.id hkind
  exact ⟨hv, hk1, by rw [hk2, hname]⟩

theorem docElemOK_keeps {d d' : Dom} {de : Option Nat}
    (h : DocElemOK d de) (hk : keepsElems d d') : DocElemOK d' de := by
  intro i hi
  obtain ⟨h1, h2⟩ := h i hi
  obtain ⟨k1, k2⟩ := hk i h1
  exact ⟨k1, by rw [k2, h2]⟩

theorem stackOK_subset {d : Dom} {s s' : List OpenEntry}
    (h : StackOK d s) (hs : s' ⊆ s) : StackOK d s' :=
  fun e he => h e (hs he)

theorem targetOK_doc (d : Dom) (h : (d.get 0).kind = .NODE_DOCUMENT) :
    targetOK d 0 := by
  intro hk
  rw [h] at hk
  cases hk

theorem targetOK_of_entry {d : Dom} {stk : List OpenEntry} {e : OpenEntry}
    (hs : StackOK d stk) (he : e ∈ stk) :
    targetOK d e.id ∧ e.id < d.size := by
  obtain ⟨hv, hkind, hname⟩ := hs e he
  exact ⟨fun _ => by rw [hname]; exact hv, elem_lt_size _ _ hkind⟩

theorem currentTarget_ok (p : html_parser_t)
    (hd : DomInv p.dom) (hs : StackOK p.dom p.open_elements) :
    targetOK p.dom (currentTarget p) ∧ currentTarget p < p.dom.size := by
  cases hoe : p.open_elements with
  | nil =>
    constructor
    · simp only [currentTarget, hoe]
      exact targetOK_doc _ hd.2.1
    · simp only [currentTarget, hoe]
      exact hd.1
  | cons e rest =>
    have he := targetOK_of_entry hs (by rw [hoe]; exact List.mem_cons_self e rest)
    constructor
    · simp only [currentTarget, hoe]
      exact he.1
    · simp only [currentTarget, hoe]
      exact he.2

theorem Dom.get_alloc_lt (d : Dom) (n : NodeData) (j : Nat) (h : j < d.size) :
    (d.alloc n).1.get j = d.get j := by
  rw [Dom.get_alloc, if_neg (by omega)]

/-! ## The allocate-and-append step shared by element, text, comment and
doctype creation. -/

theorem allocAppend_domInv (d : Dom) (n : NodeData) (t : Nat)
    (hinv : DomInv d) (ht : targetOK d t) (hlt : t < d.size)
    (hn : n.children = []) :
    DomInv ((d.alloc n).1.appendChild t d.size) := by
  apply domInv_appendChild _ t d.size ?_ (domInv_alloc d n hn hinv)
  intro hk
  rw [Dom.get_alloc_lt d n t hlt] at hk ⊢
  exact ht hk

theorem allocAppend_keeps (d : Dom) (n : NodeData) (t : Nat) :
    keepsElems d ((d.alloc n).1.appendChild t d.size) :=
  keepsElems_trans (keepsElems_alloc d n) (keepsElems_appendChild _ t d.size)

theorem allocAppend_size (d : Dom) (n : NodeData) (t : Nat) :
    ((d.alloc n).1.appendChild t d.size).size = d.size + 1 := by
  unfold Dom.appendChild
  rw [Dom.size_modifyNode, Dom.size_modifyNode, Dom.size_alloc]

theorem allocAppend_get_new (d : Dom) (n : NodeData) (t : Nat)
    (hne : t ≠ d.size) :
    (((d.alloc n).1.appendChild t d.size).get d.size).kind = n.kind ∧
    (((d.alloc n).1.appendChild t d.size).get d.size).name = n.name := by
  unfold Dom.appendChild
  rw [Dom.get_modifyNode]
  split_ifs with h1
  · rw [Dom.get_modifyNode, if_neg (fun hc => hne hc.1), Dom.get_alloc,
      if_pos rfl]
    exact ⟨rfl, rfl⟩
  · rw [Dom.get_modifyNode, if_neg (fun hc => hne hc.1), Dom.get_alloc,
      if_pos rfl]
    exact ⟨rfl, rfl⟩

/-! ## Category facts: formatting and block-closing tag names are never
void. -/

theorem mem_of_contains : ∀ {l : List String} {x : String},
    l.contains x = true → x ∈ l := by
  intro l x h
  induction l with
  | nil => cases h
  | cons a t ih =>
    rw [List.contains_cons, Bool.or_eq_true, beq_iff_eq] at h
    rcases h with h | h
    · rw [h]; exact List.mem_cons_self a t
    · exact List.mem_cons_of_mem a (ih h)

theorem nonvoid_of_forall {l : List String} {x : String}
    (hl : ∀ y ∈ l, html_is_void_element y = false)
    (hx : l.contains x = true) :
    html_is_void_element x = false :=
  hl x (mem_of_contains hx)

theorem formatting_nonvoid {n : String}
    (h : html_is_formatting_element n = true) :
    html_is_void_element n = false :=
  nonvoid_of_forall (by decide) h

theorem blockCloseP_nonvoid {n : String}
    (h : blockClosePNames.contains n = true) :
    html_is_void_element n = false :=
  nonvoid_of_forall (by decide) h

/-! ## Counting lemmas for the ActiveFormattingList. -/

theorem countP_eraseP_self (k : AFEntry → Bool) : ∀ (l : List AFEntry),
    0 < l.countP k → (l.eraseP k).countP k = l.countP k - 1 := by
  intro l
  induction l with
  | nil => intro h; cases h
  | cons a t ih =>
    intro h
    by_cases ha : k a = true
    · rw [List.eraseP_cons_of_pos ha, List.countP_cons, if_pos ha]
      omega
    · rw [List.eraseP_cons_of_neg ha, List.countP_cons,
        if_neg ha, List.countP_cons, if_neg ha]
      rw [List.countP_cons, if_neg ha] at h
      have := ih h
      omega

theorem countP_remove_matching (k q : AFEntry → Bool) :
    ∀ (l : List AFEntry) (x : AFEntry), x ∈ l → k x = true → q x = false →
      (l.filter q).countP k < l.countP k := by
  intro l
  induction l with
  | nil => intro x hx; cases hx
  | cons a t ih =>
    intro x hx hk hq
    rcases List.mem_cons.mp hx with rfl | hx
    · rw [List.filter_cons_of_neg (by simp [hq]), List.countP_cons, if_pos hk]
      have := List.Sublist.countP_le k (@List.filter_sublist AFEntry q t)
      omega
    · by_cases hqa : q a = true
      · rw [List.filter_cons_of_pos hqa, List.countP_cons, List.countP_cons]
        have := ih x hx hk hq
        split_ifs <;> omega
      · rw [List.filter_cons_of_neg (by simp [hqa]), List.countP_cons]
        have := ih x hx hk hq
        split_ifs <;> omega

theorem takeWhile_real_of_noMarker : ∀ (l : List AFEntry),
    AFEntry.marker ∉ l → l.takeWhile AFEntry.isRealEntry = l := by
  intro l
  induction l with
  | nil => intro _; rfl
  | cons a t ih =>
    intro h
    cases a with
    | marker => exact absurd (List.mem_cons_self _ _) h
    | entry i n as =>
      rw [List.takeWhile_cons_of_pos rfl,
        ih (fun hm => h (List.mem_cons_of_mem _ hm))]

/-! ## AfeOK preservation by the formatting-list operations. -/

theorem afeOK_of_sublist {l l' : List AFEntry} (h : AfeOK l)
    (hs : l'.Sublist l) : AfeOK l' := by
  obtain ⟨h1, h2, h3⟩ := h
  exact ⟨fun i n a hm => h1 i n a (hs.subset hm),
    fun hm => h2 (hs.subset hm),
    fun name attrs => le_trans (List.Sublist.countP_le _ hs) (h3 name attrs)⟩

theorem afeOK_removeId {l : List AFEntry} (h : AfeOK l) (id : Nat) :
    AfeOK (afeRemoveId l id) :=
  afeOK_of_sublist h (List.filter_sublist l)

theorem countP_afeReplaceId (n : String) (a : List (String × String))
    (o w : Nat) : ∀ (l : List AFEntry),
    (afeReplaceId l o w).countP (afeKeyMatch n a) =
      l.countP (afeKeyMatch n a) := by
  intro l
  induction l with
  | nil => rfl
  | cons e t ih =>
    simp only [afeReplaceId, List.map_cons, List.countP_cons]
    simp only [afeReplaceId] at ih
    rw [ih]
    cases e with
    | marker => rfl
    | entry i n' a' =>
      by_cases hio : i = o
      · rw [afeRebindFn, if_pos hio]
        rfl
      · rw [afeRebindFn, if_neg hio]

theorem afeReplaceId_names {l : List AFEntry} {o w : Nat}
    (h : ∀ i n a, AFEntry.entry i n a ∈ l →
      html_is_formatting_element n = true) :
    ∀ i n a, AFEntry.entry i n a ∈ afeReplaceId l o w →
      html_is_formatting_element n = true := by
  intro i n a hm
  simp only [afeReplaceId, List.mem_map] at hm
  obtain ⟨e, he, heq⟩ := hm
  cases e with
  | marker => cases heq
  | entry i' n' a' =>
    by_cases hio : i' = o
    · rw [afeRebindFn, if_pos hio] at heq
      cases heq
      exact h i' n a he
    · rw [afeRebindFn, if_neg hio] at heq
      cases heq
      exact h i n a he

theorem afeReplaceId_noMarker {l : List AFEntry} {o w : Nat}
    (h : AFEntry.marker ∉ l) : AFEntry.marker ∉ afeReplaceId l o w := by
  intro hm
  simp only [afeReplaceId, List.mem_map] at hm
  obtain ⟨e, he, heq⟩ := hm
  cases e with
  | marker => exact h he
  | entry i' n' a' =>
    by_cases hio : i' = o
    · rw [afeRebindFn, if_pos hio] at heq; cases heq
    · rw [afeRebindFn, if_neg hio] at heq; cases heq

theorem afeOK_replaceId {l : List AFEntry} (h : AfeOK l) (o w : Nat) :
    AfeOK (afeReplaceId l o w) := by
  refine ⟨afeReplaceId_names h.1, afeReplaceId_noMarker h.2.1, fun n a => ?_⟩
  have := h.2.2 n a
  rw [afeCount] at this ⊢
  rw [countP_afeReplaceId]
  exact this

theorem mem_afeReplaceId_of_ne {l : List AFEntry} {o w i : Nat} {n : String}
    {a : List (String × String)}
    (h : AFEntry.entry i n a ∈ l) (hne : i ≠ o) :
    AFEntry.entry i n a ∈ afeReplaceId l o w := by
  simp only [afeReplaceId, List.mem_map]
  exact ⟨.entry i n a, h, by rw [afeRebindFn, if_neg hne]⟩

theorem mem_afeRemoveId_of_ne {l : List AFEntry} {id i : Nat} {n : String}
    {a : List (String × String)}
    (h : AFEntry.entry i n a ∈ l) (hne : i ≠ id) :
    AFEntry.entry i n a ∈ afeRemoveId l id := by
  rw [afeRemoveId, List.mem_filter]
  exact ⟨h, by simp [AFEntry.entryId, hne]⟩

theorem countP_afeInsertAt (k : AFEntry → Bool) (l : List AFEntry) (j : Nat)
    (e : AFEntry) :
    (afeInsertAt l j e).countP k =
      l.countP k + (if k e = true then 1 else 0) := by
  unfold afeInsertAt
  rw [List.countP_append, List.countP_append]
  have h2 : (l.take j).countP k + (l.drop j).countP k = l.countP k := by
    rw [← List.countP_append, List.take_append_drop]
  simp only [List.countP_cons, List.countP_nil]
  omega

theorem mem_afeInsertAt {l : List AFEntry} {j : Nat} {e x : AFEntry}
    (h : x ∈ afeInsertAt l j e) : x = e ∨ x ∈ l := by
  unfold afeInsertAt at h
  rcases List.mem_append.mp h with h | h
  · rcases List.mem_append.mp h with h | h
    · exact Or.inr ((List.take_sublist j l).subset h)
    · rw [List.mem_singleton] at h
      exact Or.inl h
  · exact Or.inr ((List.drop_sublist j l).subset h)

theorem findFormattingEntry_mem : ∀ (l : List AFEntry) (s : String)
    {i : Nat} {a : List (String × String)},
    findFormattingEntry l s = some (i, a) → AFEntry.entry i s a ∈ l := by
  intro l
  induction l with
  | nil => intro s i a h; cases h
  | cons e t ih =>
    intro s i a h
    cases e with
    | marker => cases h
    | entry j n as =>
      rw [findFormattingEntry] at h
      split_ifs at h with hn
      · simp only [Option.some.injEq, Prod.mk.injEq] at h
        obtain ⟨rfl, rfl⟩ := h
        subst hn
        exact List.mem_cons_self _ _
      · exact List.mem_cons_of_mem _ (ih s h)

theorem afeIndexOfId_ne_none {l : List AFEntry} {i : Nat} {n : String}
    {a : List (String × String)}
    (h : AFEntry.entry i n a ∈ l) : afeIndexOfId l i ≠ none := by
  intro hn
  rw [afeIndexOfId, List.findIdx?_eq_none_iff] at hn
  have := hn _ h
  simp [AFEntry.entryId] at this

theorem afeOK_pushFormatting (p : html_parser_t) (id : Nat) (name : String)
    (attrs : List (String × String)) (h : AfeOK p.active_formatting)
    (hf : html_is_formatting_element name = true) :
    AfeOK (pushFormatting p id name attrs).active_formatting := by
  have htw := takeWhile_real_of_noMarker p.active_formatting h.2.1
  unfold pushFormatting
  dsimp only
  rw [htw, List.drop_length, List.append_nil]
  set L := p.active_formatting with hL
  by_cases hc : 3 ≤ (L.filter (afeKeyMatch name attrs)).length
  · rw [if_pos hc]
    refine ⟨?_, ?_, ?_⟩
    · intro i n a hm
      rcases List.mem_cons.mp hm with heq | hm
      · cases heq
        exact hf
      · rw [List.mem_reverse] at hm
        have := (List.eraseP_sublist _).subset hm
        rw [List.mem_reverse] at this
        exact h.1 i n a this
    · intro hm
      rcases List.mem_cons.mp hm with heq | hm
      · cases heq
      · rw [List.mem_reverse] at hm
        have := (List.eraseP_sublist _).subset hm
        rw [List.mem_reverse] at this
        exact h.2.1 this
    · intro n a
      rw [afeCount, List.countP_cons]
      by_cases hk : afeKeyMatch n a (.entry id name attrs) = true
      · simp only [afeKeyMatch, Bool.and_eq_true, decide_eq_true_eq] at hk
        obtain ⟨rfl, rfl⟩ := hk
        rw [if_pos (by simp [afeKeyMatch])]
        have hcnt : 0 < L.reverse.countP (afeKeyMatch name attrs) := by
          rw [List.countP_reverse, List.countP_eq_length_filter]
          omega
        rw [List.countP_reverse, countP_eraseP_self _ _ hcnt,
          List.countP_reverse]
        have := h.2.2 name attrs
        rw [afeCount] at this
        omega
      · rw [if_neg hk]
        have h1 : ((L.reverse.eraseP (afeKeyMatch name attrs)).reverse).countP
            (afeKeyMatch n a) ≤ L.countP (afeKeyMatch n a) := by
          rw [List.countP_reverse]
          calc (L.reverse.eraseP (afeKeyMatch name attrs)).countP
                (afeKeyMatch n a)
              ≤ L.reverse.countP (afeKeyMatch n a) :=
                List.Sublist.countP_le _ (List.eraseP_sublist _)
            _ = L.countP (afeKeyMatch n a) := List.countP_reverse _ _
        have := h.2.2 n a
        rw [afeCount] at this
        omega
  · rw [if_neg hc]
    refine ⟨?_, ?_, ?_⟩
    · intro i n a hm
      rcases List.mem_cons.mp hm with heq | hm
      · cases heq
        exact hf
      · exact h.1 i n a hm
    · intro hm
      rcases List.mem_cons.mp hm with heq | hm
      · cases heq
      · exact h.2.1 hm
    · intro n a
      rw [afeCount, List.countP_cons]
      by_cases hk : afeKeyMatch n a (.entry id name attrs) = true
      · simp only [afeKeyMatch, Bool.and_eq_true, decide_eq_true_eq] at hk
        obtain ⟨rfl, rfl⟩ := hk
        rw [if_pos (by simp [afeKeyMatch])]
        have hc2 : L.countP (afeKeyMatch name attrs) ≤ 2 := by
          rw [List.countP_eq_length_filter]
          omega
        omega
      · rw [if_neg hk]
        have := h.2.2 n a
        rw [afeCount] at this
        omega

/-! ## The allocate-and-append combinator. -/

theorem Dom.allocAppend_eq (d : Dom) (n : NodeData) (t : Nat) :
    d.allocAppend n t = (d.alloc n).1.appendChild t d.size := rfl

theorem domInv_allocAppend (d : Dom) (n : NodeData) (t : Nat)
    (hinv : DomInv d) (ht : targetOK d t) (hlt : t < d.size)
    (hn : n.children = []) : DomInv (d.allocAppend n t) := by
  rw [Dom.allocAppend_eq]
  exact allocAppend_domInv d n t hinv ht hlt hn

theorem keeps_allocAppend (d : Dom) (n : NodeData) (t : Nat) :
    keepsElems d (d.allocAppend n t) := by
  rw [Dom.allocAppend_eq]
  exact allocAppend_keeps d n t

theorem size_allocAppend (d : Dom) (n : NodeData) (t : Nat) :
    (d.allocAppend n t).size = d.size + 1 := by
  rw [Dom.allocAppend_eq]
  exact allocAppend_size d n t

theorem get_allocAppend_new (d : Dom) (n : NodeData) (t : Nat)
    (hne : t ≠ d.size) :
    ((d.allocAppend n t).get d.size).kind = n.kind ∧
    ((d.allocAppend n t).get d.size).name = n.name := by
  rw [Dom.allocAppend_eq]
  exact allocAppend_get_new d n t hne

/-! ## CoreOK preservation by the elementary tree-construction steps. -/

theorem coreOK_perr (p : html_parser_t) (e : html_parse_error_t)
    (h : CoreOK p) : CoreOK (perr p e) := h

theorem coreOK_noteSelfClosing (p : html_parser_t) (sc : Bool)
    (h : CoreOK p) : CoreOK (noteSelfClosing p sc) := by
  unfold noteSelfClosing
  split_ifs
  · exact h
  · exact h

theorem noteSelfClosing_fields (p : html_parser_t) (sc : Bool) :
    (noteSelfClosing p sc).dom = p.dom ∧
    (noteSelfClosing p sc).open_elements = p.open_elements ∧
    (noteSelfClosing p sc).active_formatting = p.active_formatting ∧
    (noteSelfClosing p sc).document_element = p.document_element := by
  unfold noteSelfClosing
  split_ifs <;> exact ⟨rfl, rfl, rfl, rfl⟩

theorem coreOK_domOnly (p : html_parser_t) {d' : Dom}
    (hc : CoreOK p) (hd : DomInv d') (hk : keepsElems p.dom d') :
    CoreOK { p with dom := d' } :=
  ⟨hd, stackOK_keeps hc.2.1 hk, hc.2.2.1, docElemOK_keeps hc.2.2.2 hk⟩

theorem coreOK_insert_comment (p : html_parser_t) (s : String) (t : Nat)
    (h : CoreOK p) (ht : targetOK p.dom t) (hlt : t < p.dom.size) :
    CoreOK (html_insert_comment p s t) := by
  unfold html_insert_comment
  exact coreOK_domOnly p h (domInv_allocAppend _ _ _ h.1 ht hlt rfl)
    (keeps_allocAppend _ _ _)

theorem coreOK_appendDoctype (p : html_parser_t) (n : String)
    (h : CoreOK p) : CoreOK (appendDoctype p n) := by
  unfold appendDoctype
  exact coreOK_domOnly p h
    (domInv_allocAppend _ _ _ h.1 (targetOK_doc _ h.1.2.1) h.1.1 rfl)
    (keeps_allocAppend _ _ _)

theorem coreOK_insert_text (p : html_parser_t) (c : Char)
    (h : CoreOK p) : CoreOK (html_insert_text p c) := by
  have hct := currentTarget_ok p h.1 h.2.1
  cases hlast : (p.dom.get (currentTarget p)).children.getLast? with
  | none =>
    simp only [html_insert_text, hlast]
    exact coreOK_domOnly p h (domInv_allocAppend _ _ _ h.1 hct.1 hct.2 rfl)
      (keeps_allocAppend _ _ _)
  | some lc =>
    simp only [html_insert_text, hlast]
    split_ifs with hk
    · exact coreOK_domOnly p h
        (domInv_modify_shrink _ _ _ (fun n => rfl) (fun n => rfl)
          (fun n hh => hh) h.1)
        (keepsElems_modifyNode _ _ _ (fun n => ⟨rfl, rfl⟩))
    · exact coreOK_domOnly p h (domInv_allocAppend _ _ _ h.1 hct.1 hct.2 rfl)
        (keeps_allocAppend _ _ _)

theorem createAndAppend_fst (p : html_parser_t) (name : String)
    (attrs : List (String × String)) (t : Nat) :
    (createAndAppend p name attrs t).1 = { p with dom := (p.dom.allocAppend
      ({ kind := .NODE_ELEMENT, name := name, attrs := attrs }) t) } := rfl

theorem createAndAppend_snd (p : html_parser_t) (name : String)
    (attrs : List (String × String)) (t : Nat) :
    (createAndAppend p name attrs t).2 = p.dom.size := rfl

theorem coreOK_insertVoid (p : html_parser_t) (name : String)
    (attrs : List (String × String)) (h : CoreOK p) :
    CoreOK (insertVoidElement p name attrs) := by
  have hct := currentTarget_ok p h.1 h.2.1
  unfold insertVoidElement
  rw [createAndAppend_fst]
  exact coreOK_domOnly p h (domInv_allocAppend _ _ _ h.1 hct.1 hct.2 rfl)
    (keeps_allocAppend _ _ _)

theorem coreOK_insert_element (p : html_parser_t) (name : String)
    (attrs : List (String × String)) (h : CoreOK p)
    (hv : html_is_void_element name = false) :
    CoreOK (html_insert_element p name attrs) ∧
    (html_insert_element p name attrs).open_elements =
      ⟨p.dom.size, name⟩ :: p.open_elements := by
  have hct := currentTarget_ok p h.1 h.2.1
  have hne : currentTarget p ≠ p.dom.size := by omega
  have hget := get_allocAppend_new p.dom
    ({ kind := .NODE_ELEMENT, name := name, attrs := attrs })
    (currentTarget p) hne
  unfold html_insert_element
  dsimp only [createAndAppend_fst, createAndAppend_snd]
  refine ⟨⟨?_, ?_, ?_, ?_⟩, rfl⟩
  · exact domInv_allocAppend _ _ _ h.1 hct.1 hct.2 rfl
  · intro e he
    rcases List.mem_cons.mp he with rfl | he
    · exact ⟨hv, by rw [hget.1], by rw [hget.2]⟩
    · exact stackOK_keeps h.2.1 (keeps_allocAppend _ _ _) e he
  · exact h.2.2.1
  · exact docElemOK_keeps h.2.2.2 (keeps_allocAppend _ _ _)

theorem insert_element_docElem (p : html_parser_t) (name : String)
    (attrs : List (String × String)) :
    (html_insert_element p name attrs).document_element =
      p.document_element := rfl

theorem coreOK_setStack (p : html_parser_t) {s' : List OpenEntry}
    (h : CoreOK p) (hs : s' ⊆ p.open_elements) :
    CoreOK { p with open_elements := s' } :=
  ⟨h.1, stackOK_subset h.2.1 hs, h.2.2.1, h.2.2.2⟩

theorem coreOK_popOpen (p : html_parser_t) (h : CoreOK p) :
    CoreOK (popOpen p) :=
  coreOK_setStack p h (List.tail_sublist _).subset

theorem coreOK_popUntilInclName (p : html_parser_t) (n : String)
    (h : CoreOK p) : CoreOK (popUntilInclName p n) :=
  coreOK_setStack p h
    ((List.tail_sublist _).trans (List.dropWhile_sublist _)).subset

theorem coreOK_popUntilInclId (p : html_parser_t) (i : Nat)
    (h : CoreOK p) : CoreOK (popUntilInclId p i) :=
  coreOK_setStack p h
    ((List.tail_sublist _).trans (List.dropWhile_sublist _)).subset

theorem coreOK_generateImplied (p : html_parser_t) (ex : Option String)
    (h : CoreOK p) : CoreOK (generateImpliedEndTags p ex) :=
  coreOK_setStack p h (List.dropWhile_sublist _).subset

theorem coreOK_close_element (p : html_parser_t) (n : String)
    (h : CoreOK p) : CoreOK (html_close_element p n) :=
  coreOK_popUntilInclName _ n (coreOK_generateImplied p _ h)

theorem coreOK_closePIfOpen (p : html_parser_t) (h : CoreOK p) :
    CoreOK (closePIfOpen p) := by
  unfold closePIfOpen
  split_ifs
  · exact coreOK_close_element p "p" h
  · exact h

theorem closePIfOpen_fields (p : html_parser_t) :
    (closePIfOpen p).dom = p.dom ∧
    (closePIfOpen p).active_formatting = p.active_formatting ∧
    (closePIfOpen p).document_element = p.document_element ∧
    (closePIfOpen p).form_element = p.form_element := by
  unfold closePIfOpen
  split_ifs <;> exact ⟨rfl, rfl, rfl, rfl⟩

theorem coreOK_pushFormatting (p : html_parser_t) (id : Nat) (name : String)
    (attrs : List (String × String)) (h : CoreOK p)
    (hf : html_is_formatting_element name = true) :
    CoreOK (pushFormatting p id name attrs) :=
  ⟨h.1, h.2.1, afeOK_pushFormatting p id name attrs h.2.2.1 hf, h.2.2.2⟩

theorem good_createHtmlElem (p : html_parser_t)
    (attrs : List (String × String)) (h : CoreOK p) :
    CoreOK (createHtmlElem p attrs) ∧
    (createHtmlElem p attrs).document_element.isSome = true := by
  have hne : (0 : Nat) ≠ p.dom.size := by have := h.1.1; omega
  have hget := get_allocAppend_new p.dom
    ({ kind := .NODE_ELEMENT, name := "html", attrs := attrs }) 0 hne
  unfold createHtmlElem
  dsimp only [createAndAppend_fst, createAndAppend_snd]
  refine ⟨⟨?_, ?_, ?_, ?_⟩, rfl⟩
  · exact domInv_allocAppend _ _ _ h.1 (targetOK_doc _ h.1.2.1) h.1.1 rfl
  · intro e he
    rcases List.mem_cons.mp he with rfl | he
    · exact ⟨(by decide : html_is_void_element "html" = false),
        by rw [hget.1], by rw [hget.2]⟩
    · cases he
  · exact h.2.2.1
  · intro i hi
    rw [Option.some.injEq] at hi
    subst hi
    exact ⟨by rw [hget.1], by rw [hget.2]⟩

theorem createHtmlElem_mode (p : html_parser_t)
    (attrs : List (String × String)) :
    (createHtmlElem p attrs).mode = .MODE_BEFORE_HEAD := rfl

theorem coreOK_insertHeadElem (p : html_parser_t)
    (attrs : List (String × String)) (h : CoreOK p) :
    CoreOK (insertHeadElem p attrs) ∧
    (insertHeadElem p attrs).document_element = p.document_element := by
  have hi := coreOK_insert_element p "head" attrs h (by decide)
  exact ⟨⟨hi.1.1, hi.1.2.1, hi.1.2.2.1, hi.1.2.2.2⟩, rfl⟩

theorem coreOK_insertBodyElem (p : html_parser_t)
    (attrs : List (String × String)) (h : CoreOK p) :
    CoreOK (insertBodyElem p attrs) ∧
    (insertBodyElem p attrs).document_element = p.document_element := by
  have hi := coreOK_insert_element p "body" attrs h (by decide)
  exact ⟨⟨hi.1.1, hi.1.2.1, hi.1.2.2.1, hi.1.2.2.2⟩, rfl⟩

/-! ## Reconstruction of the active formatting elements. -/

theorem insert_element_dom (p : html_parser_t) (name : String)
    (attrs : List (String × String)) :
    (html_insert_element p name attrs).dom = (p.dom.allocAppend
      ({ kind := .NODE_ELEMENT, name := name, attrs := attrs })
      (currentTarget p)) := rfl

theorem keeps_insert_element (p : html_parser_t) (name : String)
    (attrs : List (String × String)) :
    keepsElems p.dom (html_insert_element p name attrs).dom := by
  rw [insert_element_dom]
  exact keeps_allocAppend _ _ _

theorem reOpen_countP (nm : String) (am : List (String × String)) :
    ∀ (olds : List AFEntry) (p : html_parser_t) (accRev rest : List AFEntry),
    (reOpenEntries p olds accRev rest).active_formatting.countP
        (afeKeyMatch nm am) =
      olds.countP (afeKeyMatch nm am) + accRev.countP (afeKeyMatch nm am) +
        rest.countP (afeKeyMatch nm am) := by
  intro olds
  induction olds with
  | nil =>
    intro p accRev rest
    simp only [reOpenEntries, List.countP_append, List.countP_nil]
    omega
  | cons e t ih =>
    intro p accRev rest
    cases e with
    | marker =>
      simp only [reOpenEntries]
      rw [ih]
      simp only [List.countP_cons, afeKeyMatch]
      omega
    | entry i0 n a =>
      simp only [reOpenEntries]
      rw [ih]
      simp only [List.countP_cons]
      have h1 : afeKeyMatch nm am (.entry p.dom.size n a) =
          afeKeyMatch nm am (.entry i0 n a) := rfl
      rw [h1]
      split_ifs <;> omega

theorem reOpen_mem : ∀ (olds : List AFEntry) (p : html_parser_t)
    (accRev rest : List AFEntry) (x : AFEntry),
    x ∈ (reOpenEntries p olds accRev rest).active_formatting →
    (∃ i i' n a, x = AFEntry.entry i n a ∧ AFEntry.entry i' n a ∈ olds) ∨
    (x = AFEntry.marker ∧ AFEntry.marker ∈ olds) ∨ x ∈ accRev ∨ x ∈ rest := by
  intro olds
  induction olds with
  | nil =>
    intro p accRev rest x hx
    simp only [reOpenEntries] at hx
    rcases List.mem_append.mp hx with h | h
    · exact Or.inr (Or.inr (Or.inl h))
    · exact Or.inr (Or.inr (Or.inr h))
  | cons e t ih =>
    intro p accRev rest x hx
    cases e with
    | marker =>
      simp only [reOpenEntries] at hx
      rcases ih _ _ _ _ hx with ⟨i, i', n, a, hxe, hm⟩ | ⟨hxa, hm⟩ | hacc | hrest
      · exact Or.inl ⟨i, i', n, a, hxe, List.mem_cons_of_mem _ hm⟩
      · exact Or.inr (Or.inl ⟨hxa, List.mem_cons_self _ _⟩)
      · rcases List.mem_cons.mp hacc with rfl | hacc
        · exact Or.inr (Or.inl ⟨rfl, List.mem_cons_self _ _⟩)
        · exact Or.inr (Or.inr (Or.inl hacc))
      · exact Or.inr (Or.inr (Or.inr hrest))
    | entry i0 n a =>
      simp only [reOpenEntries] at hx
      rcases ih _ _ _ _ hx with ⟨i, i', n', a', hxe, hm⟩ | ⟨hxa, hm⟩ | hacc | hrest
      · exact Or.inl ⟨i, i', n', a', hxe, List.mem_cons_of_mem _ hm⟩
      · exact Or.inr (Or.inl ⟨hxa, List.mem_cons_of_mem _ hm⟩)
      · rcases List.mem_cons.mp hacc with rfl | hacc
        · exact Or.inl ⟨p.dom.size, i0, n, a, rfl, List.mem_cons_self _ _⟩
        · exact Or.inr (Or.inr (Or.inl hacc))
      · exact Or.inr (Or.inr (Or.inr hrest))

theorem reOpen_dom : ∀ (olds : List AFEntry) (p : html_parser_t)
    (accRev rest : List AFEntry),
    CoreOK p →
    (∀ i n a, AFEntry.entry i n a ∈ olds →
      html_is_formatting_element n = true) →
    DomInv (reOpenEntries p olds accRev rest).dom ∧
    StackOK (reOpenEntries p olds accRev rest).dom
      (reOpenEntries p olds accRev rest).open_elements ∧
    DocElemOK (reOpenEntries p olds accRev rest).dom
      (reOpenEntries p olds accRev rest).document_element ∧
    keepsElems p.dom (reOpenEntries p olds accRev rest).dom ∧
    (reOpenEntries p olds accRev rest).document_element =
      p.document_element := by
  intro olds
  induction olds with
  | nil =>
    intro p accRev rest h hn
    simp only [reOpenEntries]
    exact ⟨h.1, h.2.1, h.2.2.2, keepsElems_refl _, by trivial⟩
  | cons e t ih =>
    intro p accRev rest h hn
    cases e with
    | marker =>
      simp only [reOpenEntries]
      exact ih p _ rest h
        (fun i n a hm => hn i n a (List.mem_cons_of_mem _ hm))
    | entry i0 n a =>
      simp only [reOpenEntries]
      have hv := formatting_nonvoid (hn i0 n a (List.mem_cons_self _ _))
      have hins := coreOK_insert_element p n a h hv
      have hrec := ih (html_insert_element p n a)
        (AFEntry.entry p.dom.size n a :: accRev) rest hins.1
        (fun i n' a' hm => hn i n' a' (List.mem_cons_of_mem _ hm))
      refine ⟨hrec.1, hrec.2.1, hrec.2.2.1, ?_, ?_⟩
      · exact keepsElems_trans (keeps_insert_element p n a) hrec.2.2.2.1
      · rw [hrec.2.2.2.2, insert_element_docElem]

theorem drop_length_takeWhile (q : AFEntry → Bool) : ∀ (l : List AFEntry),
    l.drop (l.takeWhile q).length = l.dropWhile q := by
  intro l
  induction l with
  | nil => rfl
  | cons a t ih =>
    by_cases hq : q a = true
    · rw [List.takeWhile_cons_of_pos hq, List.dropWhile_cons_of_pos hq]
      rw [List.length_cons, List.drop_succ_cons]
      exact ih
    · rw [List.takeWhile_cons_of_neg hq, List.dropWhile_cons_of_neg hq]
      rfl

theorem coreOK_reconstruct (p : html_parser_t) (h : CoreOK p) :
    CoreOK (html_reconstruct_formatting p) ∧
    (html_reconstruct_formatting p).document_element =
      p.document_element := by
  cases hh : p.active_formatting.head? with
  | none =>
    simp only [html_reconstruct_formatting, hh]
    exact ⟨h, by trivial⟩
  | some e =>
    cases e with
    | marker =>
      simp only [html_reconstruct_formatting, hh]
      exact ⟨h, by trivial⟩
    | entry id0 nm0 at0 =>
      simp only [html_reconstruct_formatting, hh]
      split_ifs with hon
      · exact ⟨h, by trivial⟩
      · have hcl : (p.active_formatting.takeWhile (fun e =>
            match e with
            | AFEntry.entry i _ _ => !(onStack p i)
            | AFEntry.marker => false)) ⊆ p.active_formatting :=
          (List.takeWhile_prefix _).sublist.subset
        have hsp : ∀ k : AFEntry → Bool,
            (p.active_formatting.takeWhile (fun e =>
              match e with
              | AFEntry.entry i _ _ => !(onStack p i)
              | AFEntry.marker => false)).countP k +
            (p.active_formatting.drop
              ((p.active_formatting.takeWhile (fun e =>
                match e with
                | AFEntry.entry i _ _ => !(onStack p i)
                | AFEntry.marker => false)).length)).countP k =
            p.active_formatting.countP k := by
          intro k
          rw [drop_length_takeWhile, ← List.countP_append,
            List.takeWhile_append_dropWhile]
        have hdr : (p.active_formatting.drop
            ((p.active_formatting.takeWhile (fun e =>
              match e with
              | AFEntry.entry i _ _ => !(onStack p i)
              | AFEntry.marker => false)).length)) ⊆ p.active_formatting :=
          (List.drop_sublist _ _).subset
        have hdomf := reOpen_dom ((p.active_formatting.takeWhile (fun e =>
            match e with
            | AFEntry.entry i _ _ => !(onStack p i)
            | AFEntry.marker => false)).reverse) p []
          (p.active_formatting.drop ((p.active_formatting.takeWhile (fun e =>
            match e with
            | AFEntry.entry i _ _ => !(onStack p i)
            | AFEntry.marker => false)).length)) h (by
          intro i n a hm
          rw [List.mem_reverse] at hm
          exact h.2.2.1.1 i n a (hcl hm))
        refine ⟨⟨hdomf.1, hdomf.2.1, ?_, hdomf.2.2.1⟩, hdomf.2.2.2.2⟩
        refine ⟨?_, ?_, ?_⟩
        · intro i n a hm
          rcases reOpen_mem _ _ _ _ _ hm with
            ⟨i1, i2, n1, a1, hxe, hm2⟩ | ⟨hxa, hm2⟩ | hacc | hrest
          · cases hxe
            rw [List.mem_reverse] at hm2
            exact h.2.2.1.1 i2 n a (hcl hm2)
          · cases hxa
          · cases hacc
          · exact h.2.2.1.1 i n a (hdr hrest)
        · intro hm
          rcases reOpen_mem _ _ _ _ _ hm with
            ⟨i1, i2, n1, a1, hxe, hm2⟩ | ⟨hxa, hm2⟩ | hacc | hrest
          · cases hxe
          · rw [List.mem_reverse] at hm2
            exact h.2.2.1.2.1 (hcl hm2)
          · cases hacc
          · exact h.2.2.1.2.1 (hdr hrest)
        · intro n a
          rw [afeCount, reOpen_countP, List.countP_reverse, List.countP_nil]
          have hc := h.2.2.1.2.2 n a
          rw [afeCount] at hc
          have := hsp (afeKeyMatch n a)
          omega

/-! ## Adoption agency: ordinary end-tag handling and the inner loop. -/

theorem coreOK_anyOtherEndTag (p : html_parser_t) (subject : String)
    (h : CoreOK p) : ∀ (stack : List OpenEntry),
    CoreOK (anyOtherEndTag p stack subject) ∧
    (anyOtherEndTag p stack subject).document_element =
      p.document_element := by
  intro stack
  induction stack with
  | nil => exact ⟨h, rfl⟩
  | cons e rest ih =>
    simp only [anyOtherEndTag]
    split_ifs with h1 h2
    · exact ⟨coreOK_popUntilInclId _ _ (coreOK_generateImplied p _ h), rfl⟩
    · exact ⟨h, rfl⟩
    · exact ih

theorem aaaInner_all (fbId feId : Nat) (fename : String)
    (feattrs : List (String × String)) (D0 : Dom) (DE0 : Option Nat) :
    ∀ (seg : List OpenEntry) (st : AAAInner),
    DomInv st.p.dom → AfeOK st.p.active_formatting →
    StackOK st.p.dom st.keptRev →
    AFEntry.entry feId fename feattrs ∈ st.p.active_formatting →
    (∀ e ∈ seg, e.id ≠ feId ∧ html_is_void_element e.name = false) →
    keepsElems D0 st.p.dom →
    st.p.document_element = DE0 →
    DomInv (aaaInnerLoop st fbId seg).p.dom ∧
    AfeOK (aaaInnerLoop st fbId seg).p.active_formatting ∧
    StackOK (aaaInnerLoop st fbId seg).p.dom
      (aaaInnerLoop st fbId seg).keptRev ∧
    AFEntry.entry feId fename feattrs ∈
      (aaaInnerLoop st fbId seg).p.active_formatting ∧
    keepsElems D0 (aaaInnerLoop st fbId seg).p.dom ∧
    (aaaInnerLoop st fbId seg).p.document_element = DE0 := by
  intro seg
  induction seg with
  | nil =>
    intro st hd ha hk hfe hseg hk0 hde
    exact ⟨hd, ha, hk, hfe, hk0, hde⟩
  | cons e restSeg ih =>
    intro st hd ha hk hfe hseg hk0 hde
    have hene := (hseg e (List.mem_cons_self _ _)).1
    have henv := (hseg e (List.mem_cons_self _ _)).2
    have hseg' := fun x hx => hseg x (List.mem_cons_of_mem _ hx)
    simp only [aaaInnerLoop]
    split_ifs with h1 h2 h3
    · cases hidx : afeIndexOfId st.p.active_formatting e.id with
      | none =>
        simp only [afeRemoveIdAdjust, hidx]
        apply ih
        · exact hd
        · exact ha
        · exact hk
        · exact hfe
        · exact hseg'
        · exact hk0
        · exact hde
      | some k =>
        simp only [afeRemoveIdAdjust, hidx]
        apply ih
        · exact hd
        · exact afeOK_removeId ha e.id
        · exact hk
        · exact mem_afeRemoveId_of_ne hfe (fun hc => hene hc.symm)
        · exact hseg'
        · exact hk0
        · exact hde
    · apply ih
      · exact hd
      · exact ha
      · exact hk
      · exact hfe
      · exact hseg'
      · exact hk0
      · exact hde
    all_goals
        have hga : ((st.p.dom.alloc
            ({ kind := .NODE_ELEMENT, name := e.name,
               attrs := (st.p.dom.get e.id).attrs })).1.get st.p.dom.size) =
            ({ kind := .NODE_ELEMENT, name := e.name,
               attrs := (st.p.dom.get e.id).attrs } : NodeData) := by
          rw [Dom.get_alloc, if_pos rfl]
        have hd1 : DomInv (st.p.dom.alloc
            ({ kind := .NODE_ELEMENT, name := e.name,
               attrs := (st.p.dom.get e.id).attrs })).1 :=
          domInv_alloc _ _ rfl hd
        have hkel := keepsElems_detach (st.p.dom.alloc
            ({ kind := .NODE_ELEMENT, name := e.name,
               attrs := (st.p.dom.get e.id).attrs })).1 st.lastNode
          st.p.dom.size (by rw [hga])
        have hkel2 := keepsElems_appendChild ((st.p.dom.alloc
            ({ kind := .NODE_ELEMENT, name := e.name,
               attrs := (st.p.dom.get e.id).attrs })).1.detach st.lastNode)
          st.p.dom.size st.lastNode st.p.dom.size hkel.1
        have hd3 : DomInv (((st.p.dom.alloc
            ({ kind := .NODE_ELEMENT, name := e.name,
               attrs := (st.p.dom.get e.id).attrs })).1.detach
              st.lastNode).appendChild st.p.dom.size st.lastNode) := by
          apply domInv_appendChild _ _ _ ?_ (domInv_detach _ _ hd1)
          intro _
          rw [hkel.2, hga]
          exact henv
        have hchain : keepsElems st.p.dom (((st.p.dom.alloc
            ({ kind := .NODE_ELEMENT, name := e.name,
               attrs := (st.p.dom.get e.id).attrs })).1.detach
              st.lastNode).appendChild st.p.dom.size st.lastNode) :=
          keepsElems_trans (keepsElems_alloc _ _)
            (keepsElems_trans (keepsElems_detach _ _)
              (keepsElems_appendChild _ _ _))
        apply ih
        · exact hd3
        · exact afeOK_replaceId ha e.id st.p.dom.size
        · intro x hx
          rcases List.mem_cons.mp hx with rfl | hx
          · exact ⟨henv, hkel2.1, by rw [hkel2.2, hkel.2, hga]⟩
          · exact stackOK_keeps hk hchain x hx
        · exact mem_afeReplaceId_of_ne hfe (fun hc => hene hc.symm)
        · exact hseg'
        · exact keepsElems_trans hk0 hchain
        · exact hde

/-! ## Kind and name stability of the arena under link surgery. -/

theorem getKN_modify (d : Dom) (i : Nat) (f : NodeData → NodeData)
    (hf : ∀ n, (f n).kind = n.kind ∧ (f n).name = n.name) (j : Nat) :
    ((d.modifyNode i f).get j).kind = (d.get j).kind ∧
    ((d.modifyNode i f).get j).name = (d.get j).name := by
  rw [Dom.get_modifyNode]
  split_ifs with hc
  · exact hf _
  · exact ⟨rfl, rfl⟩

theorem targetOK_detach (d : Dom) (c t : Nat) (h : targetOK d t) :
    targetOK (d.detach c) t := by
  unfold Dom.detach
  split
  · exact h
  · intro hk
    rw [(getKN_modify _ _ (setParentFn none) (fun n => ⟨rfl, rfl⟩) t).1,
      (getKN_modify _ _ (removeChildFn c) (fun n => ⟨rfl, rfl⟩) t).1] at hk
    rw [(getKN_modify _ _ (setParentFn none) (fun n => ⟨rfl, rfl⟩) t).2,
      (getKN_modify _ _ (removeChildFn c) (fun n => ⟨rfl, rfl⟩) t).2]
    exact h hk

/-! ## The adoption agency outer loop. -/

theorem coreOK_aaaOuter (subject : String)
    (hsubj : html_is_formatting_element subject = true) :
    ∀ (fuel : Nat) (p : html_parser_t), CoreOK p →
    CoreOK (aaaOuter fuel p subject) ∧
    (aaaOuter fuel p subject).document_element = p.document_element := by
  intro fuel
  induction fuel with
  | zero => intro p h; exact ⟨h, rfl⟩
  | succ fuel ih =>
    intro p h
    cases hfind : findFormattingEntry p.active_formatting subject with
    | none =>
      simp only [aaaOuter, hfind]
      exact coreOK_anyOtherEndTag p subject h p.open_elements
    | some fe =>
      obtain ⟨feId, feAttrs⟩ := fe
      have hfem := findFormattingEntry_mem _ _ hfind
      simp only [aaaOuter, hfind]
      by_cases h1 : (!(onStack p feId)) = true
      · rw [if_pos h1]
        exact ⟨⟨h.1, h.2.1, afeOK_removeId h.2.2.1 feId, h.2.2.2⟩, rfl⟩
      · rw [if_neg h1]
        by_cases h2 : (!(hasInScopeId p.open_elements feId)) = true
        · rw [if_pos h2]
          exact ⟨h, rfl⟩
        · rw [if_neg h2]
          set errs := (if p.open_elements.head?.map (fun e => e.id) ≠ some feId
              then html_parse_error_t.HTML_ERROR_INVALID_NESTING :: p.errors
              else p.errors) with herrs
          set pre := p.open_elements.takeWhile (fun e => e.id ≠ feId) with hpredef
          set below := p.open_elements.drop (pre.length + 1) with hbelowdef
          have hprene : ∀ e ∈ pre, e.id ≠ feId := by
            intro e he
            rw [hpredef] at he
            have := List.mem_takeWhile_imp he
            simpa using this
          have hpresub : pre ⊆ p.open_elements := by
            rw [hpredef]
            exact (List.takeWhile_prefix _).sublist.subset
          have hbelsub : below ⊆ p.open_elements := by
            rw [hbelowdef]
            exact (List.drop_sublist _ _).subset
          cases hfb : pre.reverse.find? (fun e => html_is_special_element e.name) with
          | none =>
            simp only [hfb]
            exact ⟨⟨h.1, stackOK_subset h.2.1 hbelsub,
              afeOK_removeId h.2.2.1 feId, h.2.2.2⟩, by trivial⟩
          | some fb =>
            simp only [hfb]
            set segAbove := pre.takeWhile (fun e => e.id ≠ fb.id) with hsadef
            set seg := pre.drop (segAbove.length + 1) with hsegdef
            set bookmark := (afeIndexOfId p.active_formatting feId).getD 0
              with hbmdef
            set ca := (below.head?.map (fun e => e.id)).getD 0 with hcadef
            have hsegsub : seg ⊆ pre := by
              rw [hsegdef]
              exact (List.drop_sublist _ _).subset
            have hsasub : segAbove ⊆ pre := by
              rw [hsadef]
              exact (List.takeWhile_prefix _).sublist.subset
            have hfbmem : fb ∈ p.open_elements := by
              have := List.mem_of_find?_eq_some hfb
              rw [List.mem_reverse] at this
              exact hpresub this
            have hfbfacts := h.2.1 fb hfbmem
            have hin := aaaInner_all fb.id feId subject feAttrs p.dom
              p.document_element seg
              ⟨{ p with errors := errs }, bookmark, fb.id, 0, []⟩
              h.1 h.2.2.1 (fun x hx => absurd hx (List.not_mem_nil x))
              hfem
              (fun e he => ⟨hprene e (hsegsub he),
                (h.2.1 e (hpresub (hsegsub he))).1⟩)
              (keepsElems_refl _) rfl
            set ist := aaaInnerLoop ⟨{ p with errors := errs }, bookmark,
              fb.id, 0, []⟩ fb.id seg with histdef
            obtain ⟨hinD, hinA, hinK, hinM, hinKeep, hinDE⟩ := hin
            have hcaOK : targetOK ist.p.dom ca := by
              rw [hcadef]
              cases hbh : below.head? with
              | none =>
                simp only [hbh, Option.map_none', Option.getD_none]
                exact targetOK_doc _ hinD.2.1
              | some e =>
                simp only [hbh, Option.map_some', Option.getD_some]
                have he : e ∈ below := by
                  cases hb2 : below with
                  | nil =>
                    rw [hb2] at hbh
                    simp at hbh
                  | cons b t =>
                    rw [hb2] at hbh
                    rw [List.head?_cons, Option.some.injEq] at hbh
                    rw [hbh]
                    exact List.mem_cons_self _ _
                exact (targetOK_of_entry
                  (stackOK_keeps h.2.1 hinKeep) (hbelsub he)).1
            set d4 := (ist.p.dom.detach ist.lastNode).appendChild ca
              ist.lastNode with hd4def
            have hd4 : DomInv d4 := by
              rw [hd4def]
              exact domInv_appendChild _ _ _
                (targetOK_detach _ _ _ hcaOK) (domInv_detach _ _ hinD)
            have hkeep4 : keepsElems p.dom d4 := by
              rw [hd4def]
              exact keepsElems_trans hinKeep (keepsElems_trans
                (keepsElems_detach _ _) (keepsElems_appendChild _ _ _))
            have hkeepI4 : keepsElems ist.p.dom d4 := by
              rw [hd4def]
              exact keepsElems_trans (keepsElems_detach _ _)
                (keepsElems_appendChild _ _ _)
            set cloneFE := ({ kind := .NODE_ELEMENT, name := subject, attrs := feAttrs } : NodeData) with hcfedef
            have hgfe : ((d4.alloc cloneFE).1.get d4.size) = cloneFE := by
              rw [Dom.get_alloc, if_pos rfl]
            have hmc1 := keepsElems_moveChildren (d4.alloc cloneFE).1 fb.id
              d4.size d4.size (by rw [hgfe, hcfedef])
            have hmc2 := keepsElems_appendChild
              ((d4.alloc cloneFE).1.moveChildren fb.id d4.size) fb.id d4.size
              d4.size hmc1.1
            have hfeName : ((((d4.alloc cloneFE).1.moveChildren fb.id
                d4.size).appendChild fb.id d4.size).get d4.size).name =
                subject := by
              rw [hmc2.2, hmc1.2, hgfe, hcfedef]
            have hfbmc := (keepsElems_trans hkeep4 (keepsElems_trans
              (keepsElems_alloc d4 cloneFE) (keepsElems_moveChildren
                (d4.alloc cloneFE).1 fb.id d4.size))) fb.id hfbfacts.2.1
            have hd5 : DomInv (((d4.alloc cloneFE).1.moveChildren fb.id
                d4.size).appendChild fb.id d4.size) := by
              apply domInv_appendChild _ _ _ ?_
                (domInv_moveChildren _ _ _ ?_
                  (domInv_alloc _ _ (by rw [hcfedef]) hd4))
              · intro _
                rw [hfbmc.2, hfbfacts.2.2]
                exact hfbfacts.1
              · intro _
                rw [hgfe, hcfedef]
                exact formatting_nonvoid hsubj
            have hkeep5 : keepsElems p.dom (((d4.alloc cloneFE).1.moveChildren
                fb.id d4.size).appendChild fb.id d4.size) :=
              keepsElems_trans hkeep4 (keepsElems_trans (keepsElems_alloc _ _)
                (keepsElems_trans (keepsElems_moveChildren _ _ _)
                  (keepsElems_appendChild _ _ _)))
            have hkeepI5 : keepsElems ist.p.dom (((d4.alloc
                cloneFE).1.moveChildren fb.id d4.size).appendChild fb.id
                d4.size) :=
              keepsElems_trans hkeepI4 (keepsElems_trans (keepsElems_alloc _ _)
                (keepsElems_trans (keepsElems_moveChildren _ _ _)
                  (keepsElems_appendChild _ _ _)))
            have hafe : ∀ bmv, AfeOK (afeInsertAt
                (afeRemoveId ist.p.active_formatting feId) bmv
                (.entry d4.size subject feAttrs)) := by
              intro bmv
              refine ⟨?_, ?_, ?_⟩
              · intro i n a hm
                rcases mem_afeInsertAt hm with heq | hm2
                · cases heq
                  exact hsubj
                · exact hinA.1 i n a ((List.filter_sublist _).subset hm2)
              · intro hm
                rcases mem_afeInsertAt hm with heq | hm2
                · cases heq
                · exact hinA.2.1 ((List.filter_sublist _).subset hm2)
              · intro n a
                rw [afeCount, countP_afeInsertAt]
                by_cases hk : afeKeyMatch n a
                    (AFEntry.entry d4.size subject feAttrs) = true
                · simp only [afeKeyMatch, Bool.and_eq_true,
                    decide_eq_true_eq] at hk
                  obtain ⟨rfl, rfl⟩ := hk
                  rw [if_pos (by simp [afeKeyMatch])]
                  have hlt := countP_remove_matching
                    (afeKeyMatch subject feAttrs)
                    (fun e => e.entryId ≠ some feId) ist.p.active_formatting
                    (.entry feId subject feAttrs) hinM
                    (by simp [afeKeyMatch]) (by simp [AFEntry.entryId])
                  have h3 := hinA.2.2 subject feAttrs
                  rw [afeCount] at h3
                  unfold afeRemoveId
                  omega
                · rw [if_neg hk]
                  have hle := List.Sublist.countP_le (afeKeyMatch n a)
                    (@List.filter_sublist AFEntry
                      (fun e => e.entryId ≠ some feId)
                      ist.p.active_formatting)
                  have h3 := hinA.2.2 n a
                  rw [afeCount] at h3
                  unfold afeRemoveId
                  omega
            have hstack : StackOK (((d4.alloc cloneFE).1.moveChildren fb.id
                d4.size).appendChild fb.id d4.size)
                (segAbove ++ [⟨d4.size, subject⟩, fb] ++
                  ist.keptRev.reverse ++ below) := by
              intro e he
              rcases List.mem_append.mp he with he1 | hbel
              · rcases List.mem_append.mp he1 with he2 | hkept
                · rcases List.mem_append.mp he2 with hsa | hmid
                  · exact stackOK_keeps h.2.1 hkeep5 e (hpresub (hsasub hsa))
                  · rcases List.mem_cons.mp hmid with rfl | hmid2
                    · exact ⟨formatting_nonvoid hsubj, hmc2.1, hfeName⟩
                    · rcases List.mem_cons.mp hmid2 with rfl | hnil
                      · exact stackOK_keeps h.2.1 hkeep5 e hfbmem
                      · cases hnil
                · rw [List.mem_reverse] at hkept
                  exact stackOK_keeps hinK hkeepI5 e hkept
              · exact stackOK_keeps h.2.1 hkeep5 e (hbelsub hbel)
            have hdoc : DocElemOK (((d4.alloc cloneFE).1.moveChildren fb.id
                d4.size).appendChild fb.id d4.size)
                ist.p.document_element := by
              rw [hinDE]
              exact docElemOK_keeps h.2.2.2 hkeep5
            cases hidx : afeIndexOfId ist.p.active_formatting feId with
            | none => exact absurd hidx (afeIndexOfId_ne_none hinM)
            | some k =>
              simp only [afeRemoveIdAdjust, hidx]
              refine ⟨(ih _ ?hco).1, (ih _ ?hco).2.trans ?hde⟩
              case hco => exact ⟨hd5, hstack, hafe _, hdoc⟩
              case hde => exact hinDE

/-! ## The in-body token handlers. -/

theorem coreOK_aaa (p : html_parser_t) (subject : String)
    (hsubj : html_is_formatting_element subject = true) (h : CoreOK p) :
    CoreOK (html_adoption_agency_algorithm p subject) ∧
    (html_adoption_agency_algorithm p subject).document_element =
      p.document_element :=
  coreOK_aaaOuter subject hsubj 8 p h

theorem pushFormatting_docElem (p : html_parser_t) (id : Nat) (name : String)
    (attrs : List (String × String)) :
    (pushFormatting p id name attrs).document_element =
      p.document_element := rfl

theorem insertVoid_docElem (p : html_parser_t) (name : String)
    (attrs : List (String × String)) :
    (insertVoidElement p name attrs).document_element =
      p.document_element := rfl

theorem insert_text_docElem (p : html_parser_t) (c : Char) :
    (html_insert_text p c).document_element = p.document_element := by
  cases hlast : (p.dom.get (currentTarget p)).children.getLast? with
  | none => simp [html_insert_text, hlast]
  | some lc =>
    simp only [html_insert_text, hlast]
    split_ifs <;> rfl

theorem coreOK_inBodyStartTag (p : html_parser_t) (name : String)
    (attrs : List (String × String)) (sc : Bool) (h : CoreOK p) :
    CoreOK (inBodyStartTag p name attrs sc) ∧
    (inBodyStartTag p name attrs sc).document_element =
      p.document_element := by
  unfold inBodyStartTag
  split_ifs with h1 h2 h3 h4 h5 h6
  · exact ⟨h, rfl⟩
  · exact ⟨h, rfl⟩
  · have hv : html_is_void_element name = false := by rw [h2]; decide
    have hi := coreOK_insert_element (noteSelfClosing (closePIfOpen p) sc)
      name attrs
      (coreOK_noteSelfClosing _ sc (coreOK_closePIfOpen p h)) hv
    refine ⟨⟨hi.1.1, hi.1.2.1, hi.1.2.2.1, hi.1.2.2.2⟩, ?_⟩
    exact (insert_element_docElem _ name attrs).trans
      ((noteSelfClosing_fields (closePIfOpen p) sc).2.2.2.trans
        (closePIfOpen_fields p).2.2.1)
  · have hv := blockCloseP_nonvoid h4
    have hi := coreOK_insert_element (noteSelfClosing (closePIfOpen p) sc)
      name attrs
      (coreOK_noteSelfClosing _ sc (coreOK_closePIfOpen p h)) hv
    refine ⟨hi.1, ?_⟩
    exact (insert_element_docElem _ name attrs).trans
      ((noteSelfClosing_fields (closePIfOpen p) sc).2.2.2.trans
        (closePIfOpen_fields p).2.2.1)
  · have hrec := coreOK_reconstruct (noteSelfClosing p sc)
      (coreOK_noteSelfClosing p sc h)
    have hv := formatting_nonvoid h5
    have hi := coreOK_insert_element _ name attrs hrec.1 hv
    simp only [hi.2, List.head?_cons]
    refine ⟨coreOK_pushFormatting _ _ name attrs hi.1 h5, ?_⟩
    exact (pushFormatting_docElem _ _ name attrs).trans
      ((insert_element_docElem _ name attrs).trans
        (hrec.2.trans (noteSelfClosing_fields p sc).2.2.2))
  · have hrec := coreOK_reconstruct p h
    refine ⟨coreOK_insertVoid _ name attrs hrec.1, ?_⟩
    exact (insertVoid_docElem _ name attrs).trans hrec.2
  · have hrec := coreOK_reconstruct (noteSelfClosing p sc)
      (coreOK_noteSelfClosing p sc h)
    have hv : html_is_void_element name = false := by simpa using h6
    have hi := coreOK_insert_element _ name attrs hrec.1 hv
    refine ⟨hi.1, ?_⟩
    exact (insert_element_docElem _ name attrs).trans
      (hrec.2.trans (noteSelfClosing_fields p sc).2.2.2)

theorem coreOK_inBodyEndTag (p : html_parser_t) (name : String)
    (h : CoreOK p) :
    CoreOK (inBodyEndTag p name) ∧
    (inBodyEndTag p name).document_element = p.document_element := by
  unfold inBodyEndTag
  split_ifs with h1 h2 h3 h4 h5 h6
  · exact ⟨h, rfl⟩
  · exact ⟨h, rfl⟩
  · exact ⟨coreOK_close_element p "p" h, rfl⟩
  · exact ⟨coreOK_close_element _ "p"
      (coreOK_insert_element (perr p _) "p" [] h (by decide)).1, rfl⟩
  · dsimp only
    split_ifs with hscope
    · exact ⟨coreOK_popUntilInclName _ "form"
        (coreOK_generateImplied _ none ⟨h.1, h.2.1, h.2.2.1, h.2.2.2⟩), rfl⟩
    · exact ⟨⟨h.1, h.2.1, h.2.2.1, h.2.2.2⟩, rfl⟩
  · exact coreOK_aaa p name h6 h
  · exact coreOK_anyOtherEndTag p name h p.open_elements

/-! ## One token dispatch preserves the master invariant. -/

theorem isSome_of_mode (p : html_parser_t)
    (hm : p.document_element.isSome = true ∨ p.mode = .MODE_INITIAL ∨
      p.mode = .MODE_BEFORE_HTML)
    (h1 : p.mode ≠ .MODE_INITIAL) (h2 : p.mode ≠ .MODE_BEFORE_HTML) :
    p.document_element.isSome = true := by
  rcases hm with hs | hI | hB
  · exact hs
  · exact absurd hI h1
  · exact absurd hB h2

theorem docElemTarget_ok (p : html_parser_t) (hc : CoreOK p) :
    targetOK p.dom ((p.document_element).getD 0) ∧
    (p.document_element).getD 0 < p.dom.size := by
  cases hde : p.document_element with
  | none =>
    simp only [Option.getD_none]
    exact ⟨targetOK_doc _ hc.1.2.1, hc.1.1⟩
  | some i =>
    simp only [Option.getD_some]
    have hdd := hc.2.2.2 i hde
    exact ⟨fun _ => by rw [hdd.2]; decide, elem_lt_size _ _ hdd.1⟩

theorem good_processOnce (p : html_parser_t) (t : HtmlToken) (h : Good p) :
    Good (processOnce p t).1 := by
  obtain ⟨hc, hm⟩ := h
  have hct := currentTarget_ok p hc.1 hc.2.1
  cases hmode : p.mode with
  | MODE_INITIAL =>
    cases t with
    | charTok c =>
      simp only [processOnce, hmode]
      split_ifs
      · exact ⟨hc, Or.inr (Or.inl hmode)⟩
      · exact ⟨hc, Or.inr (Or.inr rfl)⟩
    | commentTok s =>
      simp only [processOnce, hmode]
      exact ⟨coreOK_insert_comment p s 0 hc (targetOK_doc _ hc.1.2.1) hc.1.1,
        Or.inr (Or.inl hmode)⟩
    | doctypeTok n =>
      simp only [processOnce, hmode]
      exact ⟨coreOK_appendDoctype p n hc, Or.inr (Or.inr rfl)⟩
    | startTag n attrs sc =>
      simp only [processOnce, hmode]
      exact ⟨hc, Or.inr (Or.inr rfl)⟩
    | endTag n =>
      simp only [processOnce, hmode]
      exact ⟨hc, Or.inr (Or.inr rfl)⟩
    | eofTok =>
      simp only [processOnce, hmode]
      exact ⟨hc, Or.inr (Or.inr rfl)⟩
  | MODE_BEFORE_HTML =>
    cases t with
    | charTok c =>
      simp only [processOnce, hmode]
      split_ifs
      · exact ⟨hc, Or.inr (Or.inr hmode)⟩
      · have hch := good_createHtmlElem p [] hc
        exact ⟨hch.1, Or.inl hch.2⟩
    | commentTok s =>
      simp only [processOnce, hmode]
      exact ⟨coreOK_insert_comment p s 0 hc (targetOK_doc _ hc.1.2.1) hc.1.1,
        Or.inr (Or.inr hmode)⟩
    | doctypeTok n =>
      simp only [processOnce, hmode]
      exact ⟨hc, Or.inr (Or.inr hmode)⟩
    | startTag n attrs sc =>
      simp only [processOnce, hmode]
      split_ifs
      · have hch := good_createHtmlElem p attrs hc
        exact ⟨hch.1, Or.inl hch.2⟩
      · have hch := good_createHtmlElem p [] hc
        exact ⟨hch.1, Or.inl hch.2⟩
    | endTag n =>
      simp only [processOnce, hmode]
      split_ifs
      · have hch := good_createHtmlElem p [] hc
        exact ⟨hch.1, Or.inl hch.2⟩
      · exact ⟨hc, Or.inr (Or.inr hmode)⟩
    | eofTok =>
      simp only [processOnce, hmode]
      have hch := good_createHtmlElem p [] hc
      exact ⟨hch.1, Or.inl hch.2⟩
  | MODE_BEFORE_HEAD =>
    have hs := isSome_of_mode p hm (by rw [hmode]; decide)
      (by rw [hmode]; decide)
    cases t with
    | charTok c =>
      simp only [processOnce, hmode]
      split_ifs
      · exact ⟨hc, Or.inl hs⟩
      · have hi := coreOK_insertHeadElem p [] hc
        exact ⟨hi.1, Or.inl (by rw [hi.2]; exact hs)⟩
    | commentTok s =>
      simp only [processOnce, hmode]
      exact ⟨coreOK_insert_comment p s _ hc hct.1 hct.2, Or.inl hs⟩
    | doctypeTok n =>
      simp only [processOnce, hmode]
      exact ⟨hc, Or.inl hs⟩
    | startTag n attrs sc =>
      simp only [processOnce, hmode]
      split_ifs
      · exact ⟨hc, Or.inl hs⟩
      · have hi := coreOK_insertHeadElem p attrs hc
        exact ⟨hi.1, Or.inl (by rw [hi.2]; exact hs)⟩
      · have hi := coreOK_insertHeadElem p [] hc
        exact ⟨hi.1, Or.inl (by rw [hi.2]; exact hs)⟩
    | endTag n =>
      simp only [processOnce, hmode]
      split_ifs
      · have hi := coreOK_insertHeadElem p [] hc
        exact ⟨hi.1, Or.inl (by rw [hi.2]; exact hs)⟩
      · exact ⟨hc, Or.inl hs⟩
    | eofTok =>
      simp only [processOnce, hmode]
      have hi := coreOK_insertHeadElem p [] hc
      exact ⟨hi.1, Or.inl (by rw [hi.2]; exact hs)⟩
  | MODE_IN_HEAD =>
    have hs := isSome_of_mode p hm (by rw [hmode]; decide)
      (by rw [hmode]; decide)
    cases t with
    | charTok c =>
      simp only [processOnce, hmode]
      split_ifs
      · exact ⟨coreOK_insert_text p c hc,
          Or.inl (by rw [insert_text_docElem]; exact hs)⟩
      · exact ⟨coreOK_popOpen p hc, Or.inl hs⟩
    | commentTok s =>
      simp only [processOnce, hmode]
      exact ⟨coreOK_insert_comment p s _ hc hct.1 hct.2, Or.inl hs⟩
    | doctypeTok n =>
      simp only [processOnce, hmode]
      exact ⟨hc, Or.inl hs⟩
    | startTag n attrs sc =>
      simp only [processOnce, hmode]
      split_ifs
      · exact ⟨hc, Or.inl hs⟩
      · exact ⟨coreOK_insertVoid p n attrs hc, Or.inl hs⟩
      · exact ⟨coreOK_popOpen p hc, Or.inl hs⟩
    | endTag n =>
      simp only [processOnce, hmode]
      split_ifs
      · exact ⟨coreOK_popOpen p hc, Or.inl hs⟩
      · exact ⟨coreOK_popOpen p hc, Or.inl hs⟩
      · exact ⟨hc, Or.inl hs⟩
    | eofTok =>
      simp only [processOnce, hmode]
      exact ⟨coreOK_popOpen p hc, Or.inl hs⟩
  | MODE_AFTER_HEAD =>
    have hs := isSome_of_mode p hm (by rw [hmode]; decide)
      (by rw [hmode]; decide)
    cases t with
    | charTok c =>
      simp only [processOnce, hmode]
      split_ifs
      · exact ⟨coreOK_insert_text p c hc,
          Or.inl (by rw [insert_text_docElem]; exact hs)⟩
      · have hi := coreOK_insertBodyElem p [] hc
        exact ⟨hi.1, Or.inl (by rw [hi.2]; exact hs)⟩
    | commentTok s =>
      simp only [processOnce, hmode]
      exact ⟨coreOK_insert_comment p s _ hc hct.1 hct.2, Or.inl hs⟩
    | doctypeTok n =>
      simp only [processOnce, hmode]
      exact ⟨hc, Or.inl hs⟩
    | startTag n attrs sc =>
      simp only [processOnce, hmode]
      split_ifs
      · exact ⟨hc, Or.inl hs⟩
      · have hi := coreOK_insertBodyElem p attrs hc
        exact ⟨hi.1, Or.inl (by rw [hi.2]; exact hs)⟩
      · have hi := coreOK_insertBodyElem p [] hc
        exact ⟨hi.1, Or.inl (by rw [hi.2]; exact hs)⟩
    | endTag n =>
      simp only [processOnce, hmode]
      split_ifs
      · have hi := coreOK_insertBodyElem p [] hc
        exact ⟨hi.1, Or.inl (by rw [hi.2]; exact hs)⟩
      · exact ⟨hc, Or.inl hs⟩
    | eofTok =>
      simp only [processOnce, hmode]
      have hi := coreOK_insertBodyElem p [] hc
      exact ⟨hi.1, Or.inl (by rw [hi.2]; exact hs)⟩
  | MODE_IN_BODY =>
    have hs := isSome_of_mode p hm (by rw [hmode]; decide)
      (by rw [hmode]; decide)
    cases t with
    | charTok c =>
      simp only [processOnce, hmode]
      have hrec := coreOK_reconstruct p hc
      refine ⟨coreOK_insert_text _ c hrec.1, Or.inl ?_⟩
      rw [insert_text_docElem, hrec.2]
      exact hs
    | commentTok s =>
      simp only [processOnce, hmode]
      exact ⟨coreOK_insert_comment p s _ hc hct.1 hct.2, Or.inl hs⟩
    | doctypeTok n =>
      simp only [processOnce, hmode]
      exact ⟨hc, Or.inl hs⟩
    | startTag n attrs sc =>
      simp only [processOnce, hmode]
      have hi := coreOK_inBodyStartTag p n attrs sc hc
      exact ⟨hi.1, Or.inl (by rw [hi.2]; exact hs)⟩
    | endTag n =>
      simp only [processOnce, hmode]
      split_ifs
      · exact ⟨hc, Or.inl hs⟩
      · exact ⟨hc, Or.inl hs⟩
      · have hi := coreOK_inBodyEndTag p n hc
        exact ⟨hi.1, Or.inl (by rw [hi.2]; exact hs)⟩
    | eofTok =>
      simp only [processOnce, hmode]
      exact ⟨hc, Or.inl hs⟩
  | MODE_AFTER_BODY =>
    have hs := isSome_of_mode p hm (by rw [hmode]; decide)
      (by rw [hmode]; decide)
    have hdt := docElemTarget_ok p hc
    cases t with
    | charTok c =>
      simp only [processOnce, hmode]
      split_ifs
      · have hrec := coreOK_reconstruct p hc
        refine ⟨coreOK_insert_text _ c hrec.1, Or.inl ?_⟩
        rw [insert_text_docElem, hrec.2]
        exact hs
      · exact ⟨hc, Or.inl hs⟩
    | commentTok s =>
      simp only [processOnce, hmode]
      exact ⟨coreOK_insert_comment p s _ hc hdt.1 hdt.2, Or.inl hs⟩
    | doctypeTok n =>
      simp only [processOnce, hmode]
      exact ⟨hc, Or.inl hs⟩
    | startTag n attrs sc =>
      simp only [processOnce, hmode]
      exact ⟨hc, Or.inl hs⟩
    | endTag n =>
      simp only [processOnce, hmode]
      split_ifs
      · exact ⟨hc, Or.inl hs⟩
      · exact ⟨hc, Or.inl hs⟩
    | eofTok =>
      simp only [processOnce, hmode]
      exact ⟨hc, Or.inl hs⟩
  | MODE_AFTER_AFTER_BODY =>
    have hs := isSome_of_mode p hm (by rw [hmode]; decide)
      (by rw [hmode]; decide)
    cases t with
    | charTok c =>
      simp only [processOnce, hmode]
      split_ifs
      · have hrec := coreOK_reconstruct p hc
        refine ⟨coreOK_insert_text _ c hrec.1, Or.inl ?_⟩
        rw [insert_text_docElem, hrec.2]
        exact hs
      · exact ⟨hc, Or.inl hs⟩
    | commentTok s =>
      simp only [processOnce, hmode]
      exact ⟨coreOK_insert_comment p s 0 hc (targetOK_doc _ hc.1.2.1) hc.1.1,
        Or.inl hs⟩
    | doctypeTok n =>
      simp only [processOnce, hmode]
      exact ⟨hc, Or.inl hs⟩
    | startTag n attrs sc =>
      simp only [processOnce, hmode]
      exact ⟨hc, Or.inl hs⟩
    | endTag n =>
      simp only [processOnce, hmode]
      exact ⟨hc, Or.inl hs⟩
    | eofTok =>
      simp only [processOnce, hmode]
      exact ⟨hc, Or.inl hs⟩
  | MODE_IN_TABLE =>
    have hs := isSome_of_mode p hm (by rw [hmode]; decide)
      (by rw [hmode]; decide)
    cases t <;> (simp only [processOnce, hmode]; exact ⟨hc, Or.inl hs⟩)
  | MODE_IN_TABLE_BODY =>
    have hs := isSome_of_mode p hm (by rw [hmode]; decide)
      (by rw [hmode]; decide)
    cases t <;> (simp only [processOnce, hmode]; exact ⟨hc, Or.inl hs⟩)
  | MODE_IN_ROW =>
    have hs := isSome_of_mode p hm (by rw [hmode]; decide)
      (by rw [hmode]; decide)
    cases t <;> (simp only [processOnce, hmode]; exact ⟨hc, Or.inl hs⟩)
  | MODE_IN_CELL =>
    have hs := isSome_of_mode p hm (by rw [hmode]; decide)
      (by rw [hmode]; decide)
    cases t <;> (simp only [processOnce, hmode]; exact ⟨hc, Or.inl hs⟩)
  | MODE_IN_SELECT =>
    have hs := isSome_of_mode p hm (by rw [hmode]; decide)
      (by rw [hmode]; decide)
    cases t <;> (simp only [processOnce, hmode]; exact ⟨hc, Or.inl hs⟩)
  | MODE_IN_TEMPLATE =>
    have hs := isSome_of_mode p hm (by rw [hmode]; decide)
      (by rw [hmode]; decide)
    cases t <;> (simp only [processOnce, hmode]; exact ⟨hc, Or.inl hs⟩)
  | MODE_IN_FRAMESET =>
    have hs := isSome_of_mode p hm (by rw [hmode]; decide)
      (by rw [hmode]; decide)
    cases t <;> (simp only [processOnce, hmode]; exact ⟨hc, Or.inl hs⟩)
  | MODE_AFTER_FRAMESET =>
    have hs := isSome_of_mode p hm (by rw [hmode]; decide)
      (by rw [hmode]; decide)
    cases t <;> (simp only [processOnce, hmode]; exact ⟨hc, Or.inl hs⟩)

/-! ## The invariant holds at every token boundary. -/

theorem good_processLoop : ∀ (fuel : Nat) (p : html_parser_t) (t : HtmlToken),
    Good p → Good (processLoop fuel p t) := by
  intro fuel
  induction fuel with
  | zero => intro p t h; exact h
  | succ fuel ih =>
    intro p t h
    simp only [processLoop]
    split_ifs with hb
    · exact ih _ t (good_processOnce p t h)
    · exact good_processOnce p t h

theorem good_process_token (p : html_parser_t) (t : HtmlToken) (h : Good p) :
    Good (html_process_token p t) :=
  good_processLoop 16 p t h

theorem good_processTokens : ∀ (ts : List HtmlToken) (p : html_parser_t),
    Good p → Good (processTokens p ts) := by
  intro ts
  induction ts with
  | nil => intro p h; exact h
  | cons t ts ih =>
    intro p h
    simp only [processTokens, List.foldl_cons]
    exact ih _ (good_process_token p t h)

theorem good_initParser : Good initParser := by
  refine ⟨⟨⟨?_, ?_, ?_⟩, ?_, ⟨?_, ?_, ?_⟩, ?_⟩, Or.inr (Or.inl rfl)⟩
  · decide
  · decide
  · intro i h1 h2
    exfalso
    cases i with
    | zero => exact absurd h1 (by decide)
    | succ j =>
      rw [Dom.get_oob _ _
        (Nat.succ_le_succ (Nat.zero_le j) :
          initParser.dom.size ≤ j + 1)] at h1
      exact absurd h1 (by decide)
  · exact fun e he => absurd he (List.not_mem_nil e)
  · exact fun i n a hm => absurd hm (List.not_mem_nil _)
  · exact fun hm => absurd hm (List.not_mem_nil _)
  · intro n a
    rw [afeCount]
    exact Nat.zero_le 3
  · intro i hi
    cases hi

theorem good_parseStatePrefix (s : String) (n : Nat) :
    Good (parseStatePrefix s n) :=
  good_processTokens _ _ good_initParser

/-! ## End-of-file processing always leaves a registered documentElement:
from any mode the eof token drives the implicit html, head and body
construction chain to completion. -/

theorem insertHeadElem_mode (p : html_parser_t)
    (a : List (String × String)) :
    (insertHeadElem p a).mode = .MODE_IN_HEAD := rfl

theorem insertBodyElem_mode (p : html_parser_t)
    (a : List (String × String)) :
    (insertBodyElem p a).mode = .MODE_IN_BODY := rfl

theorem processLoop_step_true (fuel : Nat) (p q : html_parser_t)
    (t : HtmlToken) (hq : processOnce p t = (q, true)) :
    processLoop (fuel + 1) p t = processLoop fuel q t := by
  simp [processLoop, hq]

theorem processLoop_step_false (fuel : Nat) (p q : html_parser_t)
    (t : HtmlToken) (hq : processOnce p t = (q, false)) :
    processLoop (fuel + 1) p t = q := by
  simp [processLoop, hq]

theorem eof_isSome_loop : ∀ (fuel : Nat) (p : html_parser_t), Good p →
    (p.mode = .MODE_INITIAL → 6 ≤ fuel) →
    (p.mode = .MODE_BEFORE_HTML → 5 ≤ fuel) →
    (p.mode = .MODE_BEFORE_HEAD → 4 ≤ fuel) →
    (p.mode = .MODE_IN_HEAD → 3 ≤ fuel) →
    (p.mode = .MODE_AFTER_HEAD → 2 ≤ fuel) →
    1 ≤ fuel →
    (processLoop fuel p .eofTok).document_element.isSome = true := by
  intro fuel
  induction fuel with
  | zero => intro p h r1 r2 r3 r4 r5 r6; omega
  | succ fuel ih =>
    intro p h r1 r2 r3 r4 r5 r6
    cases hmode : p.mode with
    | MODE_INITIAL =>
      have hq : processOnce p .eofTok =
          ({ p with mode := .MODE_BEFORE_HTML }, true) := by
        simp [processOnce, hmode]
      rw [processLoop_step_true fuel p _ _ hq]
      exact ih _ ⟨h.1, Or.inr (Or.inr rfl)⟩
        (fun hx => by simp at hx)
        (fun _ => by have := r1 hmode; omega)
        (fun hx => by simp at hx)
        (fun hx => by simp at hx)
        (fun hx => by simp at hx)
        (by have := r1 hmode; omega)
    | MODE_BEFORE_HTML =>
      have hq : processOnce p .eofTok = (createHtmlElem p [], true) := by
        simp [processOnce, hmode]
      rw [processLoop_step_true fuel p _ _ hq]
      have hch := good_createHtmlElem p [] h.1
      exact ih _ ⟨hch.1, Or.inl hch.2⟩
        (fun hx => absurd hx (by rw [createHtmlElem_mode]; decide))
        (fun hx => absurd hx (by rw [createHtmlElem_mode]; decide))
        (fun _ => by have := r2 hmode; omega)
        (fun hx => absurd hx (by rw [createHtmlElem_mode]; decide))
        (fun hx => absurd hx (by rw [createHtmlElem_mode]; decide))
        (by have := r2 hmode; omega)
    | MODE_BEFORE_HEAD =>
      have hs := isSome_of_mode p h.2 (by rw [hmode]; decide)
        (by rw [hmode]; decide)
      have hq : processOnce p .eofTok = (insertHeadElem p [], true) := by
        simp [processOnce, hmode]
      rw [processLoop_step_true fuel p _ _ hq]
      have hi := coreOK_insertHeadElem p [] h.1
      exact ih _ ⟨hi.1, Or.inl (by rw [hi.2]; exact hs)⟩
        (fun hx => absurd hx (by rw [insertHeadElem_mode]; decide))
        (fun hx => absurd hx (by rw [insertHeadElem_mode]; decide))
        (fun hx => absurd hx (by rw [insertHeadElem_mode]; decide))
        (fun _ => by have := r3 hmode; omega)
        (fun hx => absurd hx (by rw [insertHeadElem_mode]; decide))
        (by have := r3 hmode; omega)
    | MODE_IN_HEAD =>
      have hs := isSome_of_mode p h.2 (by rw [hmode]; decide)
        (by rw [hmode]; decide)
      have hq : processOnce p .eofTok =
          ({ popOpen p with mode := .MODE_AFTER_HEAD }, true) := by
        simp [processOnce, hmode]
      rw [processLoop_step_true fuel p _ _ hq]
      exact ih _ ⟨coreOK_popOpen p h.1, Or.inl hs⟩
        (fun hx => by simp at hx)
        (fun hx => by simp at hx)
        (fun hx => by simp at hx)
        (fun hx => by simp at hx)
        (fun _ => by have := r4 hmode; omega)
        (by have := r4 hmode; omega)
    | MODE_AFTER_HEAD =>
      have hs := isSome_of_mode p h.2 (by rw [hmode]; decide)
        (by rw [hmode]; decide)
      have hq : processOnce p .eofTok = (insertBodyElem p [], true) := by
        simp [processOnce, hmode]
      rw [processLoop_step_true fuel p _ _ hq]
      have hi := coreOK_insertBodyElem p [] h.1
      exact ih _ ⟨hi.1, Or.inl (by rw [hi.2]; exact hs)⟩
        (fun hx => absurd hx (by rw [insertBodyElem_mode]; decide))
        (fun hx => absurd hx (by rw [insertBodyElem_mode]; decide))
        (fun hx => absurd hx (by rw [insertBodyElem_mode]; decide))
        (fun hx => absurd hx (by rw [insertBodyElem_mode]; decide))
        (fun hx => absurd hx (by rw [insertBodyElem_mode]; decide))
        (by have := r5 hmode; omega)
    | MODE_IN_BODY =>
      have hs := isSome_of_mode p h.2 (by rw [hmode]; decide)
        (by rw [hmode]; decide)
      have hq : processOnce p .eofTok = ({ p with stopped := true }, false) := by
        simp [processOnce, hmode]
      rw [processLoop_step_false fuel p _ _ hq]
      exact hs
    | MODE_AFTER_BODY =>
      have hs := isSome_of_mode p h.2 (by rw [hmode]; decide)
        (by rw [hmode]; decide)
      have hq : processOnce p .eofTok = ({ p with stopped := true }, false) := by
        simp [processOnce, hmode]
      rw [processLoop_step_false fuel p _ _ hq]
      exact hs
    | MODE_AFTER_AFTER_BODY =>
      have hs := isSome_of_mode p h.2 (by rw [hmode]; decide)
        (by rw [hmode]; decide)
      have hq : processOnce p .eofTok = ({ p with stopped := true }, false) := by
        simp [processOnce, hmode]
      rw [processLoop_step_false fuel p _ _ hq]
      exact hs
    | MODE_IN_TABLE =>
      have hs := isSome_of_mode p h.2 (by rw [hmode]; decide)
        (by rw [hmode]; decide)
      have hq : processOnce p .eofTok = ({ p with stopped := true }, false) := by
        simp [processOnce, hmode]
      rw [processLoop_step_false fuel p _ _ hq]
      exact hs
    | MODE_IN_TABLE_BODY =>
      have hs := isSome_of_mode p h.2 (by rw [hmode]; decide)
        (by rw [hmode]; decide)
      have hq : processOnce p .eofTok = ({ p with stopped := true }, false) := by
        simp [processOnce, hmode]
      rw [processLoop_step_false fuel p _ _ hq]
      exact hs
    | MODE_IN_ROW =>
      have hs := isSome_of_mode p h.2 (by rw [hmode]; decide)
        (by rw [hmode]; decide)
      have hq : processOnce p .eofTok = ({ p with stopped := true }, false) := by
        simp [processOnce, hmode]
      rw [processLoop_step_false fuel p _ _ hq]
      exact hs
    | MODE_IN_CELL =>
      have hs := isSome_of_mode p h.2 (by rw [hmode]; decide)
        (by rw [hmode]; decide)
      have hq : processOnce p .eofTok = ({ p with stopped := true }, false) := by
        simp [processOnce, hmode]
      rw [processLoop_step_false fuel p _ _ hq]
      exact hs
    | MODE_IN_SELECT =>
      have hs := isSome_of_mode p h.2 (by rw [hmode]; decide)
        (by rw [hmode]; decide)
      have hq : processOnce p .eofTok = ({ p with stopped := true }, false) := by
        simp [processOnce, hmode]
      rw [processLoop_step_false fuel p _ _ hq]
      exact hs
    | MODE_IN_TEMPLATE =>
      have hs := isSome_of_mode p h.2 (by rw [hmode]; decide)
        (by rw [hmode]; decide)
      have hq : processOnce p .eofTok = ({ p with stopped := true }, false) := by
        simp [processOnce, hmode]
      rw [processLoop_step_false fuel p _ _ hq]
      exact hs
    | MODE_IN_FRAMESET =>
      have hs := isSome_of_mode p h.2 (by rw [hmode]; decide)
        (by rw [hmode]; decide)
      have hq : processOnce p .eofTok = ({ p with stopped := true }, false) := by
        simp [processOnce, hmode]
      rw [processLoop_step_false fuel p _ _ hq]
      exact hs
    | MODE_AFTER_FRAMESET =>
      have hs := isSome_of_mode p h.2 (by rw [hmode]; decide)
        (by rw [hmode]; decide)
      have hq : processOnce p .eofTok = ({ p with stopped := true }, false) := by
        simp [processOnce, hmode]
      rw [processLoop_step_false fuel p _ _ hq]
      exact hs

theorem eof_isSome (p : html_parser_t) (h : Good p) :
    (html_process_token p .eofTok).document_element.isSome = true :=
  eof_isSome_loop 16 p h (fun _ => by omega) (fun _ => by omega)
    (fun _ => by omega) (fun _ => by omega) (fun _ => by omega) (by omega)

theorem htmlParse_isSome (s : String) (hs : s ≠ "") :
    ∃ d, html_parse s = some d ∧ d.document_element.isSome = true := by
  refine ⟨finishDocument (html_parse_core s), ?_, ?_⟩
  · rw [html_parse, if_neg hs]
  · show (html_parse_core s).document_element.isSome = true
    rw [html_parse_core, processTokens, htmlTokenize, List.foldl_append,
      List.foldl_cons, List.foldl_nil]
    exact eof_isSome _ (good_processTokens _ _ good_initParser)

/-! ## C1 -/

/-- Claim C1 counterexample: the claim says html_parse returns a Document
for every input string including the empty one, but per spec section 7 an
empty input stream is a contract violation that fails before any token is
produced, so html_parse of the empty string returns no Document at
all. -/
theorem C1_counterexample : html_parse "" = none := rfl

/-- Claim C1, amended: for every nonempty input string, html_parse
terminates (it is a total function) and returns a Document whose
documentElement is non-null; in particular an input with no tag or text
character still produces the implicit empty html, head, body skeleton. -/
theorem C1_amended :
    (∀ s : String, s ≠ "" →
      ∃ d, html_parse s = some d ∧ d.document_element.isSome = true) ∧
    documentElementTree " " =
      .elem "html" [.elem "head" [], .elem "body" []] ∧
    documentElementTree "<!--x-->" =
      .elem "html" [.elem "head" [], .elem "body" []] :=
  ⟨fun s hs => htmlParse_isSome s hs, by rfl, by rfl⟩

/-- Claim C1 witness: the amended statement applied at the concrete
nonempty input consisting of a single letter. -/
theorem C1_witness :
    ("x" : String) ≠ "" ∧
    (∃ d, html_parse "x" = some d ∧ d.document_element.isSome = true) :=
  ⟨by decide, C1_amended.1 "x" (by decide)⟩

/-! ## C4 -/

/-- Claim C4: at every point during parsing (after each processed token),
the segment of the ActiveFormattingList between the list start and the
nearest marker holds at most three entries with identical tag name and
attribute set; concretely, pushing a fourth identical b entry evicts the
earliest of the prior three from the list while the document tree keeps
all four b elements. -/
theorem C4_theorem :
    (∀ (s : String) (n : Nat), noahOK (parseStatePrefix s n)) ∧
    (html_parse_core "<b><b><b><b>").active_formatting =
      [.entry 7 "b" [], .entry 6 "b" [], .entry 5 "b" []] ∧
    bodyTree "<b><b><b><b>x" =
      .elem "body" [.elem "b" [.elem "b" [.elem "b"
        [.elem "b" [.text "x"]]]]] := by
  refine ⟨?_, by rfl, by rfl⟩
  intro s n name attrs
  have hg := good_parseStatePrefix s n
  rw [takeWhile_real_of_noMarker _ hg.1.2.2.1.2.1]
  exact hg.1.2.2.1.2.2 name attrs

/-! ## C7 -/

/-- Claim C7: at every point during parsing (after each processed token),
no void element tag name is present on the OpenElementsStack, and no void
element node of the document arena has children; concretely, a br and an
img followed by text keep both void elements childless with the text as
their siblings. -/
theorem C7_theorem :
    (∀ (s : String) (n : Nat), voidOK (parseStatePrefix s n)) ∧
    bodyTree "<br>tx<img src=1>more" =
      .elem "body" [.elem "br" [], .text "tx", .elem "img" [],
        .text "more"] := by
  refine ⟨?_, by rfl⟩
  intro s n
  have hg := good_parseStatePrefix s n
  exact ⟨fun e he => (hg.1.2.1 e he).1, fun i h1 h2 => hg.1.1.2.2 i h1 h2⟩
